import Mathlib

/-!
# C-Minus front end: scanner, symbol table, semantic analyzer

A shallow embedding of `scan.c`, `symtab.c` and `analyze.c`.

Conventions of the embedding.

* The source stream is a list of characters; the C value `EOF` is `none`
  and every character read is `some c`, so `EOF` differs from every
  character (as it does for 7-bit text, or with an unsigned `char`).
* `isdigit` and `isalpha` are those of the "C" locale.
* `fgets` and `strlen` are modelled as the C library defines them: a line
  is cut at the first NUL character it holds.
* Constants of `globals.h` (`MAXTOKENLEN`) are parameters.
-/

namespace CMinus

/-! ## scan.c -/

/-- Token kinds, as enumerated by `printToken` in `util.c`. -/
inductive TokenType
  | ENDFILE | ERROR
  | IF | ELSE | WHILE | RETURN | INT | VOID
  | ID | NUM
  | ASSIGN | EQ | NE | LT | LE | GT | GE
  | PLUS | MINUS | TIMES | OVER
  | LPAREN | RPAREN | LBRACE | RBRACE | LCURLY | RCURLY | SEMI | COMMA
  deriving DecidableEq, Repr

/-- States of the scanner DFA. -/
inductive StateType
  | START | INNUM | INID | DONE
  | INEQ | INLT | INGT | INNE
  | INOVER | INCOMMENT | INCOMMENT_
  deriving DecidableEq, Repr

/-- Length of the input buffer for source lines. -/
def BUFLEN : Nat := 256

/-- The NUL character, terminator of C strings. -/
def NUL : Char := Char.ofNat 0

/-- C `strlen` of a buffer whose stored characters are `l` followed by a
terminating NUL: the number of characters before the first NUL. -/
def strlen (l : List Char) : Nat := (l.takeWhile (fun c => c ≠ NUL)).length

/-- The C string held by a buffer: the characters before the first NUL. -/
def cstr (l : List Char) : List Char := l.takeWhile (fun c => c ≠ NUL)

/-- Reads at most `k` characters from the stream, stopping after a newline;
returns the characters read and the rest of the stream. -/
def fgetsAux : Nat → List Char → List Char × List Char
  | 0, src => ([], src)
  | _ + 1, [] => ([], [])
  | k + 1, c :: rest =>
    if c = '\n' then ([c], rest)
    else ((fgetsAux k rest).1.cons c, (fgetsAux k rest).2)

/-- C `fgets(buf, n, stream)`: reads at most `n - 1` characters, stopping
after a newline; `none` (the NULL result) at end of file. -/
def fgets (n : Nat) (src : List Char) : Option (List Char × List Char) :=
  match src with
  | [] => none
  | _ :: _ => some (fgetsAux (n - 1) src)

/-- The static variables of `scan.c` together with the source stream and
the global line counter. `lineBuf` holds the characters stored by the last
`fgets` (without the terminator). -/
structure Scanner where
  source : List Char
  lineBuf : List Char
  linepos : Nat
  bufsize : Nat
  EOF_flag : Bool
  lineno : Nat
  deriving DecidableEq, Repr

/-- The scanner before the first call, on the given source text. -/
def Scanner.init (src : List Char) : Scanner :=
  { source := src, lineBuf := [], linepos := 0, bufsize := 0, EOF_flag := false, lineno := 0 }

/-- Fetches the next character from `lineBuf`, reading in a new line when
`lineBuf` is exhausted; `none` is `EOF`. -/
def getNextChar (s : Scanner) : Option Char × Scanner :=
  if ¬ (s.linepos < s.bufsize) then
    match fgets (BUFLEN - 1) s.source with
    | some (line, rest) =>
      (some (line.getD 0 NUL),
        { s with lineno := s.lineno + 1, source := rest, lineBuf := line,
                 bufsize := strlen line, linepos := 1 })
    | none => (none, { s with lineno := s.lineno + 1, EOF_flag := true })
  else
    (some (s.lineBuf.getD s.linepos NUL), { s with linepos := s.linepos + 1 })

/-- Backtracks one character in `lineBuf`, unless end of file was hit. -/
def ungetNextChar (s : Scanner) : Scanner :=
  if ¬ s.EOF_flag then { s with linepos := s.linepos - 1 } else s

/-- The table of reserved words. -/
def reservedWords : List (List Char × TokenType) :=
  [("if".toList, .IF), ("else".toList, .ELSE), ("while".toList, .WHILE),
   ("return".toList, .RETURN), ("int".toList, .INT), ("void".toList, .VOID)]

/-- Linear search of the reserved-word table from entry `tbl` on. -/
def reservedLookupFrom : List (List Char × TokenType) → List Char → TokenType
  | [], _ => .ID
  | (w, tok) :: tbl, s => if s = w then tok else reservedLookupFrom tbl s

/-- Looks up an identifier to see whether it is a reserved word. -/
def reservedLookup (s : List Char) : TokenType := reservedLookupFrom reservedWords s

/-- C `isdigit` on the `int` returned by `getNextChar`. -/
def isdigit (c : Option Char) : Bool :=
  match c with
  | some ch => ch.isDigit
  | none => false

/-- C `isalpha` on the `int` returned by `getNextChar`. -/
def isalpha (c : Option Char) : Bool :=
  match c with
  | some ch => ch.isAlpha
  | none => false

/-- The character stored by `tokenString[i] = (char) c`. -/
def toChar (c : Option Char) : Char :=
  match c with
  | some ch => ch
  | none => Char.ofNat 255

/-- Token of the `switch (c)` in state START for a character that opens no
multi-character token; `EOF` is handled by the caller. -/
def startToken (ch : Char) : TokenType :=
  if ch = '+' then .PLUS
  else if ch = '-' then .MINUS
  else if ch = '*' then .TIMES
  else if ch = '(' then .LPAREN
  else if ch = ')' then .RPAREN
  else if ch = '[' then .LBRACE
  else if ch = ']' then .RBRACE
  else if ch = '{' then .LCURLY
  else if ch = '}' then .RCURLY
  else if ch = ';' then .SEMI
  else if ch = ',' then .COMMA
  else .ERROR

/-- One pass through the `switch (state)` of `getToken`, on the character
`c` just read: the new state, the current token, the `save` flag and the
scanner (changed by `ungetNextChar`). -/
def switchState (state : StateType) (c : Option Char) (currentToken : TokenType)
    (s : Scanner) : StateType × TokenType × Bool × Scanner :=
  match state with
  | .START =>
    if isdigit c then (.INNUM, currentToken, true, s)
    else if isalpha c then (.INID, currentToken, true, s)
    else if c = some ' ' ∨ c = some '\t' ∨ c = some '\n' then (.START, currentToken, false, s)
    else if c = some '=' then (.INEQ, currentToken, false, s)
    else if c = some '<' then (.INLT, currentToken, false, s)
    else if c = some '>' then (.INGT, currentToken, false, s)
    else if c = some '!' then (.INNE, currentToken, true, s)
    else if c = some '/' then (.INOVER, currentToken, false, s)
    else
      match c with
      | none => (.DONE, .ENDFILE, false, s)
      | some ch => (.DONE, startToken ch, true, s)
  | .INEQ =>
    if c = some '=' then (.DONE, .EQ, false, s)
    else (.DONE, .ASSIGN, false, ungetNextChar s)
  | .INLT =>
    if c = some '=' then (.DONE, .LE, false, s)
    else (.DONE, .LT, false, ungetNextChar s)
  | .INGT =>
    if c = some '=' then (.DONE, .GE, false, s)
    else (.DONE, .GT, false, ungetNextChar s)
  | .INNE =>
    if c = some '=' then (.DONE, .NE, false, s)
    else (.DONE, .ERROR, false, ungetNextChar s)
  | .INOVER =>
    if c = some '*' then (.INCOMMENT, currentToken, false, s)
    else if c = none then (.DONE, .ENDFILE, false, s)
    else (.DONE, .OVER, false, ungetNextChar s)
  | .INCOMMENT =>
    if c = some '*' then (.INCOMMENT_, currentToken, false, s)
    else if c = none then (.DONE, .ENDFILE, false, s)
    else (.INCOMMENT, currentToken, false, s)
  | .INCOMMENT_ =>
    if c = some '/' then (.START, currentToken, false, s)
    else if c = none then (.DONE, .ENDFILE, false, s)
    else (.INCOMMENT, currentToken, false, s)
  | .INNUM =>
    if ¬ isdigit c then (.DONE, .NUM, false, ungetNextChar s)
    else (.INNUM, currentToken, true, s)
  | .INID =>
    if ¬ isalpha c ∧ ¬ isdigit c then (.DONE, .ID, false, ungetNextChar s)
    else (.INID, currentToken, true, s)
  | .DONE => (.DONE, .ERROR, true, s)

/-- The `while (state != DONE)` loop of `getToken`. `tokenString` is the
list of characters stored so far, so `tokenStringIndex` is its length.
The result is `none` when `fuel` iterations do not reach DONE. -/
def getTokenLoop (MAXTOKENLEN : Nat) (fuel : Nat) (state : StateType)
    (tokenString : List Char) (currentToken : TokenType) (s : Scanner) :
    Option (TokenType × List Char × Scanner) :=
  if state = .DONE then some (currentToken, tokenString, s)
  else
    match fuel with
    | 0 => none
    | fuel + 1 =>
      let r := getNextChar s
      let sw := switchState state r.1 currentToken r.2
      let tokenString1 :=
        if sw.2.2.1 = true ∧ tokenString.length ≤ MAXTOKENLEN
        then tokenString ++ [toChar r.1] else tokenString
      let currentToken1 :=
        if sw.1 = .DONE ∧ sw.2.1 = .ID then reservedLookup (cstr tokenString1) else sw.2.1
      getTokenLoop MAXTOKENLEN fuel sw.1 tokenString1 currentToken1 sw.2.2.2

/-- Number of characters the scanner can still deliver, plus one: a bound
on the iterations of the loop of `getToken`. -/
def Scanner.fuel (s : Scanner) : Nat := s.source.length + (s.bufsize - s.linepos) + 1

/-- Returns the next token of the source: its kind, the characters stored
in `tokenString`, and the scanner afterwards. The local `currentToken` is
uninitialised at entry; the embedding starts it at ERROR. -/
def getToken (MAXTOKENLEN : Nat) (s : Scanner) : Option (TokenType × List Char × Scanner) :=
  getTokenLoop MAXTOKENLEN s.fuel .START [] .ERROR s

/-! ## Syntax tree (globals.h, util.c) -/

/-- Node categories of the syntax tree, as enumerated by `printTree`. -/
inductive NodeKind
  | VarDeclK | FunDeclK | ParamK | CompStmtK | SelectStmtK | IterStmtK | RetStmtK
  | AssignK | OpK | VarExpK | ConstK | CallK
  deriving DecidableEq, Repr

/-- Semantic types of a node (`NodeType` of `find_type`). -/
inductive NodeType
  | Undetermined | Int | Void | IntArray | VoidArray
  deriving DecidableEq, Repr

/-- The scalar fields of a tree node that the analyzer reads. `id` stands
for the address of the node: two nodes are the same object exactly when
their ids agree. `type` is the value the field has when the analyzer
starts; later assignments to `t->type` are kept in `Analyzer.nodeType`. -/
structure NodeInfo where
  id : Nat
  nodekind : NodeKind
  name : String
  lineno : Nat
  type : NodeType
  flag : Bool
  deriving DecidableEq, Repr

/-- A pointer to a tree node: NULL, or a node with its MAXCHILDREN = 3
children and its sibling. -/
inductive TreeNode
  | null
  | node (info : NodeInfo) (child0 child1 child2 sibling : TreeNode)
  deriving DecidableEq, Repr

/-! ## symtab.h, symtab.c -/

/-- Size of the hash table. -/
def SIZE : Nat := 211

/-- Power of two used as multiplier in the hash function. -/
def SHIFT : Nat := 4

/-- The hash function. -/
def hash (key : String) : Nat :=
  key.toList.foldl (fun temp c => ((temp <<< SHIFT) + c.toNat) % SIZE) 0

/-- A record of a bucket list: name, line numbers (`LineList`), memory
location and declaring node. -/
structure BucketListRec where
  name : String
  lines : List Nat
  memloc : Int
  treeNode : TreeNode
  deriving DecidableEq, Repr

/-- A scope: its name, its hash table (bucket index to bucket list) and its
parent scope. A scope pointer is the index of the scope in `scopeList`,
where `create_scope` registers every scope; NULL is `none`. -/
structure ScopeListRec where
  name : Option String
  hashTable : Nat → List BucketListRec
  parent : Option Nat

/-- Messages printed to `listing` by the analyzer, one per line. -/
inductive Diag
  | undeclaredFunction (name : String) (lineno : Nat)
  | undeclaredVariable (name : String) (lineno : Nat)
  | voidType (lineno : Nat) (name : String)
  | invalidArrayIndexingInt (lineno : Nat) (name : String)
  | invalidArrayIndexingNotArray (lineno : Nat) (name : String)
  | invalidFunctionCall (lineno : Nat) (name : String)
  | invalidReturn (lineno : Nat)
  | invalidAssignment (lineno : Nat)
  | invalidOperation (lineno : Nat)
  | invalidCondition (lineno : Nat)
  | redefinedSymbol (name : String) (lineno : Nat) (lines : List Nat)
  deriving DecidableEq, Repr

/-- The global state of `symtab.c` and `analyze.c`.

* `scopeList` is the registry of all scopes (`sizeOfScopeList` is its
  length).
* `scopeStack` and `location` are the live parts of the two arrays of that
  name, top of the stack first (`sizeOfScopeStack` is the length).
* `below` is the word stored just below `scopeStack`, which
  `get_top_scope` and `create_scope` read when the stack is empty.
* `nodeType` and `nodeScope` hold the assignments made to the fields
  `type` and `scope` of tree nodes, by node id.
* `nextId` is the id of the next node `newTreeNode` allocates, `lineno`
  the global line counter, `listing` the messages printed so far.

The arrays of the source hold SIZE entries; the embedding puts no bound on
them. -/
structure Analyzer where
  scopeList : List ScopeListRec
  scopeStack : List (Option Nat)
  location : List Int
  below : Option Nat
  globalScope : Option Nat
  curFuncName : Option String
  isFuncScopeCreated : Bool
  nodeType : Nat → Option NodeType
  nodeScope : Nat → Option (Option Nat)
  nextId : Nat
  lineno : Nat
  listing : List Diag
  Error : Bool

/-- Outcome of running a piece of the analyzer: it returns a value, or it
does not return (an access through a NULL or dangling pointer or outside an
array, or a loop that never ends); the state is the one reached. -/
inductive Result (α : Type)
  | ok (value : α) (st : Analyzer)
  | crash (st : Analyzer)

/-- The state a run ended in. -/
def Result.state {α : Type} : Result α → Analyzer
  | .ok _ st => st
  | .crash st => st

/-- Whether a run returned. -/
def Result.returned {α : Type} : Result α → Bool
  | .ok _ _ => true
  | .crash _ => false

/-- A piece of the analyzer, run from a state. -/
def Exec (α : Type) : Type := Analyzer → Result α

/-- Runs `m`, then `f` on its value unless `m` did not return. -/
def Exec.bind {α β : Type} (m : Exec α) (f : α → Exec β) : Exec β := fun st =>
  match m st with
  | .ok a st1 => f a st1
  | .crash st1 => .crash st1

instance : Monad Exec where
  pure a := fun st => .ok a st
  bind := Exec.bind

/-- Execution that does not return. -/
def Exec.crash {α : Type} : Exec α := fun st => .crash st

/-- Reads the state. -/
def Exec.get : Exec Analyzer := fun st => .ok st st

/-- Changes the state. -/
def Exec.modify (f : Analyzer → Analyzer) : Exec Unit := fun st => .ok () (f st)

/-- The statement `if (c) m;`. -/
def Exec.cond (c : Prop) [Decidable c] (m : Exec Unit) : Exec Unit :=
  if c then m else pure ()

/-- Dereferences a pointer obtained as an option. -/
def Exec.deref {α : Type} (p : Option α) : Exec α := fun st =>
  match p with
  | some a => .ok a st
  | none => .crash st

/-- The state before analysis: empty registry and stack, no node field
assigned, nothing printed. -/
def Analyzer.init (below : Option Nat) (nextId lineno : Nat) : Analyzer :=
  { scopeList := [], scopeStack := [], location := [], below := below, globalScope := none,
    curFuncName := none, isFuncScopeCreated := false, nodeType := fun _ => none,
    nodeScope := fun _ => none, nextId := nextId, lineno := lineno, listing := [],
    Error := false }

/-- Returns `location[sizeOfScopeStack - 1]++`. -/
def addLocation : Exec Int := fun st =>
  match st.location with
  | [] => .crash st
  | l :: ls => .ok l { st with location := (l + 1) :: ls }

/-- The scope on top of the stack: `scopeStack[sizeOfScopeStack - 1]`. -/
def get_top_scope (st : Analyzer) : Option Nat :=
  match st.scopeStack with
  | top :: _ => top
  | [] => st.below

/-- Allocates a scope with empty hash table, registers it in `scopeList`
and makes the top of the stack its parent; returns the new scope. -/
def create_scope (name : Option String) : Exec (Option Nat) := fun st =>
  .ok (some st.scopeList.length)
    { st with scopeList := st.scopeList ++
        [{ name := name, hashTable := fun _ => [], parent := get_top_scope st }] }

/-- Pushes a scope and resets its location counter. -/
def push_scope (scope : Option Nat) : Exec Unit := fun st =>
  .ok () { st with location := 0 :: st.location, scopeStack := scope :: st.scopeStack }

/-- Pops the scope stack. -/
def pop_scope : Exec Unit := fun st =>
  match st.scopeStack, st.location with
  | _ :: stack, _ :: loc => .ok () { st with scopeStack := stack, location := loc }
  | _, _ => .crash st

/-- The search loop `while (l != NULL && strcmp(name, l->name) != 0)` on a
bucket list: the first bucket of that name. -/
def findBucket (name : String) : List BucketListRec → Option BucketListRec
  | [] => none
  | b :: l => if b.name = name then some b else findBucket name l

/-- Applies `f` to the bucket that `findBucket` finds. -/
def updateBucket (name : String) (f : BucketListRec → BucketListRec) :
    List BucketListRec → List BucketListRec
  | [] => []
  | b :: l => if b.name = name then f b :: l else b :: updateBucket name f l

/-- The scope record a scope pointer points to. -/
def derefScope (scope : Option Nat) : Exec (Nat × ScopeListRec) := fun st =>
  match scope with
  | none => .crash st
  | some i =>
    match st.scopeList[i]? with
    | none => .crash st
    | some sc => .ok (i, sc) st

/-- Stores a scope record at index `i` of the registry. -/
def setScope (i : Nat) (sc : ScopeListRec) : Exec Unit :=
  Exec.modify fun st => { st with scopeList := st.scopeList.set i sc }

/-- Inserts a symbol into the top scope unless the name is already there. -/
def st_insert (name : String) (lineno : Nat) (loc : Int) (treeNode : TreeNode) : Exec Unit := do
  let h := hash name
  let st ← Exec.get
  let (i, scope) ← derefScope (get_top_scope st)
  match findBucket name (scope.hashTable h) with
  | some _ => pure ()
  | none =>
    let l : BucketListRec :=
      { name := name, lines := [lineno], memloc := loc, treeNode := treeNode }
    setScope i { scope with
      hashTable := Function.update scope.hashTable h (l :: scope.hashTable h) }

/-- Appends a line number to the symbol of that name in the top scope, if
there is one. -/
def st_insert_lineno (name : String) (lineno : Nat) : Exec Unit := do
  let h := hash name
  let st ← Exec.get
  let (i, scope) ← derefScope (get_top_scope st)
  match findBucket name (scope.hashTable h) with
  | some _ =>
    let chain := updateBucket name (fun b => { b with lines := b.lines ++ [lineno] })
      (scope.hashTable h)
    setScope i { scope with hashTable := Function.update scope.hashTable h chain }
  | none => pure ()

/-- The loop of `st_lookup_return_bucket`: searches `scope`, then its
parents. The result is the bucket found and the scope holding it, or
`some none` for NULL; `none` when the loop meets a dangling pointer or does
not end within `fuel` scopes. -/
def lookupLoop (scopeList : List ScopeListRec) (h : Nat) (name : String) :
    Nat → Option Nat → Option (Option (Nat × BucketListRec))
  | _, none => some none
  | 0, some _ => none
  | fuel + 1, some i =>
    match scopeList[i]? with
    | none => none
    | some sc =>
      match findBucket name (sc.hashTable h) with
      | some b => some (some (i, b))
      | none => lookupLoop scopeList h name fuel sc.parent

/-- Looks a name up from the top scope through the parent chain. A chain
without a cycle visits each registered scope at most once, so the fuel
given never runs out on it. -/
def st_lookup_return_bucket (name : String) : Exec (Option (Nat × BucketListRec)) := fun st =>
  match lookupLoop st.scopeList (hash name) name (st.scopeList.length + 1)
      (get_top_scope st) with
  | none => .crash st
  | some r => .ok r st

/-- Returns the memory location of a name, or -1 if not found. -/
def st_lookup (name : String) : Exec Int := do
  let bucket ← st_lookup_return_bucket name
  match bucket with
  | none => pure (-1)
  | some b => pure b.2.memloc

/-- Returns the memory location of a name in the top scope, or -1. -/
def st_lookup_current_scope (name : String) : Exec Int := do
  let h := hash name
  let st ← Exec.get
  let (_, scope) ← derefScope (get_top_scope st)
  match findBucket name (scope.hashTable h) with
  | none => pure (-1)
  | some b => pure b.memloc

/-! ## analyze.c -/

/-- Prints a message to `listing` and sets the flag `Error`. -/
def report (d : Diag) : Exec Unit :=
  Exec.modify fun st => { st with listing := st.listing ++ [d], Error := true }

/-- The fields of a node, read through its pointer. -/
def nodeInfo (t : TreeNode) : Exec NodeInfo :=
  match t with
  | .null => Exec.crash
  | .node info _ _ _ _ => pure info

/-- First child of a node: `t->child[0]`. -/
def child0 (t : TreeNode) : Exec TreeNode :=
  match t with
  | .null => Exec.crash
  | .node _ c0 _ _ _ => pure c0

/-- Second child of a node: `t->child[1]`. -/
def child1 (t : TreeNode) : Exec TreeNode :=
  match t with
  | .null => Exec.crash
  | .node _ _ c1 _ _ => pure c1

/-- The sibling of a node, NULL for NULL (used on non-NULL nodes only). -/
def TreeNode.sibling : TreeNode → TreeNode
  | .null => .null
  | .node _ _ _ _ sib => sib

/-- Reads `t->type`. -/
def typeOf (t : TreeNode) : Exec NodeType := do
  let info ← nodeInfo t
  let st ← Exec.get
  pure ((st.nodeType info.id).getD info.type)

/-- The assignment `t->type = ty`. -/
def setType (t : TreeNode) (ty : NodeType) : Exec Unit := do
  let info ← nodeInfo t
  Exec.modify fun st => { st with nodeType := Function.update st.nodeType info.id (some ty) }

def undeclaredFunctionError (t : TreeNode) : Exec Unit := do
  let info ← nodeInfo t
  report (.undeclaredFunction info.name info.lineno)

def undeclaredVariableError (t : TreeNode) : Exec Unit := do
  let info ← nodeInfo t
  report (.undeclaredVariable info.name info.lineno)

def voidTypeError (t : TreeNode) : Exec Unit := do
  let info ← nodeInfo t
  report (.voidType info.lineno info.name)

def invalidArrayIndexingIntError (t : TreeNode) : Exec Unit := do
  let info ← nodeInfo t
  report (.invalidArrayIndexingInt info.lineno info.name)

def invalidArrayIndexingNotArrayError (t : TreeNode) : Exec Unit := do
  let info ← nodeInfo t
  report (.invalidArrayIndexingNotArray info.lineno info.name)

def invalidFunctionCallError (t : TreeNode) : Exec Unit := do
  let info ← nodeInfo t
  report (.invalidFunctionCall info.lineno info.name)

def invalidReturnError (t : TreeNode) : Exec Unit := do
  let info ← nodeInfo t
  report (.invalidReturn info.lineno)

def invalidAssignmentError (t : TreeNode) : Exec Unit := do
  let info ← nodeInfo t
  report (.invalidAssignment info.lineno)

def invalidOperationError (t : TreeNode) : Exec Unit := do
  let info ← nodeInfo t
  report (.invalidOperation info.lineno)

def invalidConditionError (t : TreeNode) : Exec Unit := do
  let info ← nodeInfo t
  report (.invalidCondition info.lineno)

/-- Prints the redefinition message with the line list of the bucket `l`
(the message is one entry of `listing`; with `l` NULL nothing is
recorded). -/
def redefinedSymbolError (t : TreeNode) (l : Option (Nat × BucketListRec)) : Exec Unit := do
  let info ← nodeInfo t
  let b ← Exec.deref l
  report (.redefinedSymbol info.name info.lineno b.2.lines)

/-- Allocates a tree node: a fresh id, no children, the global line number,
flag FALSE. The fields `name` and `type`, which the source leaves
unset, are given the values "" and Undetermined; the analyzer assigns them
before it reads them. -/
def newTreeNode (nodekind : NodeKind) : Exec NodeInfo := fun st =>
  .ok { id := st.nextId, nodekind := nodekind, name := "", lineno := st.lineno,
        type := .Undetermined, flag := false }
    { st with nextId := st.nextId + 1 }

/-- Pre-registers the built-in functions `input` and `output`. -/
def push_built_in_functions : Exec Unit := do
  let inputNode ← newTreeNode .FunDeclK
  let inputParam ← newTreeNode .ParamK
  let loc ← addLocation
  st_insert "input" 0 loc
    (.node { inputNode with lineno := 0, type := .Int, name := "input" }
      (.node { inputParam with type := .Void } .null .null .null .null) .null .null .null)
  let outputNode ← newTreeNode .FunDeclK
  let param ← newTreeNode .ParamK
  let paramNode : TreeNode :=
    .node { param with type := .Int, name := "value" } .null .null .null .null
  let loc ← addLocation
  st_insert "output" 0 loc
    (.node { outputNode with lineno := 0, type := .Void, name := "output" }
      paramNode .null .null .null)
  let scope ← create_scope (some "output")
  push_scope scope
  let loc ← addLocation
  st_insert "value" 0 loc paramNode
  pop_scope

/-- Generic recursive syntax tree traversal: applies `preProc` in preorder
and `postProc` in postorder. -/
def traverse (preProc postProc : TreeNode → Exec Unit) : TreeNode → Exec Unit
  | .null => pure ()
  | .node info c0 c1 c2 sib => do
    preProc (.node info c0 c1 c2 sib)
    traverse preProc postProc c0
    traverse preProc postProc c1
    traverse preProc postProc c2
    postProc (.node info c0 c1 c2 sib)
    traverse preProc postProc sib

def postProcInsertNode (treeNode : TreeNode) : Exec Unit := do
  let info ← nodeInfo treeNode
  Exec.cond (info.nodekind = .CompStmtK) pop_scope

/-- Inserts the identifier stored in `t` into the symbol table. -/
def insertNode (t : TreeNode) : Exec Unit := do
  let info ← nodeInfo t
  match info.nodekind with
  | .VarDeclK =>
    let ty ← typeOf t
    Exec.cond (ty = .Void ∨ ty = .VoidArray) (voidTypeError t)
    let c0 ← child0 t
    Exec.cond (c0 ≠ .null) (setType t .IntArray)
    let loc ← st_lookup_current_scope info.name
    if loc ≠ -1 then
      let l ← st_lookup_return_bucket info.name
      redefinedSymbolError t l
      st_insert_lineno info.name info.lineno
    else
      let loc ← addLocation
      st_insert info.name info.lineno loc t
  | .FunDeclK =>
    Exec.modify fun st => { st with curFuncName := some info.name }
    let loc ← st_lookup_current_scope info.name
    if loc ≠ -1 then
      let l ← st_lookup_return_bucket info.name
      redefinedSymbolError t l
    else
      let loc ← addLocation
      st_insert info.name info.lineno loc t
      let scope ← create_scope (some info.name)
      push_scope scope
      Exec.modify fun st => { st with isFuncScopeCreated := true }
  | .ParamK =>
    let ty ← typeOf t
    if ty = .Void then pure ()
    else
      Exec.cond (ty = .VoidArray) (voidTypeError t)
      let loc ← st_lookup_current_scope info.name
      if loc ≠ -1 then
        let l ← st_lookup_return_bucket info.name
        redefinedSymbolError t l
      else
        let loc ← addLocation
        st_insert info.name info.lineno loc t
        let c0 ← child0 t
        Exec.cond (c0 ≠ .null) (setType t .IntArray)
  | .CompStmtK =>
    let st ← Exec.get
    (if st.isFuncScopeCreated = true then
      Exec.modify fun st => { st with isFuncScopeCreated := false }
    else do
      let scope ← create_scope st.curFuncName
      push_scope scope : Exec Unit)
    Exec.modify fun st =>
      { st with nodeScope := Function.update st.nodeScope info.id (some (get_top_scope st)) }
  | .CallK =>
    let loc ← st_lookup info.name
    if loc = -1 then
      let newUndeclaredNode ← newTreeNode .FunDeclK
      let param ← newTreeNode .ParamK
      let loc ← addLocation
      st_insert info.name info.lineno loc
        (.node { newUndeclaredNode with
            lineno := info.lineno, name := info.name, type := .Undetermined }
          (.node { param with type := .Undetermined } .null .null .null .null)
          .null .null .null)
      undeclaredFunctionError t
    else
      st_insert_lineno info.name info.lineno
  | .VarExpK =>
    let loc ← st_lookup info.name
    if loc = -1 then
      let newUndeclaredNode ← newTreeNode .VarDeclK
      let loc ← addLocation
      st_insert info.name info.lineno loc
        (.node { newUndeclaredNode with
            lineno := info.lineno, name := info.name, type := .Undetermined }
          .null .null .null .null)
      undeclaredVariableError t
    else
      st_insert_lineno info.name info.lineno
  | _ => pure ()

/-- Constructs the symbol table by a traversal of the syntax tree. -/
def buildSymtab (syntaxTree : TreeNode) : Exec Unit := do
  let globalScope ← create_scope (some "global")
  Exec.modify fun st => { st with globalScope := globalScope }
  push_scope globalScope
  push_built_in_functions
  traverse insertNode postProcInsertNode syntaxTree
  pop_scope

def preProcCheckNode (treeNode : TreeNode) : Exec Unit := do
  let info ← nodeInfo treeNode
  if info.nodekind = .CompStmtK then
    let st ← Exec.get
    let scope ← Exec.deref (st.nodeScope info.id)
    push_scope scope
  else if info.nodekind = .FunDeclK then
    Exec.modify fun st => { st with curFuncName := some info.name }
  else pure ()

/-- The `while (param != NULL && arg != NULL)` loop of the call check: the
values of `param`, `arg` and `errorFlag` after it. `ty` reads the field
`type` of a node. -/
def callLoop (ty : NodeInfo → NodeType) : TreeNode → TreeNode → TreeNode × TreeNode × Bool
  | .node p pc0 pc1 pc2 psib, .node a ac0 ac1 ac2 asib =>
    if ty p ≠ ty a then (.node p pc0 pc1 pc2 psib, .node a ac0 ac1 ac2 asib, true)
    else callLoop ty psib asib
  | param, arg => (param, arg, false)

/-- Type checking at a single tree node. -/
def checkNode (t : TreeNode) : Exec Unit := do
  let info ← nodeInfo t
  match info.nodekind with
  | .CompStmtK => pop_scope
  | .SelectStmtK | .IterStmtK =>
    let c0 ← child0 t
    let ty ← typeOf c0
    Exec.cond (ty ≠ .Int) (invalidConditionError t)
  | .RetStmtK =>
    let st ← Exec.get
    let name ← Exec.deref st.curFuncName
    let l ← st_lookup_return_bucket name
    let b ← Exec.deref l
    let funcNode := b.2.treeNode
    let fty ← typeOf funcNode
    let c0 ← child0 t
    if fty = .Void ∧ c0 ≠ .null then invalidReturnError t
    else if fty ≠ .Void ∧ c0 = .null then invalidReturnError t
    else if fty ≠ .Void then
      let ty ← typeOf c0
      Exec.cond (ty ≠ fty) (invalidReturnError t)
    else pure ()
  | .AssignK =>
    let c0 ← child0 t
    let c1 ← child1 t
    if c0 = .null ∨ c1 = .null then invalidAssignmentError t
    else
      let ty0 ← typeOf c0
      let ty1 ← typeOf c1
      if ty0 = .Undetermined ∨ ty1 = .Undetermined then invalidAssignmentError t
      else if ty0 = .Void ∨ ty1 = .Void then invalidAssignmentError t
      else if ty0 ≠ ty1 then invalidAssignmentError t
      else setType t ty0
  | .OpK =>
    let c0 ← child0 t
    let c1 ← child1 t
    if c0 = .null ∨ c1 = .null then invalidOperationError t
    else
      let ty0 ← typeOf c0
      let ty1 ← typeOf c1
      if ty0 ≠ .Int ∨ ty1 ≠ .Int then
        invalidOperationError t
        setType t .Undetermined
      else setType t .Int
  | .CallK =>
    let l ← st_lookup_return_bucket info.name
    let b ← Exec.deref l
    let funcNode := b.2.treeNode
    let param ← child0 funcNode
    let arg ← child0 t
    let pty ← typeOf param
    (if pty = .Void then
      Exec.cond (arg ≠ .null) (invalidFunctionCallError t)
    else do
      let st ← Exec.get
      let r := callLoop (fun i => (st.nodeType i.id).getD i.type) param arg
      Exec.cond (r.2.2 = true) (invalidFunctionCallError t)
      Exec.cond ((r.1 ≠ .null ∨ r.2.1 ≠ .null) ∧ r.2.2 = false) (invalidFunctionCallError t)
      : Exec Unit)
    let fty ← typeOf funcNode
    setType t fty
  | .VarExpK =>
    let loc ← st_lookup info.name
    Exec.cond (loc = -1) (undeclaredVariableError t)
    let l ← st_lookup_return_bucket info.name
    let b ← Exec.deref l
    let varNode := b.2.treeNode
    let vty ← typeOf varNode
    Exec.cond (vty = .Void ∨ vty = .VoidArray) (voidTypeError t)
    let c0 ← child0 t
    if c0 ≠ .null then
      let ty ← typeOf c0
      Exec.cond (ty ≠ .Int) (invalidArrayIndexingIntError t)
      Exec.cond (vty ≠ .IntArray) (invalidArrayIndexingNotArrayError t)
      setType t .Int
    else setType t vty
  | .ConstK => setType t .Int
  | _ => pure ()

/-- Type checking by a traversal of the syntax tree. -/
def typeCheck (syntaxTree : TreeNode) : Exec Unit := do
  let st ← Exec.get
  push_scope st.globalScope
  traverse preProcCheckNode checkNode syntaxTree
  pop_scope

/-! ## Notions used to state properties of the symbol table -/

/-- The parent chain of a scope pointer: `l` lists the scope, its parent,
its parent's parent, ... up to the scope whose parent is NULL. -/
inductive Chain (scopeList : List ScopeListRec) : Option Nat → List Nat → Prop
  | null : Chain scopeList none []
  | scope {i : Nat} {sc : ScopeListRec} {l : List Nat} :
      scopeList[i]? = some sc → Chain scopeList sc.parent l → Chain scopeList (some i) (i :: l)

/-- The scope holds a symbol of that name, in whatever bucket list. -/
def ScopeListRec.Contains (sc : ScopeListRec) (name : String) : Prop :=
  ∃ h, ∃ b ∈ sc.hashTable h, b.name = name

/-- Scope `i` of the registry holds a symbol of that name. -/
def ScopeHolds (scopeList : List ScopeListRec) (i : Nat) (name : String) : Prop :=
  ∃ sc, scopeList[i]? = some sc ∧ sc.Contains name

/-- Every symbol of the scope sits in the bucket list of its hash value
and has a memory location that is not negative, as `st_insert` called with
`addLocation()` leaves it. -/
def ScopeListRec.WellFormed (sc : ScopeListRec) : Prop :=
  ∀ h, ∀ b ∈ sc.hashTable h, hash b.name = h ∧ 0 ≤ b.memloc

/-- A table with two scopes, used to instantiate statements: the global
scope holding `x`, and a scope `f` inside it, which is the top scope. -/
def exampleTable : Analyzer :=
  { Analyzer.init none 0 0 with
    scopeList :=
      [{ name := some "global",
         hashTable := Function.update (fun _ => [])
           (hash "x") [{ name := "x", lines := [1], memloc := 0, treeNode := .null }],
         parent := none },
       { name := some "f", hashTable := fun _ => [], parent := some 0 }],
    scopeStack := [some 1, some 0],
    location := [0, 1] }

/-- The child of a declaration that gives an array size: NULL, or a
constant without children. -/
def TreeNode.IsArraySize : TreeNode → Prop
  | .null => True
  | .node info c0 c1 c2 sib =>
    info.nodekind = .ConstK ∧ c0 = .null ∧ c1 = .null ∧ c2 = .null ∧ sib = .null

/-- The redefinition messages. -/
def Diag.isRedefinition : Diag → Bool
  | .redefinedSymbol _ _ _ => true
  | _ => false

/-- The undeclared-variable messages. -/
def Diag.isUndeclaredVariable : Diag → Bool
  | .undeclaredVariable _ _ => true
  | _ => false

/-- The state after the void check and the array coercion of a variable
declaration. -/
def varDeclPrefix (info : NodeInfo) (c0 : TreeNode) (st : Analyzer) : Analyzer :=
  let ty := (st.nodeType info.id).getD info.type
  let st1 : Analyzer :=
    if ty = .Void ∨ ty = .VoidArray then
      { st with listing := st.listing ++ [.voidType info.lineno info.name], Error := true }
    else st
  if c0 ≠ .null then
    { st1 with nodeType := Function.update st1.nodeType info.id (some .IntArray) }
  else st1

/-- The fields of a declaration `int y;` at the given line, used to
instantiate statements. -/
def exampleDecl (id lineno : Nat) : NodeInfo :=
  { id := id, nodekind := .VarDeclK, name := "y", lineno := lineno, type := .Int,
    flag := false }

/-! ## Notions used to relate the two passes of the analyzer -/

/-- The registry `sl2` extends `sl`: every scope of `sl` is still there with
the same parent, and every symbol found in it is still found, with the same
memory location. -/
def Ext (sl sl2 : List ScopeListRec) : Prop :=
  ∀ (j : Nat) (sc : ScopeListRec), sl[j]? = some sc →
    ∃ sc2 : ScopeListRec, sl2[j]? = some sc2 ∧ sc2.parent = sc.parent ∧
      ∀ (h : Nat) (x : String) (b : BucketListRec), findBucket x (sc.hashTable h) = some b →
        ∃ b2, findBucket x (sc2.hashTable h) = some b2 ∧ b2.memloc = b.memloc

/-- No symbol of the registry has the memory location -1. -/
def MemOk (sl : List ScopeListRec) : Prop :=
  ∀ (j : Nat) (sc : ScopeListRec), sl[j]? = some sc →
    ∀ (h : Nat) (x : String) (b : BucketListRec),
      findBucket x (sc.hashTable h) = some b → b.memloc ≠ -1

/-- A lookup of the name from the scope `top` finds a symbol, whose memory
location is not -1 (so that `st_lookup` does not return -1). -/
def Found (sl : List ScopeListRec) (top : Option Nat) (name : String) : Prop :=
  ∃ r, lookupLoop sl (hash name) name (sl.length + 1) top = some (some r) ∧ r.2.memloc ≠ -1

/-- The tree holds no function declaration, no compound statement and no
variable reference. -/
def TreeNode.Quiet : TreeNode → Prop
  | .null => True
  | .node info c0 c1 c2 sib =>
    info.nodekind ≠ .FunDeclK ∧ info.nodekind ≠ .CompStmtK ∧ info.nodekind ≠ .VarExpK ∧
    c0.Quiet ∧ c1.Quiet ∧ c2.Quiet ∧ sib.Quiet

/-- The node is a compound statement. -/
def TreeNode.IsCompStmt : TreeNode → Prop
  | .null => False
  | .node info _ _ _ _ => info.nodekind = .CompStmtK

/-- The shape the parser gives a tree, as far as the scope stack depends on
it: the first child of every function declaration (its parameters) holds
no function declaration, compound statement or variable reference, and its
second child is a compound statement (its body). -/
def TreeNode.Shaped : TreeNode → Prop
  | .null => True
  | .node info c0 c1 c2 sib =>
    (info.nodekind = .FunDeclK → c0.Quiet ∧ c1.IsCompStmt) ∧
    c0.Shaped ∧ c1.Shaped ∧ c2.Shaped ∧ sib.Shaped

/-- The ids of the nodes of a tree, in the order of the traversal. -/
def TreeNode.ids : TreeNode → List Nat
  | .null => []
  | .node info c0 c1 c2 sib => info.id :: (c0.ids ++ c1.ids ++ c2.ids ++ sib.ids)

/-- Number of nodes of a tree. -/
def TreeNode.size : TreeNode → Nat
  | .null => 0
  | .node _ c0 c1 c2 sib => c0.size + c1.size + c2.size + sib.size + 1

/-- Every variable reference of the tree resolves: with the registry `sl`
and the scopes `ns` recorded on compound statements, the name of each
variable reference is found from the scope that is on top of the stack
when the checker visits the reference, `top` being the top of the stack on
entry. -/
def Resolved (sl : List ScopeListRec) (ns : Nat → Option (Option Nat)) :
    Option Nat → TreeNode → Prop
  | _, .null => True
  | top, .node info c0 c1 c2 sib =>
    (info.nodekind = .VarExpK → Found sl top info.name) ∧
    (if info.nodekind = .CompStmtK then
      ∀ v, ns info.id = some v →
        Resolved sl ns v c0 ∧ Resolved sl ns v c1 ∧ Resolved sl ns v c2
    else Resolved sl ns top c0 ∧ Resolved sl ns top c1 ∧ Resolved sl ns top c2) ∧
    Resolved sl ns top sib

/-- What the binder keeps true between nodes: the scope stack is not empty,
each of its entries is a scope whose parent chain ends in NULL, the array
`location` has a counter, not negative, for each entry, and no symbol has
the memory location -1. -/
structure BinderInv (st : Analyzer) : Prop where
  nonempty : st.scopeStack ≠ []
  chains : ∀ p ∈ st.scopeStack, ∃ j l, p = some j ∧ Chain st.scopeList (some j) l
  loclen : st.location.length = st.scopeStack.length
  locnn : ∀ l ∈ st.location, 0 ≤ l
  mem : MemOk st.scopeList

/-- The two words the binder assigns at its start only: the word below the
scope stack and `globalScope`. -/
def Analyzer.fixed (st : Analyzer) : Option Nat × Option Nat := (st.below, st.globalScope)

/-- What a node other than a function declaration or compound statement
changes in the binder: the registry is extended; stack, flag and recorded
scopes stay. -/
structure BinderStep (st st2 : Analyzer) : Prop where
  ext : Ext st.scopeList st2.scopeList
  stack : st2.scopeStack = st.scopeStack
  fixed : st2.fixed = st.fixed
  flag : st2.isFuncScopeCreated = st.isFuncScopeCreated
  nodeScope : st2.nodeScope = st.nodeScope

/-- What the checker leaves unchanged: the registry, the recorded scopes,
and the undeclared-variable messages printed. -/
structure CheckerFrame (st st2 : Analyzer) : Prop where
  scopeList : st2.scopeList = st.scopeList
  nodeScope : st2.nodeScope = st.nodeScope
  below : st2.below = st.below
  listing : st2.listing.filter Diag.isUndeclaredVariable
    = st.listing.filter Diag.isUndeclaredVariable

/-- The run returns, with a value and a state that satisfy `Q`. -/
def Exec.Total {α : Type} (m : Exec α) (st : Analyzer) (Q : α → Analyzer → Prop) : Prop :=
  ∃ a st2, m st = .ok a st2 ∧ Q a st2

/-- The state the run ends in, returned or not, satisfies `R`, and the
value and state of a run that returns satisfy `Q`. -/
def Exec.Partial {α : Type} (m : Exec α) (st : Analyzer) (R : Analyzer → Prop)
    (Q : α → Analyzer → Prop) : Prop :=
  match m st with
  | .ok a st2 => R st2 ∧ Q a st2
  | .crash st2 => R st2

/-- What a node other than a compound statement changes in the checker:
nothing of what `CheckerFrame` lists, and not the scope stack. -/
def CheckerStep (st st2 : Analyzer) : Prop :=
  CheckerFrame st st2 ∧ st2.scopeStack = st.scopeStack

/-- From whatever state, the run ends in a state that `CheckerStep` relates
to it. -/
def Exec.Frame {α : Type} (m : Exec α) : Prop :=
  ∀ st, CheckerStep st (m st).state

/-- What the binder has done when it returns from the trees `ts`, entered
in the state `st`, with `stack` the scope stack it is to leave: the
invariant holds, the flag is down, the registry is extended, scopes were
recorded on nodes of `ts` only, and every tree of `ts` is resolved. -/
def BinderPost (ts : List TreeNode) (stack : List (Option Nat)) (st s : Analyzer) : Prop :=
  BinderInv s ∧ s.isFuncScopeCreated = false ∧ s.fixed = st.fixed ∧ s.scopeStack = stack ∧
  Ext st.scopeList s.scopeList ∧
  (∀ i, (∀ t ∈ ts, i ∉ t.ids) → s.nodeScope i = st.nodeScope i) ∧
  ∀ t ∈ ts, Resolved s.scopeList s.nodeScope (get_top_scope s) t

/-- The binder, entered on the tree with the flag down, returns and leaves
the scope stack as it was. -/
def BinderTraverses (t : TreeNode) : Prop :=
  ∀ (st : Analyzer) (stack : List (Option Nat)), BinderInv st →
    st.isFuncScopeCreated = false → st.scopeStack = stack →
    Exec.Total (traverse insertNode postProcInsertNode t) st
      (fun _ s => BinderPost [t] stack st s)

/-- The tree of `void main(void) { x; }`, whose body refers to the
undeclared variable `x`; used to instantiate statements. -/
def exampleProgram : TreeNode :=
  .node { id := 1, nodekind := .FunDeclK, name := "main", lineno := 1, type := .Void,
          flag := false }
    (.node { id := 2, nodekind := .ParamK, name := "", lineno := 1, type := .Void,
             flag := false } .null .null .null .null)
    (.node { id := 3, nodekind := .CompStmtK, name := "", lineno := 1, type := .Undetermined,
             flag := false }
      .null
      (.node { id := 4, nodekind := .VarExpK, name := "x", lineno := 1, type := .Undetermined,
               flag := false } .null .null .null .null)
      .null .null)
    .null .null

/-- The fields of a reference to the variable `y` at line 2, used to
instantiate statements. -/
def exampleRef : NodeInfo :=
  { id := 7, nodekind := .VarExpK, name := "y", lineno := 2, type := .Undetermined,
    flag := false }

/-! ## Syntax trees used to instantiate statements

The parser is not among the sources; the trees follow the conventions the
analyzer relies on: a function declaration has its parameters as first child
(one ParamK node of type Void for `(void)`) and its body, a compound
statement, as second child; a compound statement has its local declarations
as first child and its statements as second child; a return statement has
its expression, a call its arguments, an indexed variable its index and an
array declaration its size as first child; lists are linked by `sibling`. -/

/-- A leaf node. -/
def leaf (id : Nat) (nodekind : NodeKind) (name : String) (lineno : Nat) (type : NodeType) :
    TreeNode :=
  .node { id := id, nodekind := nodekind, name := name, lineno := lineno, type := type,
          flag := false } .null .null .null .null

/-- An inner node. -/
def inner (id : Nat) (nodekind : NodeKind) (name : String) (lineno : Nat) (type : NodeType)
    (child0 child1 sibling : TreeNode) : TreeNode :=
  .node { id := id, nodekind := nodekind, name := name, lineno := lineno, type := type,
          flag := false } child0 child1 .null sibling

/-- The tree of
```
int f(int a) { return a + 1; }
void main(void) { f(5); }
```
with the two functions on lines 1 and 2. Node 11 is the call. -/
def exampleCallProgram : TreeNode :=
  inner 1 .FunDeclK "f" 1 .Int
    (leaf 2 .ParamK "a" 1 .Int)
    (inner 3 .CompStmtK "" 1 .Undetermined .null
      (inner 4 .RetStmtK "" 1 .Undetermined
        (inner 5 .OpK "" 1 .Undetermined
          (leaf 6 .VarExpK "a" 1 .Undetermined) (leaf 7 .ConstK "" 1 .Undetermined) .null)
        .null .null)
      .null)
    (inner 8 .FunDeclK "main" 2 .Void
      (leaf 9 .ParamK "" 2 .Void)
      (inner 10 .CompStmtK "" 2 .Undetermined .null
        (inner 11 .CallK "f" 2 .Undetermined (leaf 12 .ConstK "" 2 .Undetermined) .null .null)
        .null)
      .null)

/-- The tree of
```
void g(void) {
  return 1; }
```
with the return statement on line 2. -/
def exampleVoidReturn : TreeNode :=
  inner 1 .FunDeclK "g" 1 .Void
    (leaf 2 .ParamK "" 1 .Void)
    (inner 3 .CompStmtK "" 1 .Undetermined .null
      (inner 4 .RetStmtK "" 2 .Undetermined (leaf 5 .ConstK "" 2 .Undetermined) .null .null)
      .null)
    .null

/-! ## Notions used to state what the checker does at a node -/

/-- The value of the field `type` of a node in a state. -/
def Analyzer.fieldType (st : Analyzer) (info : NodeInfo) : NodeType :=
  (st.nodeType info.id).getD info.type

/-- The declaration `int f(int a)` without its body. -/
def exampleFun : TreeNode :=
  inner 1 .FunDeclK "f" 1 .Int (leaf 2 .ParamK "a" 1 .Int) .null .null

/-- A state of the checker in which the global scope, on top of the stack,
holds the function `f` of `exampleFun`, `g` is the current function, and no
field of a node has been assigned. -/
def exampleFunTable : Analyzer :=
  { Analyzer.init none 100 0 with
    scopeList :=
      [{ name := some "global",
         hashTable := Function.update (fun _ => [])
           (hash "f") [{ name := "f", lines := [1], memloc := 0, treeNode := exampleFun }],
         parent := none }]
    scopeStack := [some 0]
    location := [1]
    curFuncName := some "f" }

/-- The type of an operand in a state: `none` when the operand is missing
(a NULL child), else the value of its field `type`. -/
def Analyzer.exprType (st : Analyzer) : TreeNode → Option NodeType
  | .null => none
  | .node info _ _ _ _ => some (st.fieldType info)

/-- The tree of
```
int a[size];
void main(void) {
  a[index]; }
```
for a declaration with the size node `size` (NULL for the plain `int a;`)
and a reference, node 6 on line 3, with the index node `index`. -/
def exampleIndexProgram (size index : TreeNode) : TreeNode :=
  inner 1 .VarDeclK "a" 1 .Int size .null
    (inner 3 .FunDeclK "main" 2 .Void
      (leaf 4 .ParamK "" 2 .Void)
      (inner 5 .CompStmtK "" 2 .Undetermined .null
        (inner 6 .VarExpK "a" 3 .Undetermined index .null .null)
        .null)
      .null)

/-- A state of the checker in which the global scope, on top of the stack,
holds the array `a` declared by node 1, whose type the binder has set to
IntArray. -/
def exampleArrayTable : Analyzer :=
  { Analyzer.init none 100 0 with
    scopeList :=
      [{ name := some "global",
         hashTable := Function.update (fun _ => [])
           (hash "a") [{ name := "a", lines := [1], memloc := 0,
                         treeNode := leaf 1 .VarDeclK "a" 1 .Int }],
         parent := none }]
    scopeStack := [some 0]
    location := [1]
    nodeType := Function.update (fun _ => none) 1 (some .IntArray) }

/-- The tree of
```
int x;
void main(void) {
  x(1); }
```
in which the name called is a variable. Node 5 is the call. -/
def exampleCallVariable : TreeNode :=
  inner 1 .VarDeclK "x" 1 .Int .null .null
    (inner 2 .FunDeclK "main" 2 .Void
      (leaf 3 .ParamK "" 2 .Void)
      (inner 4 .CompStmtK "" 2 .Undetermined .null
        (inner 5 .CallK "x" 3 .Undetermined (leaf 6 .ConstK "" 3 .Undetermined) .null .null)
        .null)
      .null)

/-! ## Notions used to state that the scope stack keeps its base -/

/-- The scope stack is not empty and has the scope `g` at its base. -/
def BaseIs (g : Option Nat) (st : Analyzer) : Prop := st.scopeStack.getLast? = some g

instance (g : Option Nat) : DecidablePred (BaseIs g) :=
  fun st => inferInstanceAs (Decidable (st.scopeStack.getLast? = some g))

/-- The procedure `f` with a check in front: it is run on a node only in a
state that satisfies `P`; in any other state the run stops and does not
return. A traversal with guarded procedures that returns has met `P` at
every call of a procedure. -/
def Exec.guarded (P : Analyzer → Prop) [DecidablePred P] (f : TreeNode → Exec Unit)
    (t : TreeNode) : Exec Unit :=
  fun st => if P st then f t st else .crash st

/-- The symbols of a scope: the records of its SIZE bucket lists, bucket
list after bucket list. -/
def ScopeListRec.symbols (sc : ScopeListRec) : List BucketListRec :=
  (List.range SIZE).flatMap sc.hashTable

/-- The slots (memory locations) of the symbols of a scope. -/
def ScopeListRec.slots (sc : ScopeListRec) : List Int :=
  sc.symbols.map BucketListRec.memloc

/-- The scope holds `k` symbols, which carry the slots 0, 1, ..., k-1, one
each; and in every bucket list, where `st_insert` puts a new symbol in
front, the slots decrease from the front: a symbol inserted later has the
greater slot. -/
def SlotsOk (sc : ScopeListRec) (k : Nat) : Prop :=
  List.Perm sc.slots ((List.range k).map Int.ofNat) ∧
  ∀ h, h < SIZE → ((sc.hashTable h).map BucketListRec.memloc).Pairwise (fun a b => b < a)

/-- Every entry of the scope stack is a registered scope that is nowhere
else on the stack, and the counter that `location` holds for it is the
number `k` of symbols of the scope, which carry the slots 0, ..., k-1. -/
def Live (sl : List ScopeListRec) : List (Option Nat) → List Int → Prop
  | [], [] => True
  | p :: stack, l :: loc =>
    (∃ (j : Nat) (sc : ScopeListRec) (k : Nat), p = some j ∧ sl[j]? = some sc ∧
      l = Int.ofNat k ∧ SlotsOk sc k ∧ some j ∉ stack) ∧ Live sl stack loc
  | _, _ => False

/-- The slot discipline: the scopes on the stack are paired with their
counters, and every registered scope, on the stack or not, holds slots
0, ..., k-1 for some `k`. -/
def SlotInv (st : Analyzer) : Prop :=
  Live st.scopeList st.scopeStack st.location ∧
  ∀ (j : Nat) (sc : ScopeListRec), st.scopeList[j]? = some sc → ∃ k, SlotsOk sc k

/-- Whenever `m` is run from a state with `P` and returns, the value and the
state it returns satisfy `Q`. -/
def Exec.Triple {α : Type} (P : Analyzer → Prop) (m : Exec α)
    (Q : α → Analyzer → Prop) : Prop :=
  ∀ st, P st → ∀ a s, m st = .ok a s → Q a s

/-- A run of `m` that returns has changed none of the registry, the scope
stack and the counters. -/
def Exec.Same {α : Type} (m : Exec α) : Prop :=
  ∀ st a s, m st = .ok a s →
    s.scopeList = st.scopeList ∧ s.scopeStack = st.scopeStack ∧ s.location = st.location

/-! ## Programs and checks used to state what binder and checker do with names -/

/-- The tree of
```
int x;
void main(void) {
  x; }
```
with the reference to `x`, node 5, on line 3. -/
def exampleGlobalRef : TreeNode :=
  inner 1 .VarDeclK "x" 1 .Int .null .null
    (inner 2 .FunDeclK "main" 2 .Void
      (leaf 3 .ParamK "" 2 .Void)
      (inner 4 .CompStmtK "" 2 .Undetermined .null
        (leaf 5 .VarExpK "x" 3 .Undetermined)
        .null)
      .null)

/-- The tree of
```
void f(int f) {
  return f; }
```
in which the parameter, node 2, has the name of the function, node 1. -/
def exampleShadowReturn : TreeNode :=
  inner 1 .FunDeclK "f" 1 .Void
    (leaf 2 .ParamK "f" 1 .Int)
    (inner 3 .CompStmtK "" 1 .Undetermined .null
      (inner 4 .RetStmtK "" 2 .Undetermined (leaf 5 .VarExpK "f" 2 .Undetermined) .null .null)
      .null)
    .null

/-- The tree of
```
int f(int a) { return a; }
int f(int b) { return b; }
```
with the two declarations of `f`, nodes 1 and 6, on lines 1 and 2; their
parameters are the nodes 2 and 7, their bodies the nodes 3 and 8. -/
def exampleRedefinedFun : TreeNode :=
  inner 1 .FunDeclK "f" 1 .Int
    (leaf 2 .ParamK "a" 1 .Int)
    (inner 3 .CompStmtK "" 1 .Undetermined .null
      (inner 4 .RetStmtK "" 1 .Undetermined (leaf 5 .VarExpK "a" 1 .Undetermined) .null .null)
      .null)
    (inner 6 .FunDeclK "f" 2 .Int
      (leaf 7 .ParamK "b" 2 .Int)
      (inner 8 .CompStmtK "" 2 .Undetermined .null
        (inner 9 .RetStmtK "" 2 .Undetermined (leaf 10 .VarExpK "b" 2 .Undetermined)
          .null .null)
        .null)
      .null)

/-- The symbol of that name in scope `i` of the registry: its line list,
its memory location and the id of its declaration node. -/
def symbolAt (st : Analyzer) (i : Nat) (name : String) : Option (List Nat × Int × Option Nat) :=
  (st.scopeList[i]?).bind fun sc =>
    (findBucket name (sc.hashTable (hash name))).map fun b =>
      (b.lines, b.memloc,
        match b.treeNode with
        | .null => none
        | .node info _ _ _ _ => some info.id)

/-- The procedure `f` with a check in front of it: does not return unless
`P` holds of the node and the state in which `f` is called. -/
def Exec.checked (P : TreeNode → Analyzer → Bool) (f : TreeNode → Exec Unit)
    (t : TreeNode) : Exec Unit :=
  fun st => if P t st = true then f t st else .crash st

/-- At a return statement: the lookup of `curFuncName`, by which
`checkNode` finds the declaration to check the return against, finds the
declaration node with the id `target`. True at every other node. -/
def returnsAgainst (target : Nat) (t : TreeNode) (st : Analyzer) : Bool :=
  match t with
  | .null => true
  | .node info _ _ _ _ =>
    if info.nodekind = .RetStmtK then
      match st.curFuncName with
      | none => false
      | some fname =>
        match st_lookup_return_bucket fname st with
        | .ok (some r) _ =>
          (match r.2.treeNode with
            | .null => false
            | .node finfo _ _ _ _ => decide (finfo.id = target))
        | _ => false
    else true

/-- The state in which `typeCheck` starts its traversal: the global scope
pushed. -/
def Analyzer.pushGlobal (st : Analyzer) : Analyzer :=
  { st with location := 0 :: st.location, scopeStack := st.globalScope :: st.scopeStack }

/-! ## Notions used to state where parent links lead -/

/-- Parent links lead downwards: scope 0, the global scope, has no parent,
and every other registered scope has a parent that was registered before
it; every entry of the scope stack is a registered scope. -/
def ParentInv (st : Analyzer) : Prop :=
  (∀ (j : Nat) (sc : ScopeListRec), st.scopeList[j]? = some sc →
    (j = 0 → sc.parent = none) ∧ (j ≠ 0 → ∃ p, sc.parent = some p ∧ p < j)) ∧
  ∀ p ∈ st.scopeStack, ∃ j, p = some j ∧ j < st.scopeList.length

/-- `ParentInv` in a state whose scope stack is not empty. -/
def ParentPre (st : Analyzer) : Prop := ParentInv st ∧ st.scopeStack ≠ []

/-- `ParentInv` in the state between `create_scope`, which returned
`scope`, and the `push_scope` of that scope. -/
def Created (scope : Option Nat) (st : Analyzer) : Prop :=
  ParentInv st ∧ ∃ j, scope = some j ∧ j < st.scopeList.length

/-! ## Notions used to compare the scopes the two passes work in -/

/-- Source text: a list of characters holding no NUL. -/
def IsText (l : List Char) : Prop := NUL ∉ l

instance (l : List Char) : Decidable (IsText l) := inferInstanceAs (Decidable (NUL ∉ l))

/-- The scanner is in a consistent state on source text, and the characters
it has yet to deliver are exactly `l`. -/
structure Scanner.Ready (s : Scanner) (l : List Char) : Prop where
  text_buf : IsText s.lineBuf
  text_src : IsText s.source
  size : s.bufsize = s.lineBuf.length
  pos : s.linepos ≤ s.bufsize
  eof : s.EOF_flag = true → s.source = [] ∧ s.linepos = s.bufsize
  pending : s.lineBuf.drop s.linepos ++ s.source = l

/-- The results (kind and stored characters) of the first `n` calls of
`getToken`. -/
def getTokens (MAXTOKENLEN : Nat) : Nat → Scanner → Option (List (TokenType × List Char))
  | 0, _ => some []
  | n + 1, s =>
    match getToken MAXTOKENLEN s with
    | none => none
    | some r => (getTokens MAXTOKENLEN n r.2.2).map (fun l => (r.1, r.2.1) :: l)

/-- The single-character tokens and their kinds. -/
def punctuation : List (Char × TokenType) :=
  [('+', .PLUS), ('-', .MINUS), ('*', .TIMES), ('(', .LPAREN), (')', .RPAREN),
   ('[', .LBRACE), (']', .RBRACE), ('{', .LCURLY), ('}', .RCURLY), (';', .SEMI), (',', .COMMA)]

/-- The characters the scanner discards between tokens. -/
def whitespace : List Char := [' ', '\t', '\n']

/-- Nothing is left to read: the stream is at its end and `lineBuf` is used
up. -/
def Scanner.Exhausted (s : Scanner) : Prop := s.source = [] ∧ ¬ s.linepos < s.bufsize

/-! ## Scanner: the line buffer delivers the text character by character -/

theorem strlen_text {l : List Char} (h : IsText l) : strlen l = l.length := by
  unfold strlen
  rw [List.takeWhile_eq_self_iff.2]
  intro c hc
  simp only [decide_eq_true_eq]
  rintro rfl
  exact h hc

theorem fgetsAux_append (k : Nat) (src : List Char) :
    (fgetsAux k src).1 ++ (fgetsAux k src).2 = src := by
  induction k generalizing src with
  | zero => simp [fgetsAux]
  | succ k ih =>
    cases src with
    | nil => simp [fgetsAux]
    | cons c rest =>
      by_cases hc : c = '\n'
      · simp [fgetsAux, hc]
      · simp [fgetsAux, hc, ih]

theorem fgetsAux_head (k : Nat) (c : Char) (rest : List Char) :
    ∃ t, (fgetsAux (k + 1) (c :: rest)).1 = c :: t := by
  by_cases hc : c = '\n'
  · exact ⟨[], by simp [fgetsAux, hc]⟩
  · exact ⟨(fgetsAux k rest).1, by simp [fgetsAux, hc]⟩

theorem Scanner.init_ready {l : List Char} (h : IsText l) : (Scanner.init l).Ready l := by
  refine ⟨?_, h, rfl, Nat.le_refl _, ?_, ?_⟩
  · simp [Scanner.init, IsText]
  · simp [Scanner.init]
  · simp [Scanner.init]

theorem Scanner.Ready.fuel_eq {s : Scanner} {l : List Char} (h : s.Ready l) :
    s.fuel = l.length + 1 := by
  have := h.pending
  have hs := h.size
  subst this
  simp [Scanner.fuel, hs]
  omega

/-- On a ready scanner with a character pending, `getNextChar` delivers it,
and `ungetNextChar` afterwards puts it back. -/
theorem getNextChar_cons {s : Scanner} {c : Char} {r : List Char} (h : s.Ready (c :: r)) :
    (getNextChar s).1 = some c ∧ (getNextChar s).2.Ready r ∧
      (ungetNextChar (getNextChar s).2).Ready (c :: r) := by
  obtain ⟨hb, hsrc, hsz, hpos, heof, hpend⟩ := h
  by_cases hlt : s.linepos < s.bufsize
  · have hflag : s.EOF_flag = false := by
      cases hf : s.EOF_flag with
      | false => rfl
      | true => have := (heof hf).2; omega
    have hlt2 : s.linepos < s.lineBuf.length := by omega
    have hdrop : s.lineBuf.drop s.linepos = s.lineBuf[s.linepos] :: s.lineBuf.drop (s.linepos + 1) :=
      List.drop_eq_getElem_cons hlt2
    rw [hdrop] at hpend
    simp only [List.cons_append, List.cons.injEq] at hpend
    have hget : s.lineBuf.getD s.linepos NUL = c := by
      rw [List.getD_eq_getElem _ _ hlt2]; exact hpend.1
    refine ⟨?_, ?_, ?_⟩
    · simp only [getNextChar, hlt, not_true_eq_false, if_false, hget]
    · simp only [getNextChar, hlt, not_true_eq_false, if_false]
      exact ⟨hb, hsrc, hsz, by simpa using hlt, by simp [hflag], hpend.2⟩
    · simp only [getNextChar, hlt, not_true_eq_false, if_false, ungetNextChar, hflag]
      refine ⟨hb, hsrc, hsz, by simpa using hpos, by simp [hflag], ?_⟩
      simp [hdrop, hpend.1, hpend.2]
  · have hpe : s.linepos = s.lineBuf.length := by omega
    have hsrc2 : s.source = c :: r := by simpa [hpe] using hpend
    obtain ⟨t, ht⟩ := fgetsAux_head 253 c r
    have happ := fgetsAux_append 254 (c :: r)
    rw [ht] at happ
    simp only [List.cons_append, List.cons.injEq, true_and] at happ
    have hflag : s.EOF_flag = false := by
      cases hf : s.EOF_flag with
      | false => rfl
      | true => have := (heof hf).1; simp [hsrc2] at this
    have htext : IsText (c :: t) ∧ IsText (fgetsAux 254 (c :: r)).2 := by
      have h1 : IsText (c :: r) := hsrc2 ▸ hsrc
      unfold IsText at h1 ⊢
      rw [← happ] at h1
      simp only [List.mem_cons, List.mem_append, not_or] at h1 ⊢
      exact ⟨⟨h1.1, h1.2.1⟩, h1.2.2⟩
    have hfg : fgets (BUFLEN - 1) s.source = some (c :: t, (fgetsAux 254 (c :: r)).2) := by
      rw [hsrc2]
      simp only [fgets, BUFLEN]
      rw [← ht]
    refine ⟨by simp [getNextChar, hlt, hfg], ?_, ?_⟩
    · simp only [getNextChar, hlt, not_false_eq_true, if_true, hfg]
      refine ⟨htext.1, htext.2, strlen_text htext.1, ?_, by simp [hflag], by simpa using happ⟩
      rw [strlen_text htext.1]; simp
    · simp only [getNextChar, hlt, not_false_eq_true, if_true, hfg, ungetNextChar, hflag]
      refine ⟨htext.1, htext.2, strlen_text htext.1, by simp, by simp [hflag], ?_⟩
      simp [happ]

/-- On a ready scanner with nothing pending, `getNextChar` returns `EOF`,
and `ungetNextChar` afterwards changes nothing. -/
theorem getNextChar_nil {s : Scanner} (h : s.Ready []) :
    (getNextChar s).1 = none ∧ (getNextChar s).2.Ready [] ∧
      ungetNextChar (getNextChar s).2 = (getNextChar s).2 := by
  obtain ⟨hb, hsrc, hsz, hpos, heof, hpend⟩ := h
  simp only [List.append_eq_nil, List.drop_eq_nil_iff] at hpend
  have hlt : ¬ s.linepos < s.bufsize := by omega
  have hfg : fgets (BUFLEN - 1) s.source = none := by simp [hpend.2, fgets]
  refine ⟨by simp [getNextChar, hlt, hfg], ?_, ?_⟩
  · simp only [getNextChar, hlt, not_false_eq_true, if_true, hfg]
    exact ⟨hb, hsrc, hsz, hpos, fun _ => ⟨hpend.2, Nat.le_antisymm hpos (Nat.le_of_not_lt hlt)⟩,
      by simp [hpend]⟩
  · simp [getNextChar, hlt, hfg, ungetNextChar]

/-! ## Scanner: the loop of getToken -/

theorem getTokenLoop_done (M fuel : Nat) (ts : List Char) (tok : TokenType) (s : Scanner) :
    getTokenLoop M fuel .DONE ts tok s = some (tok, ts, s) := by
  unfold getTokenLoop; simp

theorem getTokenLoop_succ (M fuel : Nat) {state : StateType} (hst : state ≠ .DONE)
    (ts : List Char) (tok : TokenType) (s : Scanner) :
    getTokenLoop M (fuel + 1) state ts tok s =
      getTokenLoop M fuel (switchState state (getNextChar s).1 tok (getNextChar s).2).1
        (if (switchState state (getNextChar s).1 tok (getNextChar s).2).2.2.1 = true
            ∧ ts.length ≤ M
          then ts ++ [toChar (getNextChar s).1] else ts)
        (if (switchState state (getNextChar s).1 tok (getNextChar s).2).1 = .DONE
            ∧ (switchState state (getNextChar s).1 tok (getNextChar s).2).2.1 = .ID
          then reservedLookup (cstr
            (if (switchState state (getNextChar s).1 tok (getNextChar s).2).2.2.1 = true
                ∧ ts.length ≤ M
              then ts ++ [toChar (getNextChar s).1] else ts))
          else (switchState state (getNextChar s).1 tok (getNextChar s).2).2.1)
        (switchState state (getNextChar s).1 tok (getNextChar s).2).2.2.2 := by
  rw [getTokenLoop]
  simp [hst]

/-- Whitespace in state START is skipped: the call continues as a call on
the scanner past it. -/
theorem getToken_whitespace (M : Nat) {s : Scanner} {c : Char} {r : List Char}
    (h : s.Ready (c :: r)) (hc : c ∈ whitespace) :
    getToken M s = getToken M (getNextChar s).2 := by
  obtain ⟨h1, h2, -⟩ := getNextChar_cons h
  unfold getToken
  rw [h.fuel_eq, h2.fuel_eq, List.length_cons, getTokenLoop_succ M _ (by decide), h1]
  simp only [whitespace, List.mem_cons, List.mem_singleton, List.not_mem_nil, or_false] at hc
  rcases hc with rfl | rfl | rfl <;> rfl

/-- At end of file a call in state START returns ENDFILE. -/
theorem getToken_eof (M : Nat) {s : Scanner} (h : s.Ready []) :
    getToken M s = some (.ENDFILE, [], (getNextChar s).2) := by
  obtain ⟨h1, -, -⟩ := getNextChar_nil h
  unfold getToken
  rw [h.fuel_eq, List.length_nil, getTokenLoop_succ M _ (by decide), h1]
  simp [switchState, isdigit, isalpha, getTokenLoop_done]

/-- What the scanner needs to know of the punctuation characters. -/
theorem punctuation_facts : ∀ p ∈ punctuation,
    p.1.isDigit = false ∧ p.1.isAlpha = false ∧
    p.1 ∉ [' ', '\t', '\n', '=', '<', '>', '!', '/'] ∧ startToken p.1 = p.2 ∧
    punctuation.lookup p.1 = some p.2 ∧ p.1 ∉ whitespace ∧ p.2 ≠ .ID := by
  decide

/-- In state START a character that is no digit, no letter, no whitespace
and opens no longer token is a token of its own. -/
theorem switchState_start_single (c : Char) (tok : TokenType) (s : Scanner)
    (hd : c.isDigit = false) (ha : c.isAlpha = false)
    (hn : c ∉ [' ', '\t', '\n', '=', '<', '>', '!', '/']) :
    switchState .START (some c) tok s = (.DONE, startToken c, true, s) := by
  simp only [List.mem_cons, List.not_mem_nil, or_false, not_or] at hn
  simp [switchState, isdigit, isalpha, hd, ha, hn]

/-- A pass of the loop that ends in DONE with a token other than ID. -/
theorem getTokenLoop_succ_done (M fuel : Nat) {state : StateType} (hst : state ≠ .DONE)
    (ts : List Char) (tok : TokenType) (s : Scanner) {t : TokenType} {sv : Bool}
    {s1 : Scanner}
    (hsw : switchState state (getNextChar s).1 tok (getNextChar s).2 = (.DONE, t, sv, s1))
    (ht : t ≠ .ID) :
    getTokenLoop M (fuel + 1) state ts tok s
      = some (t, if sv = true ∧ ts.length ≤ M then ts ++ [toChar (getNextChar s).1] else ts,
          s1) := by
  rw [getTokenLoop_succ M _ hst, hsw]
  simp only [ht, and_false, if_false, getTokenLoop_done]

/-- A punctuation character in state START is a token of its own. -/
theorem getToken_punctuation (M : Nat) {s : Scanner} {c : Char} {k : TokenType}
    {r : List Char} (h : s.Ready (c :: r)) (hc : (c, k) ∈ punctuation) :
    getToken M s = some (k, [c], (getNextChar s).2) := by
  obtain ⟨h1, -, -⟩ := getNextChar_cons h
  obtain ⟨hd, ha, hn, hk, -, -, hid⟩ := punctuation_facts _ hc
  simp only at hd ha hn hk hid
  have hsw : switchState .START (getNextChar s).1 .ERROR (getNextChar s).2
      = (.DONE, k, true, (getNextChar s).2) := by
    rw [h1, switchState_start_single c _ _ hd ha hn, hk]
  unfold getToken
  rw [h.fuel_eq, List.length_cons, getTokenLoop_succ_done M _ (by decide) [] .ERROR s hsw hid,
    h1]
  simp [toChar]

/-- Second character of an operator: = completes the two-character token. -/
theorem lookahead_eq (M fuel : Nat) {state : StateType} {t2 t1 : TokenType}
    (hst : (state, t2, t1) ∈ [(StateType.INEQ, TokenType.EQ, TokenType.ASSIGN),
      (.INLT, .LE, .LT), (.INGT, .GE, .GT), (.INNE, .NE, .ERROR)])
    (ts : List Char) (tok : TokenType) {s : Scanner} {r : List Char}
    (h : s.Ready ('=' :: r)) :
    getTokenLoop M (fuel + 1) state ts tok s = some (t2, ts, (getNextChar s).2) := by
  obtain ⟨h1, -, -⟩ := getNextChar_cons h
  cases state <;> simp at hst <;> obtain ⟨rfl, rfl⟩ := hst <;>
  · rw [getTokenLoop_succ M _ (by decide), h1]
    simp [switchState, getTokenLoop_done]

/-- Second character of an operator: another character ends the
one-character token and is pushed back. -/
theorem lookahead_other (M fuel : Nat) {state : StateType} {t2 t1 : TokenType}
    (hst : (state, t2, t1) ∈ [(StateType.INEQ, TokenType.EQ, TokenType.ASSIGN),
      (.INLT, .LE, .LT), (.INGT, .GE, .GT), (.INNE, .NE, .ERROR)])
    (ts : List Char) (tok : TokenType) {s : Scanner} {c : Char} {r : List Char}
    (h : s.Ready (c :: r)) (hc : c ≠ '=') :
    getTokenLoop M (fuel + 1) state ts tok s
      = some (t1, ts, ungetNextChar (getNextChar s).2) := by
  obtain ⟨h1, -, -⟩ := getNextChar_cons h
  cases state <;> simp at hst <;> obtain ⟨rfl, rfl⟩ := hst <;>
  · rw [getTokenLoop_succ M _ (by decide), h1]
    simp [switchState, getTokenLoop_done, hc]

/-- First pass of the loop of getToken on a character that leads from
START to another state than DONE. -/
theorem getToken_start_step (M : Nat) {ch : Char} {state : StateType} {sv : Bool}
    (hsw : ∀ t : Scanner, switchState .START (some ch) .ERROR t = (state, .ERROR, sv, t))
    (hst : state ≠ .DONE) {s : Scanner} {r : List Char} (h : s.Ready (ch :: r)) :
    getToken M s
      = getTokenLoop M (r.length + 1) state (if sv = true then [ch] else []) .ERROR
          (getNextChar s).2 := by
  obtain ⟨h1, -, -⟩ := getNextChar_cons h
  unfold getToken
  rw [h.fuel_eq, List.length_cons, getTokenLoop_succ M _ (by decide), h1, hsw]
  simp [hst, toChar]

/-- First character of a two-character operator, in state START. -/
theorem getToken_operator_start (M : Nat) {ch : Char} {state : StateType} {ts : List Char}
    (hch : (ch, state, ts) ∈ [('=', StateType.INEQ, []), ('<', .INLT, []), ('>', .INGT, []),
      ('!', .INNE, ['!'])])
    {s : Scanner} {r : List Char} (h : s.Ready (ch :: r)) :
    getToken M s = getTokenLoop M (r.length + 1) state ts .ERROR (getNextChar s).2 := by
  cases state <;> simp at hch <;> obtain ⟨rfl, rfl⟩ := hch
  · have hsw : ∀ t : Scanner, switchState .START (some '=') .ERROR t
        = (.INEQ, .ERROR, false, t) := fun t => by simp [switchState, isdigit, isalpha]
    rw [getToken_start_step M hsw (by decide) h]; rfl
  · have hsw : ∀ t : Scanner, switchState .START (some '<') .ERROR t
        = (.INLT, .ERROR, false, t) := fun t => by simp [switchState, isdigit, isalpha]
    rw [getToken_start_step M hsw (by decide) h]; rfl
  · have hsw : ∀ t : Scanner, switchState .START (some '>') .ERROR t
        = (.INGT, .ERROR, false, t) := fun t => by simp [switchState, isdigit, isalpha]
    rw [getToken_start_step M hsw (by decide) h]; rfl
  · have hsw : ∀ t : Scanner, switchState .START (some '!') .ERROR t
        = (.INNE, .ERROR, true, t) := fun t => by simp [switchState, isdigit, isalpha]
    rw [getToken_start_step M hsw (by decide) h]; rfl

theorem not_isDigit_of_isAlpha {c : Char} (h : c.isAlpha = true) : c.isDigit = false := by
  simp only [Char.isAlpha, Char.isUpper, Char.isLower, Char.isDigit, Bool.or_eq_true,
    Bool.and_eq_true, decide_eq_true_eq, Bool.and_eq_false_imp] at *
  simp only [UInt32.le_def, Fin.le_def] at *
  simp at *
  simp only [BitVec.le_def, BitVec.lt_def, BitVec.toNat_ofNat] at *
  omega

theorem Scanner.Ready.isText {s : Scanner} {l : List Char} (h : s.Ready l) : IsText l := by
  have hp := h.pending
  subst hp
  intro hn
  rcases List.mem_append.1 hn with h1 | h1
  · exact h.text_buf (List.mem_of_mem_drop h1)
  · exact h.text_src h1

theorem cstr_text {l : List Char} (h : IsText l) : cstr l = l := by
  unfold cstr
  rw [List.takeWhile_eq_self_iff]
  intro c hc
  simp only [decide_eq_true_eq]
  rintro rfl
  exact h hc

/-- The loop in state INID stores a run of letters and digits and stops,
with the character after the run pushed back, at the first other
character or at end of file. -/
theorem getTokenLoop_inid (M : Nat) (rest : List Char)
    (hrest : ∀ c ∈ rest.head?, c.isAlpha = false ∧ c.isDigit = false) :
    ∀ (w ts : List Char) (tok : TokenType) (s : Scanner), s.Ready (w ++ rest) →
      (∀ c ∈ w, c.isAlpha = true ∨ c.isDigit = true) → ts.length + w.length ≤ M + 1 →
      ∃ s1, getTokenLoop M ((w ++ rest).length + 1) .INID ts tok s
          = some (reservedLookup (cstr (ts ++ w)), ts ++ w, s1) ∧ s1.Ready rest := by
  intro w
  induction w with
  | nil =>
    intro ts tok s h _ _
    rw [List.nil_append] at h ⊢
    rw [getTokenLoop_succ M _ (by decide)]
    cases rest with
    | nil =>
      obtain ⟨h1, h2, h3⟩ := getNextChar_nil h
      refine ⟨(getNextChar s).2, ?_, h2⟩
      rw [h1]
      simp [switchState, isdigit, isalpha, getTokenLoop_done, h3]
    | cons c r =>
      obtain ⟨h1, -, h3⟩ := getNextChar_cons h
      have hc := hrest c (by simp)
      refine ⟨ungetNextChar (getNextChar s).2, ?_, h3⟩
      rw [h1]
      simp [switchState, isdigit, isalpha, getTokenLoop_done, hc.1, hc.2]
  | cons a w ih =>
    intro ts tok s h hw hlen
    rw [List.cons_append] at h
    obtain ⟨h1, h2, -⟩ := getNextChar_cons h
    have ha := hw a (List.mem_cons_self _ _)
    have hsw : switchState .INID (some a) tok (getNextChar s).2
        = (.INID, tok, true, (getNextChar s).2) := by
      rcases ha with ha | ha <;> simp [switchState, isdigit, isalpha, ha]
    have hl : ts.length ≤ M := by simp only [List.length_cons] at hlen; omega
    obtain ⟨s1, e1, r1⟩ := ih (ts ++ [a]) tok _ h2
      (fun c hc => hw c (List.mem_cons_of_mem _ hc))
      (by simp only [List.length_append, List.length_cons, List.length_nil] at hlen ⊢; omega)
    refine ⟨s1, ?_, r1⟩
    rw [List.cons_append, List.length_cons, getTokenLoop_succ M _ (by decide), h1, hsw]
    simp only [hl, and_self, if_true, toChar, reduceCtorEq, false_and, if_false]
    rw [e1]
    simp

theorem punctuation_lookup {c : Char} {k : TokenType} (hc : (c, k) ∈ punctuation) :
    punctuation.lookup c = some k :=
  (punctuation_facts _ hc).2.2.2.2.1

theorem punctuation_not_whitespace {c : Char} {k : TokenType} (hc : (c, k) ∈ punctuation) :
    c ∉ whitespace :=
  (punctuation_facts _ hc).2.2.2.2.2.1

theorem punctuation_of_mem {c : Char} (hc : c ∈ punctuation.map Prod.fst) :
    ∃ k, (c, k) ∈ punctuation := by
  obtain ⟨⟨c1, k⟩, hm, rfl⟩ := List.mem_map.1 hc
  exact ⟨k, hm⟩

theorem isText_of_punctuation_whitespace {l : List Char}
    (h : ∀ c ∈ l, c ∈ whitespace ∨ c ∈ punctuation.map Prod.fst) : IsText l := by
  intro hn
  have := h NUL hn
  revert this
  decide

theorem getTokens_succ (M n : Nat) (s : Scanner) :
    getTokens M (n + 1) s =
      match getToken M s with
      | none => none
      | some r => (getTokens M n r.2.2).map (fun l => (r.1, r.2.1) :: l) := rfl

theorem getTokens_punctuation (M : Nat) (l : List Char) :
    ∀ s : Scanner, s.Ready l → (∀ c ∈ l, c ∈ whitespace ∨ c ∈ punctuation.map Prod.fst) →
      getTokens M ((l.filter (fun c => decide (c ∉ whitespace))).length + 1) s =
        some ((l.filter (fun c => decide (c ∉ whitespace))).map
            (fun c => ((punctuation.lookup c).getD .ERROR, [c])) ++ [(.ENDFILE, [])]) := by
  induction l with
  | nil =>
    intro s h _
    simp [getTokens, getToken_eof M h]
  | cons c r ih =>
    intro s h hall
    have hr : ∀ x ∈ r, x ∈ whitespace ∨ x ∈ punctuation.map Prod.fst :=
      fun x hx => hall x (List.mem_cons_of_mem _ hx)
    obtain ⟨-, h2, -⟩ := getNextChar_cons h
    rcases hall c (List.mem_cons_self _ _) with hw | hp
    · have hf : (c :: r).filter (fun c => decide (c ∉ whitespace))
          = r.filter (fun c => decide (c ∉ whitespace)) := by
        rw [List.filter_cons_of_neg]; simpa using hw
      rw [hf, ← ih _ h2 hr, getTokens_succ, getTokens_succ, getToken_whitespace M h hw]
    · obtain ⟨k, hk⟩ := punctuation_of_mem hp
      have hnw := punctuation_not_whitespace hk
      have hf : (c :: r).filter (fun c => decide (c ∉ whitespace))
          = c :: r.filter (fun c => decide (c ∉ whitespace)) := by
        rw [List.filter_cons_of_pos]; simpa using hnw
      rw [hf, List.length_cons, getTokens_succ, getToken_punctuation M h hk]
      simp only []
      rw [ih _ h2 hr, List.map_cons, punctuation_lookup hk]
      rfl

/-- C3: on an input made only of the characters + - * ( ) [ ] { } ; , and
whitespace, repeated calls of getToken return one token per non-whitespace
character, in input order and of the kind of its character, and then
ENDFILE. -/
theorem getTokens_punctuation_roundtrip (M : Nat) (input : List Char)
    (h : ∀ c ∈ input, c ∈ whitespace ∨ c ∈ punctuation.map Prod.fst) :
    getTokens M ((input.filter (fun c => decide (c ∉ whitespace))).length + 1)
        (Scanner.init input) =
      some ((input.filter (fun c => decide (c ∉ whitespace))).map
          (fun c => ((punctuation.lookup c).getD .ERROR, [c])) ++ [(.ENDFILE, [])]) :=
  getTokens_punctuation M input _
    (Scanner.init_ready (isText_of_punctuation_whitespace h)) h

theorem getTokens_punctuation_roundtrip_witness :
    (∀ c ∈ "( [\n;".toList, c ∈ whitespace ∨ c ∈ punctuation.map Prod.fst) ∧
    getTokens 40 4 (Scanner.init "( [\n;".toList) =
      some [(.LPAREN, ['(']), (.LBRACE, ['[']), (.SEMI, [';']), (.ENDFILE, [])] :=
  ⟨by decide, getTokens_punctuation_roundtrip 40 "( [\n;".toList (by decide)⟩

/-- C2: for each of the characters = < >, with the scanner about to
deliver it: followed by = the call returns the two-character token (EQ, LE,
GE) and both characters are consumed; followed by another character c the
call returns the one-character token (ASSIGN, LT, GT) and leaves c
unconsumed, the next character delivered being c. -/
theorem getToken_relational_operators (M : Nat) (s : Scanner) (rest : List Char) :
    ∀ p ∈ [('=', TokenType.EQ, TokenType.ASSIGN), ('<', .LE, .LT), ('>', .GE, .GT)],
      (s.Ready (p.1 :: '=' :: rest) →
        ∃ s1, getToken M s = some (p.2.1, [], s1) ∧ s1.Ready rest) ∧
      (∀ c, c ≠ '=' → s.Ready (p.1 :: c :: rest) →
        ∃ s1, getToken M s = some (p.2.2, [], s1) ∧ s1.Ready (c :: rest) ∧
          (getNextChar s1).1 = some c) := by
  intro p hp
  simp only [List.mem_cons, List.mem_singleton, List.not_mem_nil, or_false] at hp
  have key : ∃ st, (p.1, st, ([] : List Char)) ∈ [('=', StateType.INEQ, []), ('<', .INLT, []),
      ('>', .INGT, []), ('!', .INNE, ['!'])] ∧
      (st, p.2.1, p.2.2) ∈ [(StateType.INEQ, TokenType.EQ, TokenType.ASSIGN),
        (.INLT, .LE, .LT), (.INGT, .GE, .GT), (.INNE, .NE, .ERROR)] := by
    rcases hp with rfl | rfl | rfl
    · exact ⟨.INEQ, by decide, by decide⟩
    · exact ⟨.INLT, by decide, by decide⟩
    · exact ⟨.INGT, by decide, by decide⟩
  obtain ⟨st, hs1, hs2⟩ := key
  constructor
  · intro h
    obtain ⟨-, h2, -⟩ := getNextChar_cons h
    obtain ⟨-, h3, -⟩ := getNextChar_cons h2
    exact ⟨_, by rw [getToken_operator_start M hs1 h, List.length_cons,
      lookahead_eq M _ hs2 _ _ h2], h3⟩
  · intro c hc h
    obtain ⟨-, h2, -⟩ := getNextChar_cons h
    obtain ⟨-, -, h4⟩ := getNextChar_cons h2
    exact ⟨_, by rw [getToken_operator_start M hs1 h, List.length_cons,
      lookahead_other M _ hs2 _ _ h2 hc], h4, (getNextChar_cons h4).1⟩

theorem getToken_relational_operators_witness :
    (Scanner.init "<=".toList).Ready ('<' :: '=' :: []) ∧
    (Scanner.init "<a".toList).Ready ('<' :: 'a' :: []) ∧
    (∃ s1, getToken 40 (Scanner.init "<=".toList) = some (.LE, [], s1) ∧ s1.Ready []) ∧
    (∃ s1, getToken 40 (Scanner.init "<a".toList) = some (.LT, [], s1) ∧ s1.Ready ['a'] ∧
      (getNextChar s1).1 = some 'a') ∧
    getTokens 40 2 (Scanner.init "<=".toList) = some [(.LE, []), (.ENDFILE, [])] ∧
    getTokens 40 3 (Scanner.init "<a".toList)
      = some [(.LT, []), (.ID, ['a']), (.ENDFILE, [])] :=
  ⟨Scanner.init_ready (by decide), Scanner.init_ready (by decide),
    ((getToken_relational_operators 40 (Scanner.init "<=".toList) []) _
      (by decide : ('<', TokenType.LE, TokenType.LT) ∈ _)).1 (Scanner.init_ready (by decide)),
    ((getToken_relational_operators 40 (Scanner.init "<a".toList) []) _
      (by decide : ('<', TokenType.LE, TokenType.LT) ∈ _)).2 'a' (by decide)
      (Scanner.init_ready (by decide)),
    by simp [getTokens, getToken, getTokenLoop, Scanner.fuel, Scanner.init, getNextChar, fgets,
      fgetsAux, BUFLEN, switchState, isdigit, isalpha, strlen, NUL, ungetNextChar, toChar,
      reservedLookup, reservedLookupFrom, reservedWords, cstr, startToken],
    by simp [getTokens, getToken, getTokenLoop, Scanner.fuel, Scanner.init, getNextChar, fgets,
      fgetsAux, BUFLEN, switchState, isdigit, isalpha, strlen, NUL, ungetNextChar, toChar,
      reservedLookup, reservedLookupFrom, reservedWords, cstr, startToken]⟩

/-- C4: with the scanner about to deliver !, followed by = the call returns
NE; followed by another character c it returns ERROR with the lexeme "!"
and leaves c unconsumed, the next character delivered being c. -/
theorem getToken_bang (M : Nat) (s : Scanner) (rest : List Char) :
    (s.Ready ('!' :: '=' :: rest) →
      ∃ s1, getToken M s = some (.NE, ['!'], s1) ∧ s1.Ready rest) ∧
    (∀ c, c ≠ '=' → s.Ready ('!' :: c :: rest) →
      ∃ s1, getToken M s = some (.ERROR, ['!'], s1) ∧ cstr ['!'] = ['!'] ∧
        s1.Ready (c :: rest) ∧ (getNextChar s1).1 = some c) := by
  constructor
  · intro h
    obtain ⟨-, h2, -⟩ := getNextChar_cons h
    obtain ⟨-, h3, -⟩ := getNextChar_cons h2
    exact ⟨_, by rw [getToken_operator_start M (by decide :
        ('!', StateType.INNE, ['!']) ∈ _) h, List.length_cons,
      lookahead_eq M _ (by decide : (StateType.INNE, TokenType.NE, TokenType.ERROR) ∈ _)
        _ _ h2], h3⟩
  · intro c hc h
    obtain ⟨-, h2, -⟩ := getNextChar_cons h
    obtain ⟨-, -, h4⟩ := getNextChar_cons h2
    exact ⟨_, by rw [getToken_operator_start M (by decide :
        ('!', StateType.INNE, ['!']) ∈ _) h, List.length_cons,
      lookahead_other M _ (by decide : (StateType.INNE, TokenType.NE, TokenType.ERROR) ∈ _)
        _ _ h2 hc], by decide, h4, (getNextChar_cons h4).1⟩

theorem getToken_bang_witness :
    (Scanner.init "!=".toList).Ready ('!' :: '=' :: []) ∧
    (Scanner.init "!x".toList).Ready ('!' :: 'x' :: []) ∧
    (∃ s1, getToken 40 (Scanner.init "!=".toList) = some (.NE, ['!'], s1) ∧ s1.Ready []) ∧
    (∃ s1, getToken 40 (Scanner.init "!x".toList) = some (.ERROR, ['!'], s1) ∧
      cstr ['!'] = ['!'] ∧ s1.Ready ['x'] ∧ (getNextChar s1).1 = some 'x') ∧
    getTokens 40 2 (Scanner.init "!=".toList) = some [(.NE, ['!']), (.ENDFILE, [])] ∧
    getTokens 40 3 (Scanner.init "!x".toList)
      = some [(.ERROR, ['!']), (.ID, ['x']), (.ENDFILE, [])] :=
  ⟨Scanner.init_ready (by decide), Scanner.init_ready (by decide),
    (getToken_bang 40 (Scanner.init "!=".toList) []).1 (Scanner.init_ready (by decide)),
    (getToken_bang 40 (Scanner.init "!x".toList) []).2 'x' (by decide)
      (Scanner.init_ready (by decide)),
    by simp [getTokens, getToken, getTokenLoop, Scanner.fuel, Scanner.init, getNextChar, fgets,
      fgetsAux, BUFLEN, switchState, isdigit, isalpha, strlen, NUL, ungetNextChar, toChar,
      reservedLookup, reservedLookupFrom, reservedWords, cstr, startToken],
    by simp [getTokens, getToken, getTokenLoop, Scanner.fuel, Scanner.init, getNextChar, fgets,
      fgetsAux, BUFLEN, switchState, isdigit, isalpha, strlen, NUL, ungetNextChar, toChar,
      reservedLookup, reservedLookupFrom, reservedWords, cstr, startToken]⟩

/-- C5: with the scanner about to deliver a maximal run of letters and
digits that starts with a letter and has at most MAXTOKENLEN characters,
getToken returns IF, ELSE, WHILE, RETURN, INT or VOID when the run is "if",
"else", "while", "return", "int" or "void" and ID for every other run; the
stored lexeme is the run, and the character that ended the run is left to
be delivered next. -/
theorem getToken_identifier (M : Nat) (s : Scanner) (a : Char) (w rest : List Char)
    (ha : a.isAlpha = true) (hw : ∀ c ∈ w, c.isAlpha = true ∨ c.isDigit = true)
    (hlen : (a :: w).length ≤ M)
    (hmax : ∀ c ∈ rest.head?, c.isAlpha = false ∧ c.isDigit = false)
    (h : s.Ready (a :: w ++ rest)) :
    ∃ s1, getToken M s = some
        (if a :: w = "if".toList then .IF
          else if a :: w = "else".toList then .ELSE
          else if a :: w = "while".toList then .WHILE
          else if a :: w = "return".toList then .RETURN
          else if a :: w = "int".toList then .INT
          else if a :: w = "void".toList then .VOID
          else .ID, a :: w, s1) ∧
      cstr (a :: w) = a :: w ∧ s1.Ready rest ∧ (getNextChar s1).1 = rest.head? := by
  rw [List.cons_append] at h
  obtain ⟨h1, h2, -⟩ := getNextChar_cons h
  have htxt : IsText (a :: w) := fun hn =>
    h.isText (by rw [← List.cons_append]; exact List.mem_append_left _ hn)
  obtain ⟨s1, e1, r1⟩ := getTokenLoop_inid M rest hmax w [a] .ERROR _ h2 hw
    (by simp only [List.length_cons, List.length_nil] at hlen ⊢; omega)
  refine ⟨s1, ?_, cstr_text htxt, r1, ?_⟩
  · unfold getToken
    rw [h.fuel_eq, List.length_cons, getTokenLoop_succ M _ (by decide), h1]
    have hsw : switchState .START (some a) .ERROR (getNextChar s).2
        = (.INID, .ERROR, true, (getNextChar s).2) := by
      simp [switchState, isdigit, isalpha, ha, not_isDigit_of_isAlpha ha]
    rw [hsw]
    simp only [List.length_nil, Nat.zero_le, and_self, if_true, toChar, reduceCtorEq,
      false_and, if_false, List.nil_append]
    rw [e1, List.singleton_append, cstr_text htxt]
    rfl
  · cases rest with
    | nil => exact (getNextChar_nil r1).1
    | cons c r => exact (getNextChar_cons r1).1

theorem getToken_identifier_witness :
    ('i'.isAlpha = true) ∧ (∀ c ∈ ['f'], c.isAlpha = true ∨ c.isDigit = true) ∧
    ['i', 'f'].length ≤ 40 ∧
    (∀ c ∈ ['(', 'x'].head?, c.isAlpha = false ∧ c.isDigit = false) ∧
    (Scanner.init "if(x".toList).Ready ('i' :: ['f'] ++ ['(', 'x']) ∧
    ∃ s1, getToken 40 (Scanner.init "if(x".toList) = some (.IF, ['i', 'f'], s1) ∧
      cstr ['i', 'f'] = ['i', 'f'] ∧ s1.Ready ['(', 'x'] ∧ (getNextChar s1).1 = some '(' :=
  ⟨by decide, by decide, by decide, by decide, Scanner.init_ready (by decide),
    getToken_identifier 40 (Scanner.init "if(x".toList) 'i' ['f'] ['(', 'x']
      (by decide) (by decide) (by decide) (by decide) (Scanner.init_ready (by decide))⟩

/-! ## Scanner: end of file -/

theorem getNextChar_exhausted {s : Scanner} (h : s.Exhausted) :
    getNextChar s = (none, { s with lineno := s.lineno + 1, EOF_flag := true }) := by
  simp [getNextChar, h.2, h.1, fgets]

theorem getNextChar_none {s : Scanner} (h : (getNextChar s).1 = none) :
    (getNextChar s).2.Exhausted ∧ ungetNextChar (getNextChar s).2 = (getNextChar s).2 := by
  unfold getNextChar at h ⊢
  by_cases hlt : s.linepos < s.bufsize
  · simp [hlt] at h
  · cases hs : s.source with
    | nil => simp [hlt, hs, fgets, Scanner.Exhausted, ungetNextChar]
    | cons c r => simp [hlt, hs, fgets] at h

theorem getToken_exhausted (M : Nat) {s : Scanner} (h : s.Exhausted) :
    ∃ s1, getToken M s = some (.ENDFILE, [], s1) ∧ s1.Exhausted := by
  refine ⟨{ s with lineno := s.lineno + 1, EOF_flag := true }, ?_, h⟩
  unfold getToken Scanner.fuel
  rw [getTokenLoop_succ M _ (by decide), getNextChar_exhausted h]
  simp [switchState, isdigit, isalpha, getTokenLoop_done]

theorem ite_ne_endfile {p : Prop} [Decidable p] {a b : TokenType}
    (ha : a ≠ .ENDFILE) (hb : b ≠ .ENDFILE) : (if p then a else b) ≠ .ENDFILE := by
  split <;> assumption

theorem reservedLookup_ne_endfile (l : List Char) : reservedLookup l ≠ .ENDFILE := by
  simp only [reservedLookup, reservedWords, reservedLookupFrom]
  iterate 6 refine ite_ne_endfile (by decide) ?_
  decide

theorem startToken_ne_endfile (c : Char) : startToken c ≠ .ENDFILE := by
  unfold startToken
  iterate 11 refine ite_ne_endfile (by decide) ?_
  decide

/-- One pass of the switch on a character never yields ENDFILE unless the
current token was ENDFILE already. -/
theorem switchState_some_ne_endfile (state : StateType) (c : Char) (tok : TokenType)
    (s : Scanner) (h : tok ≠ .ENDFILE) :
    (switchState state (some c) tok s).2.1 ≠ .ENDFILE := by
  cases state <;> simp only [switchState] <;> (try split_ifs)
  all_goals first
    | exact h
    | exact startToken_ne_endfile _
    | contradiction
    | (intro hx; cases hx)

/-- One pass of the switch at end of file leaves the scanner as it is. -/
theorem switchState_none_scanner (state : StateType) (tok : TokenType) {s : Scanner}
    (h : ungetNextChar s = s) : (switchState state none tok s).2.2.2 = s := by
  cases state <;> simp only [switchState] <;> (try split_ifs)
  all_goals first
    | rfl
    | exact h

theorem getTokenLoop_endfile (M : Nat) :
    ∀ (fuel : Nat) (state : StateType) (ts : List Char) (tok : TokenType) (s : Scanner)
      (ts1 : List Char) (s1 : Scanner), (tok = .ENDFILE → s.Exhausted) →
      getTokenLoop M fuel state ts tok s = some (.ENDFILE, ts1, s1) → s1.Exhausted := by
  intro fuel
  induction fuel with
  | zero =>
    intro state ts tok s ts1 s1 hinv h
    unfold getTokenLoop at h
    by_cases hd : state = .DONE
    · simp only [hd, if_true, Option.some.injEq, Prod.mk.injEq] at h
      obtain ⟨rfl, -, rfl⟩ := h
      exact hinv rfl
    · simp [hd] at h
  | succ fuel ih =>
    intro state ts tok s ts1 s1 hinv h
    by_cases hd : state = .DONE
    · subst hd
      rw [getTokenLoop_done] at h
      simp only [Option.some.injEq, Prod.mk.injEq] at h
      obtain ⟨rfl, -, rfl⟩ := h
      exact hinv rfl
    · rw [getTokenLoop_succ M _ hd] at h
      refine ih _ _ _ _ _ _ ?_ h
      intro htok
      cases hc : (getNextChar s).1 with
      | none =>
        obtain ⟨he, hu⟩ := getNextChar_none hc
        rw [switchState_none_scanner _ _ hu]
        exact he
      | some c =>
        exfalso
        have hne : tok ≠ .ENDFILE := by
          intro ht
          rw [getNextChar_exhausted (hinv ht)] at hc
          simp at hc
        rw [hc] at htok
        split at htok
        · exact reservedLookup_ne_endfile _ htok
        · exact switchState_some_ne_endfile _ _ _ _ hne htok

theorem getTokens_exhausted (M : Nat) :
    ∀ (n : Nat) (s : Scanner), s.Exhausted →
      getTokens M n s = some (List.replicate n (.ENDFILE, [])) := by
  intro n
  induction n with
  | zero => intro s _; rfl
  | succ n ih =>
    intro s h
    obtain ⟨s1, e1, h1⟩ := getToken_exhausted M h
    rw [getTokens_succ, e1]
    simp only []
    rw [ih _ h1]
    rfl

/-- In a block comment whose text holds no closing star-slash, the loop
reads to the end of the text and returns ENDFILE. -/
theorem getTokenLoop_comment (M : Nat) :
    ∀ (l : List Char) (state : StateType) (ts : List Char) (tok : TokenType) (s : Scanner),
      s.Ready l → ¬ ['*', '/'] <:+: l →
      (state = .INCOMMENT ∨ (state = .INCOMMENT_ ∧ l.head? ≠ some '/')) →
      ∃ s1, getTokenLoop M (l.length + 1) state ts tok s = some (.ENDFILE, ts, s1) := by
  intro l
  induction l with
  | nil =>
    intro state ts tok s h _ hst
    obtain ⟨h1, -, -⟩ := getNextChar_nil h
    refine ⟨(getNextChar s).2, ?_⟩
    rcases hst with rfl | ⟨rfl, -⟩ <;>
    · rw [getTokenLoop_succ M _ (by decide), h1]
      simp [switchState, getTokenLoop_done]
  | cons c r ih =>
    intro state ts tok s h hno hst
    obtain ⟨h1, h2, -⟩ := getNextChar_cons h
    have hr : ¬ ['*', '/'] <:+: r := fun hi => hno (List.infix_cons hi)
    rw [List.length_cons]
    rcases hst with rfl | ⟨rfl, hhead⟩
    · rw [getTokenLoop_succ M _ (by decide), h1]
      by_cases hc : c = '*'
      · subst hc
        have hh : r.head? ≠ some '/' := by
          intro hh
          cases r with
          | nil => simp at hh
          | cons d r2 =>
            simp only [List.head?_cons, Option.some.injEq] at hh
            subst hh
            exact hno (List.prefix_append _ r2).isInfix
        obtain ⟨s1, e1⟩ := ih .INCOMMENT_ ts tok _ h2 hr (Or.inr ⟨rfl, hh⟩)
        exact ⟨s1, by simpa [switchState] using e1⟩
      · obtain ⟨s1, e1⟩ := ih .INCOMMENT ts tok _ h2 hr (Or.inl rfl)
        exact ⟨s1, by simpa [switchState, hc] using e1⟩
    · rw [getTokenLoop_succ M _ (by decide), h1]
      have hc : c ≠ '/' := by simpa using hhead
      obtain ⟨s1, e1⟩ := ih .INCOMMENT ts tok _ h2 hr (Or.inl rfl)
      exact ⟨s1, by simpa [switchState, hc] using e1⟩

/-- C6: once getToken has returned ENDFILE, every later call returns ENDFILE
too; end of file read in a block comment makes the token ENDFILE; and a
source text that opens a block comment and never closes it gives ENDFILE. -/
theorem getToken_endfile_forever (M : Nat) :
    (∀ (s : Scanner) (ts : List Char) (s1 : Scanner),
      getToken M s = some (.ENDFILE, ts, s1) →
      ∀ n, getTokens M n s1 = some (List.replicate n (.ENDFILE, []))) ∧
    (∀ (s : Scanner) (state : StateType) (fuel : Nat) (ts : List Char) (tok : TokenType),
      state = .INCOMMENT ∨ state = .INCOMMENT_ → (getNextChar s).1 = none →
      getTokenLoop M (fuel + 1) state ts tok s = some (.ENDFILE, ts, (getNextChar s).2)) ∧
    (∀ body : List Char, IsText body → ¬ ['*', '/'] <:+: body →
      ∃ s1, getToken M (Scanner.init ('/' :: '*' :: body)) = some (.ENDFILE, [], s1)) := by
  refine ⟨?_, ?_, ?_⟩
  · intro s ts s1 h n
    exact getTokens_exhausted M n s1
      (getTokenLoop_endfile M _ _ _ _ _ _ _ (by simp) h)
  · intro s state fuel ts tok hst hc
    rcases hst with rfl | rfl <;>
    · rw [getTokenLoop_succ M _ (by decide), hc]
      simp [switchState, getTokenLoop_done]
  · intro body htxt hno
    have h : (Scanner.init ('/' :: '*' :: body)).Ready ('/' :: '*' :: body) :=
      Scanner.init_ready (by
        intro hn
        simp only [List.mem_cons] at hn
        rcases hn with hn | hn | hn
        · revert hn; decide
        · revert hn; decide
        · exact htxt hn)
    obtain ⟨h1, h2, -⟩ := getNextChar_cons h
    obtain ⟨h3, h4, -⟩ := getNextChar_cons h2
    obtain ⟨s1, e1⟩ := getTokenLoop_comment M body .INCOMMENT [] .ERROR _ h4 hno (Or.inl rfl)
    refine ⟨s1, ?_⟩
    unfold getToken
    rw [h.fuel_eq, List.length_cons, List.length_cons, getTokenLoop_succ M _ (by decide), h1]
    have hsw : ∀ t : Scanner, switchState .START (some '/') .ERROR t
        = (.INOVER, .ERROR, false, t) := by
      intro t; simp [switchState, isdigit, isalpha]
    rw [hsw]
    simp only [Bool.false_eq_true, false_and, if_false, reduceCtorEq]
    rw [getTokenLoop_succ M _ (by decide), h3]
    simpa [switchState] using e1

theorem getToken_endfile_forever_witness :
    IsText " a".toList ∧ ¬ ['*', '/'] <:+: " a".toList ∧
    ∃ s1, getToken 40 (Scanner.init "/* a".toList) = some (.ENDFILE, [], s1) ∧
      getTokens 40 2 s1 = some [(.ENDFILE, []), (.ENDFILE, [])] :=
  ⟨by decide, by decide,
    let ⟨s1, h⟩ := (getToken_endfile_forever 40).2.2 " a".toList (by decide) (by decide)
    ⟨s1, h, (getToken_endfile_forever 40).1 _ _ _ h 2⟩⟩

/-- C1 (defect of the code): the comment body "*" holds no star-slash, yet
on the input "/***/ x" the closing star-slash is missed: after the second
star the scanner is back in state INCOMMENT, the slash does not close the
comment, and the first call of getToken returns ENDFILE instead of the
identifier x. -/
theorem getToken_comment_star_body (M : Nat) :
    ¬ ['*', '/'] <:+: ['*'] ∧
    getTokens M 1 (Scanner.init ("/*".toList ++ ['*'] ++ "*/ x".toList))
      = some [(.ENDFILE, [])] := by
  refine ⟨by decide, ?_⟩
  have e : "/*".toList ++ ['*'] ++ "*/ x".toList = ['/', '*', '*', '*', '/', ' ', 'x'] := rfl
  rw [e]
  have h0 : (Scanner.init ['/', '*', '*', '*', '/', ' ', 'x']).Ready
      ['/', '*', '*', '*', '/', ' ', 'x'] := Scanner.init_ready (by decide)
  obtain ⟨a1, h1, -⟩ := getNextChar_cons h0
  obtain ⟨a2, h2, -⟩ := getNextChar_cons h1
  obtain ⟨a3, h3, -⟩ := getNextChar_cons h2
  obtain ⟨a4, h4, -⟩ := getNextChar_cons h3
  obtain ⟨s1, e1⟩ := getTokenLoop_comment M ['/', ' ', 'x'] .INCOMMENT [] .ERROR _ h4
    (by decide) (Or.inl rfl)
  have hsw : ∀ t : Scanner, switchState .START (some '/') .ERROR t
      = (.INOVER, .ERROR, false, t) := by
    intro t; simp [switchState, isdigit, isalpha]
  have key : getToken M (Scanner.init ['/', '*', '*', '*', '/', ' ', 'x'])
      = some (.ENDFILE, [], s1) := by
    unfold getToken
    rw [h0.fuel_eq]
    simp only [List.length_cons, List.length_nil]
    rw [getTokenLoop_succ M _ (by decide), a1, hsw]
    simp only [Bool.false_eq_true, false_and, if_false, reduceCtorEq]
    rw [getTokenLoop_succ M _ (by decide), a2]
    simp only [switchState, if_true, Bool.false_eq_true, false_and, if_false, reduceCtorEq]
    rw [getTokenLoop_succ M _ (by decide), a3]
    simp only [switchState, if_true, Bool.false_eq_true, false_and, if_false, reduceCtorEq]
    rw [getTokenLoop_succ M _ (by decide), a4]
    have hsw2 : ∀ t : Scanner, switchState .INCOMMENT_ (some '*') .ERROR t
        = (.INCOMMENT, .ERROR, false, t) := by
      intro t; simp [switchState]
    rw [hsw2]
    simp only [Bool.false_eq_true, false_and, if_false, reduceCtorEq]
    exact e1
  rw [getTokens_succ, key]
  rfl

/-! ## Symbol table -/

theorem Exec.bind_eq {α β : Type} (m : Exec α) (f : α → Exec β) (st : Analyzer) :
    (m >>= f) st = match m st with
      | .ok a st1 => f a st1
      | .crash st1 => .crash st1 := rfl

theorem Exec.pure_eq {α : Type} (a : α) (st : Analyzer) :
    (pure a : Exec α) st = .ok a st := rfl

theorem findBucket_some {name : String} {l : List BucketListRec} {b : BucketListRec}
    (h : findBucket name l = some b) : b ∈ l ∧ b.name = name := by
  induction l with
  | nil => simp [findBucket] at h
  | cons a l ih =>
    unfold findBucket at h
    split at h
    · rename_i ha
      cases h
      exact ⟨List.mem_cons_self _ _, ha⟩
    · exact ⟨List.mem_cons_of_mem _ (ih h).1, (ih h).2⟩

theorem findBucket_none {name : String} {l : List BucketListRec}
    (h : findBucket name l = none) : ∀ b ∈ l, b.name ≠ name := by
  induction l with
  | nil => simp
  | cons a l ih =>
    unfold findBucket at h
    split at h
    · cases h
    · rename_i ha
      intro b hb
      rcases List.mem_cons.1 hb with rfl | hb
      · exact ha
      · exact ih h b hb

/-- In a well-formed scope a name is found by the search of its own bucket
list exactly when the scope contains it. -/
theorem findBucket_eq_none_iff {sc : ScopeListRec} (hw : sc.WellFormed) (name : String) :
    findBucket name (sc.hashTable (hash name)) = none ↔ ¬ sc.Contains name := by
  constructor
  · rintro h ⟨k, b, hb, hn⟩
    have hk := (hw k b hb).1
    rw [hn] at hk
    subst hk
    exact findBucket_none h b hb hn
  · intro h
    cases hf : findBucket name (sc.hashTable (hash name)) with
    | none => rfl
    | some b => exact absurd ⟨_, b, (findBucket_some hf).1, (findBucket_some hf).2⟩ h

theorem Chain.unique {sl : List ScopeListRec} {p : Option Nat} {l1 l2 : List Nat}
    (h1 : Chain sl p l1) (h2 : Chain sl p l2) : l1 = l2 := by
  induction h1 generalizing l2 with
  | null => cases h2; rfl
  | scope hs _ ih =>
    cases h2 with
    | scope hs2 hc2 =>
      rw [hs] at hs2
      cases hs2
      rw [ih hc2]

theorem Chain.lt_length {sl : List ScopeListRec} {p : Option Nat} {l : List Nat}
    (h : Chain sl p l) : ∀ i ∈ l, i < sl.length := by
  induction h with
  | null => simp
  | scope hs _ ih =>
    intro j hj
    rcases List.mem_cons.1 hj with rfl | hj
    · exact (List.getElem?_eq_some_iff.1 hs).1
    · exact ih j hj

theorem Chain.suffix {sl : List ScopeListRec} {p : Option Nat} {l : List Nat}
    (h : Chain sl p l) : ∀ (a : List Nat) (i : Nat) (b : List Nat), l = a ++ i :: b →
      Chain sl (some i) (i :: b) := by
  induction h with
  | null => intro a i b e; simp at e
  | scope hs hc ih =>
    intro a i b e
    cases a with
    | nil =>
      simp only [List.nil_append, List.cons.injEq] at e
      obtain ⟨rfl, rfl⟩ := e
      exact Chain.scope hs hc
    | cons x a =>
      simp only [List.cons_append, List.cons.injEq] at e
      exact ih a i b e.2

theorem Chain.nodup {sl : List ScopeListRec} {p : Option Nat} {l : List Nat}
    (h : Chain sl p l) : l.Nodup := by
  induction h with
  | null => exact List.nodup_nil
  | scope hs hc ih =>
    rename_i i sc l
    refine List.nodup_cons.2 ⟨?_, ih⟩
    intro hi
    obtain ⟨a, b, e⟩ := List.append_of_mem hi
    have h1 := hc.suffix a i b e
    have h2 : Chain sl (some i) (i :: l) := Chain.scope hs hc
    have := Chain.unique h1 h2
    simp only [List.cons.injEq, true_and] at this
    rw [e] at this
    have hl := congrArg List.length this
    simp at hl
    omega

theorem Chain.length_le {sl : List ScopeListRec} {p : Option Nat} {l : List Nat}
    (h : Chain sl p l) : l.length ≤ sl.length := by
  have h1 := h.nodup
  have h2 : l ⊆ List.range sl.length := fun i hi => List.mem_range.2 (h.lt_length i hi)
  have := (List.subperm_of_subset h1 h2).length_le
  simpa using this

/-- The lookup loop along a parent chain: it returns, with the first
bucket of that name in the nearest scope of the chain that holds the name,
and with NULL exactly when no scope of the chain holds it. -/
theorem lookupLoop_chain (sl : List ScopeListRec) (name : String) {p : Option Nat}
    {l : List Nat} (hc : Chain sl p l) :
    ∀ fuel, l.length ≤ fuel →
      (∀ i ∈ l, ∀ sc, sl[i]? = some sc → sc.WellFormed) →
      ∃ r, lookupLoop sl (hash name) name fuel p = some r ∧
        (r = none ↔ ∀ i ∈ l, ¬ ScopeHolds sl i name) ∧
        (∀ i b, r = some (i, b) →
          (∃ l1 l2, l = l1 ++ i :: l2 ∧ ∀ j ∈ l1, ¬ ScopeHolds sl j name) ∧
          (∃ sc, sl[i]? = some sc ∧ b ∈ sc.hashTable (hash name)) ∧ b.name = name) := by
  induction hc with
  | null =>
    intro fuel _ _
    refine ⟨none, by cases fuel <;> rfl, by simp, by simp⟩
  | scope hs hc ih =>
    rename_i i sc l
    intro fuel hf hw
    cases fuel with
    | zero => simp at hf
    | succ fuel =>
      have hwi := hw i (List.mem_cons_self _ _) sc hs
      cases hfb : findBucket name (sc.hashTable (hash name)) with
      | some b =>
        refine ⟨some (i, b), by simp [lookupLoop, hs, hfb], ?_, ?_⟩
        · simp only [reduceCtorEq, false_iff, not_forall]
          exact ⟨i, List.mem_cons_self _ _, fun hn => hn ⟨sc, hs, _, b,
            (findBucket_some hfb).1, (findBucket_some hfb).2⟩⟩
        · intro j b2 e
          simp only [Option.some.injEq, Prod.mk.injEq] at e
          obtain ⟨rfl, rfl⟩ := e
          exact ⟨⟨[], l, rfl, by simp⟩, ⟨sc, hs, (findBucket_some hfb).1⟩,
            (findBucket_some hfb).2⟩
      | none =>
        have hnot : ¬ ScopeHolds sl i name := by
          rintro ⟨sc2, hs2, hcon⟩
          rw [hs] at hs2
          cases hs2
          exact (findBucket_eq_none_iff hwi name).1 hfb hcon
        obtain ⟨r, e, hnone, hsome⟩ := ih fuel (by simpa using hf)
          (fun j hj => hw j (List.mem_cons_of_mem _ hj))
        refine ⟨r, by simp [lookupLoop, hs, hfb, e], ?_, ?_⟩
        · rw [hnone]
          constructor
          · intro h j hj
            rcases List.mem_cons.1 hj with rfl | hj
            · exact hnot
            · exact h j hj
          · intro h j hj
            exact h j (List.mem_cons_of_mem _ hj)
        · intro j b e2
          obtain ⟨⟨l1, l2, e3, h3⟩, h4, h5⟩ := hsome j b e2
          refine ⟨⟨i :: l1, l2, by rw [e3]; rfl, ?_⟩, h4, h5⟩
          intro k hk
          rcases List.mem_cons.1 hk with rfl | hk
          · exact hnot
          · exact h3 k hk

/-- C7: with the parent chain of the top scope being l, st_lookup_return_bucket
returns the symbol of that name held by the nearest scope of l that holds
the name, and returns NULL exactly when no scope of l holds it; st_lookup
returns the memory location of that symbol, and -1 exactly when there is
none. -/
theorem st_lookup_nearest_scope (st : Analyzer) (name : String) (l : List Nat)
    (hchain : Chain st.scopeList (get_top_scope st) l)
    (hwf : ∀ i ∈ l, ∀ sc, st.scopeList[i]? = some sc → sc.WellFormed) :
    ∃ r, st_lookup_return_bucket name st = .ok r st ∧
      (r = none ↔ ∀ i ∈ l, ¬ ScopeHolds st.scopeList i name) ∧
      (∀ i b, r = some (i, b) →
        (∃ l1 l2, l = l1 ++ i :: l2 ∧ ∀ j ∈ l1, ¬ ScopeHolds st.scopeList j name) ∧
        (∃ sc, st.scopeList[i]? = some sc ∧ b ∈ sc.hashTable (hash name)) ∧ b.name = name) ∧
      (∃ m, st_lookup name st = .ok m st ∧ (m = -1 ↔ r = none) ∧
        ∀ i b, r = some (i, b) → m = b.memloc) := by
  obtain ⟨r, e, hnone, hsome⟩ := lookupLoop_chain st.scopeList name hchain
    (st.scopeList.length + 1) (Nat.le_succ_of_le hchain.length_le) hwf
  have e1 : st_lookup_return_bucket name st = .ok r st := by
    simp [st_lookup_return_bucket, e]
  refine ⟨r, e1, hnone, hsome, ?_⟩
  cases r with
  | none =>
    exact ⟨-1, by simp [st_lookup, Exec.bind_eq, e1, Exec.pure_eq], by simp, by simp⟩
  | some x =>
    obtain ⟨i, b⟩ := x
    refine ⟨b.memloc, by simp [st_lookup, Exec.bind_eq, e1, Exec.pure_eq], ?_, ?_⟩
    · simp only [reduceCtorEq, iff_false]
      obtain ⟨-, ⟨sc, hs, hb⟩, -⟩ := hsome i b rfl
      obtain ⟨-, ⟨l2, l3, e3, -⟩, -⟩ := (⟨trivial, (hsome i b rfl).1, trivial⟩ :
        True ∧ (∃ l1 l2, l = l1 ++ i :: l2 ∧ ∀ j ∈ l1, ¬ ScopeHolds st.scopeList j name) ∧ True)
      have hi : i ∈ l := by rw [e3]; simp
      have := (hwf i hi sc hs _ b hb).2
      omega
    · intro j b2 e2
      simp only [Option.some.injEq, Prod.mk.injEq] at e2
      rw [e2.2]

theorem exampleTable_chain :
    Chain exampleTable.scopeList (get_top_scope exampleTable) [1, 0] :=
  have h1 : exampleTable.scopeList[1]?
      = some { name := some "f", hashTable := fun _ => [], parent := some 0 } := rfl
  Chain.scope h1 (Chain.scope rfl Chain.null)

theorem exampleTable_wellFormed :
    ∀ i ∈ [1, 0], ∀ sc, exampleTable.scopeList[i]? = some sc → sc.WellFormed := by
  intro i hi sc hs
  simp only [List.mem_cons, List.mem_singleton, List.not_mem_nil, or_false] at hi
  rcases hi with rfl | rfl
  · simp only [exampleTable, List.getElem?_cons_succ, List.getElem?_cons_zero,
      Option.some.injEq] at hs
    subst hs
    intro h b hb
    simp at hb
  · simp only [exampleTable, List.getElem?_cons_zero, Option.some.injEq] at hs
    subst hs
    intro h b hb
    by_cases hh : h = hash "x"
    · subst hh
      simp only [Function.update_same, List.mem_singleton] at hb
      subst hb
      exact ⟨rfl, by decide⟩
    · simp [Function.update_noteq hh] at hb

theorem st_lookup_nearest_scope_witness :
    Chain exampleTable.scopeList (get_top_scope exampleTable) [1, 0] ∧
    (∀ i ∈ [1, 0], ∀ sc, exampleTable.scopeList[i]? = some sc → sc.WellFormed) ∧
    ∃ r, st_lookup_return_bucket "x" exampleTable = .ok r exampleTable ∧
      (r = none ↔ ∀ i ∈ [1, 0], ¬ ScopeHolds exampleTable.scopeList i "x") ∧
      (∀ i b, r = some (i, b) →
        (∃ l1 l2, [1, 0] = l1 ++ i :: l2 ∧
          ∀ j ∈ l1, ¬ ScopeHolds exampleTable.scopeList j "x") ∧
        (∃ sc, exampleTable.scopeList[i]? = some sc ∧ b ∈ sc.hashTable (hash "x")) ∧
        b.name = "x") ∧
      (∃ m, st_lookup "x" exampleTable = .ok m exampleTable ∧ (m = -1 ↔ r = none) ∧
        ∀ i b, r = some (i, b) → m = b.memloc) :=
  ⟨exampleTable_chain, exampleTable_wellFormed,
    st_lookup_nearest_scope exampleTable "x" [1, 0] exampleTable_chain
      exampleTable_wellFormed⟩

/-- The lookup loop gives the same answer with more fuel and in a registry
whose scopes of old are unchanged. -/
theorem lookupLoop_mono {sl sl2 : List ScopeListRec} (h : Nat) (name : String)
    (hsl : ∀ j, j < sl.length → sl2[j]? = sl[j]?) :
    ∀ (fuel fuel2 : Nat) (p : Option Nat) (r : Option (Nat × BucketListRec)),
      fuel ≤ fuel2 → lookupLoop sl h name fuel p = some r →
      lookupLoop sl2 h name fuel2 p = some r := by
  intro fuel
  induction fuel with
  | zero =>
    intro fuel2 p r _ e
    cases p with
    | none => cases fuel2 <;> simpa [lookupLoop] using e
    | some j => simp [lookupLoop] at e
  | succ fuel ih =>
    intro fuel2 p r hf e
    cases p with
    | none => cases fuel2 <;> simpa [lookupLoop] using e
    | some j =>
      cases fuel2 with
      | zero => omega
      | succ fuel2 =>
        simp only [lookupLoop] at e ⊢
        cases hs : sl[j]? with
        | none => simp [hs] at e
        | some sc =>
          have hj : j < sl.length := (List.getElem?_eq_some_iff.1 hs).1
          rw [hsl j hj, hs]
          rw [hs] at e
          simp only at e ⊢
          cases hfb : findBucket name (sc.hashTable h) with
          | some b => rw [hfb] at e; exact e
          | none =>
            rw [hfb] at e
            exact ih fuel2 _ _ (by omega) e

theorem lookupLoop_some_lt {sl : List ScopeListRec} {h : Nat} {name : String} :
    ∀ (fuel : Nat) (p : Option Nat) (i : Nat) (b : BucketListRec),
      lookupLoop sl h name fuel p = some (some (i, b)) → i < sl.length := by
  intro fuel
  induction fuel with
  | zero =>
    intro p i b e
    cases p <;> simp [lookupLoop] at e
  | succ fuel ih =>
    intro p i b e
    cases p with
    | none => simp [lookupLoop] at e
    | some j =>
      simp only [lookupLoop] at e
      cases hs : sl[j]? with
      | none => simp [hs] at e
      | some sc =>
        rw [hs] at e
        simp only at e
        cases hfb : findBucket name (sc.hashTable h) with
        | some b2 =>
          rw [hfb] at e
          simp only [Option.some.injEq, Prod.mk.injEq] at e
          rw [← e.1]
          exact (List.getElem?_eq_some_iff.1 hs).1
        | none =>
          rw [hfb] at e
          exact ih _ _ _ e

theorem st_lookup_return_bucket_ok {name : String} {st st1 : Analyzer}
    {r : Option (Nat × BucketListRec)} (h : st_lookup_return_bucket name st = .ok r st1) :
    lookupLoop st.scopeList (hash name) name (st.scopeList.length + 1) (get_top_scope st)
      = some r := by
  unfold st_lookup_return_bucket at h
  split at h
  · cases h
  · rename_i r2 e
    cases h
    exact e

/-- C8: with a symbol named x visible (found in scope i as bucket b), after
create_scope, push_scope and st_insert of x, a lookup of x returns the new
symbol, held by the new scope; every scope that existed before, the one
holding b included, is unchanged; and after pop_scope a lookup of x returns
b in scope i again. -/
theorem shadowing_inner_then_outer (st : Analyzer) (x : String) (scopeName : Option String)
    (lineno : Nat) (loc : Int) (treeNode : TreeNode) (i : Nat) (b : BucketListRec)
    (hout : st_lookup_return_bucket x st = .ok (some (i, b)) st) :
    ∃ st1,
      (do let scope ← create_scope scopeName
          push_scope scope
          st_insert x lineno loc treeNode : Exec Unit) st = .ok () st1 ∧
      st_lookup_return_bucket x st1
        = .ok (some (st.scopeList.length,
            { name := x, lines := [lineno], memloc := loc, treeNode := treeNode })) st1 ∧
      i < st.scopeList.length ∧
      (∀ j, j < st.scopeList.length → st1.scopeList[j]? = st.scopeList[j]?) ∧
      ∃ st2, pop_scope st1 = .ok () st2 ∧
        st_lookup_return_bucket x st2 = .ok (some (i, b)) st2 := by
  have hl := st_lookup_return_bucket_ok hout
  have hi := lookupLoop_some_lt _ _ _ _ hl
  let newScope : ScopeListRec :=
    { name := scopeName,
      hashTable := Function.update (fun _ => []) (hash x)
        [{ name := x, lines := [lineno], memloc := loc, treeNode := treeNode }],
      parent := get_top_scope st }
  have hold : ∀ j, j < st.scopeList.length →
      (st.scopeList ++ [newScope])[j]? = st.scopeList[j]? := fun j hj =>
    List.getElem?_append_left hj
  refine ⟨{ st with scopeList := st.scopeList ++ [newScope],
                    location := 0 :: st.location,
                    scopeStack := some st.scopeList.length :: st.scopeStack }, ?_, ?_, hi,
    hold, ⟨{ st with scopeList := st.scopeList ++ [newScope] }, ?_, ?_⟩⟩
  · simp only [Exec.bind_eq, create_scope, push_scope, st_insert, Exec.get, derefScope,
      get_top_scope, List.getElem?_concat_length, findBucket, setScope, Exec.modify,
      List.set_append_right _ _ (Nat.le_refl _), Nat.sub_self, List.set_cons_zero]
    simp [newScope]
    rfl
  · simp only [st_lookup_return_bucket, get_top_scope, List.length_append, List.length_singleton,
      lookupLoop, List.getElem?_concat_length, newScope, Function.update_same, findBucket,
      if_true]
  · simp [pop_scope]
  · have := lookupLoop_mono (hash x) x hold (st.scopeList.length + 1)
      (st.scopeList.length + 1 + 1) _ _ (Nat.le_succ _) hl
    simp only [st_lookup_return_bucket, get_top_scope, List.length_append,
      List.length_singleton] at this ⊢
    rw [this]

theorem shadowing_inner_then_outer_witness :
    st_lookup_return_bucket "x" exampleTable
      = .ok (some (0, { name := "x", lines := [1], memloc := 0, treeNode := .null }))
          exampleTable ∧
    ∃ st1,
      (do let scope ← create_scope (some "f")
          push_scope scope
          st_insert "x" 7 0 .null : Exec Unit) exampleTable = .ok () st1 ∧
      st_lookup_return_bucket "x" st1
        = .ok (some (exampleTable.scopeList.length,
            { name := "x", lines := [7], memloc := 0, treeNode := .null })) st1 ∧
      0 < exampleTable.scopeList.length ∧
      (∀ j, j < exampleTable.scopeList.length →
        st1.scopeList[j]? = exampleTable.scopeList[j]?) ∧
      ∃ st2, pop_scope st1 = .ok () st2 ∧
        st_lookup_return_bucket "x" st2
          = .ok (some (0, { name := "x", lines := [1], memloc := 0, treeNode := .null }))
              st2 :=
  have h : st_lookup_return_bucket "x" exampleTable
      = .ok (some (0, { name := "x", lines := [1], memloc := 0, treeNode := .null }))
          exampleTable := by
    simp [st_lookup_return_bucket, exampleTable, get_top_scope, lookupLoop, findBucket,
      Analyzer.init]
  ⟨h, shadowing_inner_then_outer exampleTable "x" (some "f") 7 0 .null 0 _ h⟩

/-! ## Binder: single nodes -/

theorem traverse_arraySize {a : TreeNode} (ha : a.IsArraySize) (st : Analyzer) :
    traverse insertNode postProcInsertNode a st = .ok () st := by
  cases a with
  | null => rfl
  | node info c0 c1 c2 sib =>
    obtain ⟨hk, rfl, rfl, rfl, rfl⟩ := ha
    simp [traverse, Exec.bind_eq, insertNode, postProcInsertNode, nodeInfo, hk, Exec.pure_eq,
      Exec.cond]

theorem insertNode_varDecl_new (info : NodeInfo) (c0 c1 c2 sib : TreeNode) (st : Analyzer)
    (hk : info.nodekind = .VarDeclK) {i : Nat} {sc : ScopeListRec} {loc : Int}
    {locs : List Int} (htop : get_top_scope st = some i) (hsc : st.scopeList[i]? = some sc)
    (hnew : findBucket info.name (sc.hashTable (hash info.name)) = none)
    (hloc : st.location = loc :: locs) :
    insertNode (.node info c0 c1 c2 sib) st = .ok ()
      { varDeclPrefix info c0 st with
        location := (loc + 1) :: locs
        scopeList := st.scopeList.set i { sc with
          hashTable := Function.update sc.hashTable (hash info.name)
            ({ name := info.name, lines := [info.lineno], memloc := loc,
               treeNode := .node info c0 c1 c2 sib } :: sc.hashTable (hash info.name)) } } := by
  unfold get_top_scope at htop
  by_cases h1 : (st.nodeType info.id).getD info.type = .Void
      ∨ (st.nodeType info.id).getD info.type = .VoidArray <;>
  by_cases h2 : c0 = .null <;>
  simp [insertNode, nodeInfo, Exec.bind_eq, Exec.pure_eq, hk, typeOf, Exec.get, child0,
    Exec.cond, h1, h2, voidTypeError, report, Exec.modify, setType, st_lookup_current_scope,
    derefScope, get_top_scope, htop, hsc, hnew, addLocation, hloc, st_insert, setScope,
    varDeclPrefix]

theorem insertNode_varDecl_redefined (info : NodeInfo) (c0 c1 c2 sib : TreeNode)
    (st : Analyzer) (hk : info.nodekind = .VarDeclK) {i : Nat} {sc : ScopeListRec}
    {b : BucketListRec} (htop : get_top_scope st = some i)
    (hsc : st.scopeList[i]? = some sc)
    (hold : findBucket info.name (sc.hashTable (hash info.name)) = some b)
    (hmem : b.memloc ≠ -1) :
    insertNode (.node info c0 c1 c2 sib) st = .ok ()
      { varDeclPrefix info c0 st with
        listing := (varDeclPrefix info c0 st).listing
          ++ [.redefinedSymbol info.name info.lineno b.lines]
        Error := true
        scopeList := st.scopeList.set i { sc with
          hashTable := Function.update sc.hashTable (hash info.name)
            (updateBucket info.name (fun b => { b with lines := b.lines ++ [info.lineno] })
              (sc.hashTable (hash info.name))) } } := by
  unfold get_top_scope at htop
  by_cases h1 : (st.nodeType info.id).getD info.type = .Void
      ∨ (st.nodeType info.id).getD info.type = .VoidArray <;>
  by_cases h2 : c0 = .null <;>
  simp [insertNode, nodeInfo, Exec.bind_eq, Exec.pure_eq, hk, typeOf, Exec.get, child0,
    Exec.cond, h1, h2, voidTypeError, report, Exec.modify, setType, st_lookup_current_scope,
    derefScope, get_top_scope, htop, hsc, hold, hmem, st_insert_lineno, setScope,
    varDeclPrefix, st_lookup_return_bucket, lookupLoop, redefinedSymbolError, Exec.deref]

theorem varDeclPrefix_frame (info : NodeInfo) (c0 : TreeNode) (st : Analyzer) :
    (varDeclPrefix info c0 st).scopeList = st.scopeList ∧
    (varDeclPrefix info c0 st).scopeStack = st.scopeStack ∧
    (varDeclPrefix info c0 st).location = st.location ∧
    (varDeclPrefix info c0 st).below = st.below ∧
    (varDeclPrefix info c0 st).listing.filter Diag.isRedefinition
      = st.listing.filter Diag.isRedefinition ∧
    (∀ j, j ≠ info.id → (varDeclPrefix info c0 st).nodeType j = st.nodeType j) ∧
    (varDeclPrefix info c0 st).nodeType info.id
      = if c0 ≠ .null then some .IntArray else st.nodeType info.id := by
  unfold varDeclPrefix
  by_cases h1 : (st.nodeType info.id).getD info.type = .Void
      ∨ (st.nodeType info.id).getD info.type = .VoidArray <;>
  by_cases h2 : c0 = .null <;>
  simp [h1, h2, Diag.isRedefinition] <;>
  intro j hj <;> exact Function.update_noteq hj _ _

/-- C9: two declarations of a variable of the same name, one after the
other in a scope that does not hold the name yet: the binder prints one
redefinition message, which names the line of the second declaration and
lists the line of the first; the symbol keeps the memory location and the
declaring node of the first declaration, whose type the second declaration
does not touch; and its line list is the line of the first declaration
followed by the line of the second. -/
theorem redefinition_same_scope (st : Analyzer) (info1 info2 : NodeInfo)
    (size1 size2 : TreeNode) (i : Nat) (sc : ScopeListRec) (loc : Int) (locs : List Int)
    (hk1 : info1.nodekind = .VarDeclK) (hk2 : info2.nodekind = .VarDeclK)
    (hname : info2.name = info1.name) (hid : info1.id ≠ info2.id)
    (hs1 : size1.IsArraySize) (hs2 : size2.IsArraySize)
    (htop : get_top_scope st = some i) (hsc : st.scopeList[i]? = some sc)
    (hnew : findBucket info1.name (sc.hashTable (hash info1.name)) = none)
    (hloc : st.location = loc :: locs) (hloc0 : 0 ≤ loc) :
    ∃ st2,
      traverse insertNode postProcInsertNode
        (.node info1 size1 .null .null (.node info2 size2 .null .null .null)) st
        = .ok () st2 ∧
      st2.listing.filter Diag.isRedefinition
        = st.listing.filter Diag.isRedefinition
          ++ [.redefinedSymbol info1.name info2.lineno [info1.lineno]] ∧
      get_top_scope st2 = some i ∧
      (∃ sc2, st2.scopeList[i]? = some sc2 ∧
        findBucket info1.name (sc2.hashTable (hash info1.name))
          = some { name := info1.name, lines := [info1.lineno, info2.lineno], memloc := loc,
                   treeNode := .node info1 size1 .null .null
                     (.node info2 size2 .null .null .null) }) ∧
      st2.nodeType info1.id = if size1 ≠ .null then some .IntArray else st.nodeType info1.id := by
  obtain ⟨f1, f2, f3, f4, f5, f6, f7⟩ := varDeclPrefix_frame info1 size1 st
  have e1 := insertNode_varDecl_new info1 size1 .null .null
    (.node info2 size2 .null .null .null) st hk1 htop hsc hnew hloc
  have hi : i < st.scopeList.length := (List.getElem?_eq_some_iff.1 hsc).1
  generalize hst1 : ({ varDeclPrefix info1 size1 st with
        location := (loc + 1) :: locs
        scopeList := st.scopeList.set i { sc with
          hashTable := Function.update sc.hashTable (hash info1.name)
            ({ name := info1.name, lines := [info1.lineno], memloc := loc,
               treeNode := .node info1 size1 .null .null
                 (.node info2 size2 .null .null .null) }
              :: sc.hashTable (hash info1.name)) } } : Analyzer) = st1 at e1
  have htop1 : get_top_scope st1 = some i := by
    rw [← hst1]; unfold get_top_scope at htop ⊢; simpa only [f2, f4] using htop
  have hsc1 : st1.scopeList[i]? = some { sc with
      hashTable := Function.update sc.hashTable (hash info1.name)
        ({ name := info1.name, lines := [info1.lineno], memloc := loc,
           treeNode := .node info1 size1 .null .null
             (.node info2 size2 .null .null .null) }
          :: sc.hashTable (hash info1.name)) } := by
    rw [← hst1]; exact List.getElem?_set_self hi
  have hold1 : findBucket info2.name
      ((Function.update sc.hashTable (hash info1.name)
        ({ name := info1.name, lines := [info1.lineno], memloc := loc,
           treeNode := .node info1 size1 .null .null
             (.node info2 size2 .null .null .null) }
          :: sc.hashTable (hash info1.name))) (hash info2.name))
      = some { name := info1.name, lines := [info1.lineno], memloc := loc,
               treeNode := .node info1 size1 .null .null
                 (.node info2 size2 .null .null .null) } := by
    rw [hname, Function.update_same]
    simp [findBucket]
  have e2 := insertNode_varDecl_redefined info2 size2 .null .null .null st1 hk2 htop1 hsc1
    hold1 (by simp only; omega)
  obtain ⟨g1, g2, g3, g4, g5, g6, g7⟩ := varDeclPrefix_frame info2 size2 st1
  generalize hst2 : ({ varDeclPrefix info2 size2 st1 with
        listing := (varDeclPrefix info2 size2 st1).listing
          ++ [.redefinedSymbol info2.name info2.lineno [info1.lineno]]
        Error := true
        scopeList := st1.scopeList.set i
          { name := sc.name
            hashTable := Function.update
              (Function.update sc.hashTable (hash info1.name)
                ({ name := info1.name, lines := [info1.lineno], memloc := loc,
                   treeNode := .node info1 size1 .null .null
                     (.node info2 size2 .null .null .null) }
                  :: sc.hashTable (hash info1.name)))
              (hash info2.name)
              (updateBucket info2.name (fun b => { b with lines := b.lines ++ [info2.lineno] })
                ((Function.update sc.hashTable (hash info1.name)
                  ({ name := info1.name, lines := [info1.lineno], memloc := loc,
                     treeNode := .node info1 size1 .null .null
                       (.node info2 size2 .null .null .null) }
                    :: sc.hashTable (hash info1.name))) (hash info2.name)))
            parent := sc.parent } } : Analyzer) = st2 at e2
  refine ⟨st2, ?_, ?_, ?_, ?_, ?_⟩
  · simp only [traverse, Exec.bind_eq, e1, traverse_arraySize hs1, traverse_arraySize hs2,
      Exec.pure_eq, postProcInsertNode, nodeInfo, hk1, hk2, Exec.cond, reduceCtorEq, if_false,
      e2]
  · rw [← hst2]
    simp only [List.filter_append, g5]
    rw [← hst1]
    simp [f5, Diag.isRedefinition, hname]
  · rw [← hst2]
    unfold get_top_scope at htop1 ⊢
    simpa only [g2, g4] using htop1
  · rw [← hst2]
    refine ⟨_, List.getElem?_set_self (by rw [← hst1]; simpa using hi), ?_⟩
    rw [hname]
    simp only [Function.update_same, updateBucket, if_true, findBucket]
    rfl
  · rw [← hst2]
    show (varDeclPrefix info2 size2 st1).nodeType info1.id = _
    rw [g6 _ hid, ← hst1]
    exact f7


theorem redefinition_same_scope_witness :
    (exampleDecl 1 3).nodekind = .VarDeclK ∧ (exampleDecl 2 4).nodekind = .VarDeclK ∧
    (exampleDecl 2 4).name = (exampleDecl 1 3).name ∧ (exampleDecl 1 3).id ≠ (exampleDecl 2 4).id ∧
    TreeNode.null.IsArraySize ∧ get_top_scope exampleTable = some 1 ∧
    exampleTable.location = 0 :: [1] ∧
    ∃ st2,
      traverse insertNode postProcInsertNode
        (.node (exampleDecl 1 3) .null .null .null
          (.node (exampleDecl 2 4) .null .null .null .null)) exampleTable
        = .ok () st2 ∧
      st2.listing.filter Diag.isRedefinition
        = exampleTable.listing.filter Diag.isRedefinition
          ++ [.redefinedSymbol (exampleDecl 1 3).name (exampleDecl 2 4).lineno
               [(exampleDecl 1 3).lineno]] ∧
      get_top_scope st2 = some 1 ∧
      (∃ sc2, st2.scopeList[1]? = some sc2 ∧
        findBucket (exampleDecl 1 3).name (sc2.hashTable (hash (exampleDecl 1 3).name))
          = some { name := (exampleDecl 1 3).name,
                   lines := [(exampleDecl 1 3).lineno, (exampleDecl 2 4).lineno], memloc := 0,
                   treeNode := .node (exampleDecl 1 3) .null .null .null
                     (.node (exampleDecl 2 4) .null .null .null .null) }) ∧
      st2.nodeType (exampleDecl 1 3).id
        = if TreeNode.null ≠ .null then some .IntArray
          else exampleTable.nodeType (exampleDecl 1 3).id :=
  ⟨rfl, rfl, rfl, by decide, trivial, rfl, rfl,
    redefinition_same_scope exampleTable (exampleDecl 1 3) (exampleDecl 2 4) .null .null 1
      { name := some "f", hashTable := fun _ => [], parent := some 0 } 0 [1]
      rfl rfl rfl (by decide) trivial trivial rfl rfl rfl rfl (by decide)⟩

/-! ## Extension of the registry -/

theorem Ext.refl (sl : List ScopeListRec) : Ext sl sl :=
  fun _ sc hs => ⟨sc, hs, rfl, fun _ _ b hb => ⟨b, hb, rfl⟩⟩

theorem Ext.trans {sl1 sl2 sl3 : List ScopeListRec} (h12 : Ext sl1 sl2) (h23 : Ext sl2 sl3) :
    Ext sl1 sl3 := by
  intro j sc hs
  obtain ⟨sc2, hs2, hp2, hb2⟩ := h12 j sc hs
  obtain ⟨sc3, hs3, hp3, hb3⟩ := h23 j sc2 hs2
  refine ⟨sc3, hs3, hp3.trans hp2, ?_⟩
  intro h x b hb
  obtain ⟨b2, e2, m2⟩ := hb2 h x b hb
  obtain ⟨b3, e3, m3⟩ := hb3 h x b2 e2
  exact ⟨b3, e3, m3.trans m2⟩

theorem Ext.ext_length_le {sl sl2 : List ScopeListRec} (h : Ext sl sl2) :
    sl.length ≤ sl2.length := by
  by_contra hlt
  have hlt : sl2.length < sl.length := Nat.lt_of_not_le hlt
  obtain ⟨sc2, hs2, -, -⟩ := h sl2.length (sl[sl2.length]) (List.getElem?_eq_getElem hlt)
  have := (List.getElem?_eq_some_iff.1 hs2).1
  omega

theorem Ext.ext_append (sl : List ScopeListRec) (new : ScopeListRec) : Ext sl (sl ++ [new]) := by
  intro j sc hs
  have hj := (List.getElem?_eq_some_iff.1 hs).1
  exact ⟨sc, by rw [List.getElem?_append_left hj]; exact hs, rfl,
    fun _ _ b hb => ⟨b, hb, rfl⟩⟩

theorem Ext.set {sl : List ScopeListRec} {i : Nat} {sc sc2 : ScopeListRec}
    (hs : sl[i]? = some sc) (hp : sc2.parent = sc.parent)
    (hb : ∀ (h : Nat) (x : String) (b : BucketListRec),
      findBucket x (sc.hashTable h) = some b →
      ∃ b2, findBucket x (sc2.hashTable h) = some b2 ∧ b2.memloc = b.memloc) :
    Ext sl (sl.set i sc2) := by
  intro j scj hj
  by_cases hij : i = j
  · subst hij
    rw [hs] at hj
    cases hj
    exact ⟨sc2, List.getElem?_set_self (List.getElem?_eq_some_iff.1 hs).1, hp, hb⟩
  · exact ⟨scj, by rw [List.getElem?_set_ne hij]; exact hj, rfl,
      fun _ _ b hb => ⟨b, hb, rfl⟩⟩

theorem Chain.ext {sl sl2 : List ScopeListRec} {p : Option Nat} {l : List Nat}
    (hc : Chain sl p l) (he : Ext sl sl2) : Chain sl2 p l := by
  induction hc with
  | null => exact Chain.null
  | scope hs _ ih =>
    obtain ⟨sc2, hs2, hp2, -⟩ := he _ _ hs
    exact Chain.scope hs2 (hp2 ▸ ih)

/-- Along a parent chain that ends in NULL the lookup loop returns. -/
theorem lookupLoop_total (sl : List ScopeListRec) (h : Nat) (name : String) {p : Option Nat}
    {l : List Nat} (hc : Chain sl p l) :
    ∀ fuel, l.length ≤ fuel → ∃ r, lookupLoop sl h name fuel p = some r := by
  induction hc with
  | null => intro fuel _; exact ⟨none, by cases fuel <;> rfl⟩
  | @scope i sc l hs _ ih =>
    intro fuel hf
    cases fuel with
    | zero => simp at hf
    | succ fuel =>
      cases hfb : findBucket name (sc.hashTable h) with
      | some b => exact ⟨some (i, b), by simp [lookupLoop, hs, hfb]⟩
      | none =>
        obtain ⟨r, e⟩ := ih fuel (by simpa using hf)
        exact ⟨r, by simp [lookupLoop, hs, hfb, e]⟩

/-- The bucket a lookup returns is the one found in the scope returned. -/
theorem lookupLoop_some_bucket {sl : List ScopeListRec} {h : Nat} {name : String} :
    ∀ (fuel : Nat) (p : Option Nat) (r : Nat × BucketListRec),
      lookupLoop sl h name fuel p = some (some r) →
      ∃ sc, sl[r.1]? = some sc ∧ findBucket name (sc.hashTable h) = some r.2 := by
  intro fuel
  induction fuel with
  | zero =>
    intro p r e
    cases p <;> simp [lookupLoop] at e
  | succ fuel ih =>
    intro p r e
    cases p with
    | none => simp [lookupLoop] at e
    | some j =>
      simp only [lookupLoop] at e
      cases hs : sl[j]? with
      | none => simp [hs] at e
      | some sc =>
        rw [hs] at e
        simp only at e
        cases hfb : findBucket name (sc.hashTable h) with
        | some b =>
          rw [hfb] at e
          simp only [Option.some.injEq] at e
          subst e
          exact ⟨sc, hs, hfb⟩
        | none =>
          rw [hfb] at e
          exact ih _ _ e

/-- A name that a lookup finds is still found in an extension of the
registry. -/
theorem lookupLoop_ext {sl sl2 : List ScopeListRec} (he : Ext sl sl2) (h : Nat)
    (name : String) :
    ∀ (fuel fuel2 : Nat) (p : Option Nat) (r : Nat × BucketListRec), fuel ≤ fuel2 →
      lookupLoop sl h name fuel p = some (some r) →
      ∃ r2, lookupLoop sl2 h name fuel2 p = some (some r2) := by
  intro fuel
  induction fuel with
  | zero =>
    intro fuel2 p r _ e
    cases p <;> simp [lookupLoop] at e
  | succ fuel ih =>
    intro fuel2 p r hf e
    cases p with
    | none => simp [lookupLoop] at e
    | some j =>
      cases fuel2 with
      | zero => omega
      | succ fuel2 =>
        simp only [lookupLoop] at e ⊢
        cases hs : sl[j]? with
        | none => simp [hs] at e
        | some sc =>
          obtain ⟨sc2, hs2, hp2, hb2⟩ := he j sc hs
          rw [hs] at e
          rw [hs2]
          simp only at e ⊢
          cases hfb2 : findBucket name (sc2.hashTable h) with
          | some b2 => exact ⟨(j, b2), rfl⟩
          | none =>
            cases hfb : findBucket name (sc.hashTable h) with
            | some b =>
              obtain ⟨b2, e2, -⟩ := hb2 h name b hfb
              rw [hfb2] at e2
              cases e2
            | none =>
              rw [hfb] at e
              simp only
              rw [hp2]
              exact ih fuel2 _ _ (by omega) e

theorem Found.ext_found {sl sl2 : List ScopeListRec} {top : Option Nat} {name : String}
    (hf : Found sl top name) (he : Ext sl sl2) (hm : MemOk sl2) : Found sl2 top name := by
  obtain ⟨r, e, -⟩ := hf
  obtain ⟨r2, e2⟩ := lookupLoop_ext he (hash name) name _ (sl2.length + 1) top r
    (Nat.succ_le_succ he.ext_length_le) e
  obtain ⟨sc, hs, hb⟩ := lookupLoop_some_bucket _ _ _ e2
  exact ⟨r2, e2, hm _ _ hs _ _ _ hb⟩

theorem Resolved.ext_resolved {sl sl2 : List ScopeListRec} {ns ns2 : Nat → Option (Option Nat)}
    (he : Ext sl sl2) (hm : MemOk sl2) :
    ∀ (t : TreeNode) (top : Option Nat), Resolved sl ns top t →
      (∀ i ∈ t.ids, ns2 i = ns i) → Resolved sl2 ns2 top t := by
  intro t
  induction t with
  | null => intro _ _ _; trivial
  | node info c0 c1 c2 sib ih0 ih1 ih2 ih3 =>
    intro top hr hns
    have h0 : ∀ i ∈ c0.ids, ns2 i = ns i := fun i hi => hns i (by simp [TreeNode.ids, hi])
    have h1 : ∀ i ∈ c1.ids, ns2 i = ns i := fun i hi => hns i (by simp [TreeNode.ids, hi])
    have h2 : ∀ i ∈ c2.ids, ns2 i = ns i := fun i hi => hns i (by simp [TreeNode.ids, hi])
    have h3 : ∀ i ∈ sib.ids, ns2 i = ns i := fun i hi => hns i (by simp [TreeNode.ids, hi])
    have hid : ns2 info.id = ns info.id := hns _ (by simp [TreeNode.ids])
    unfold Resolved at hr ⊢
    obtain ⟨hv, hc, hs⟩ := hr
    refine ⟨fun hk => (hv hk).ext_found he hm, ?_, ih3 top hs h3⟩
    by_cases hk : info.nodekind = .CompStmtK
    · rw [if_pos hk] at hc ⊢
      intro v hv2
      rw [hid] at hv2
      obtain ⟨r0, r1, r2⟩ := hc v hv2
      exact ⟨ih0 v r0 h0, ih1 v r1 h1, ih2 v r2 h2⟩
    · rw [if_neg hk] at hc ⊢
      exact ⟨ih0 top hc.1 h0, ih1 top hc.2.1 h1, ih2 top hc.2.2 h2⟩

theorem Resolved.of_quiet (sl : List ScopeListRec) (ns : Nat → Option (Option Nat)) :
    ∀ (t : TreeNode) (top : Option Nat), t.Quiet → Resolved sl ns top t := by
  intro t
  induction t with
  | null => intro _ _; trivial
  | node info c0 c1 c2 sib ih0 ih1 ih2 ih3 =>
    intro top hq
    unfold TreeNode.Quiet at hq
    obtain ⟨-, hk2, hk3, q0, q1, q2, q3⟩ := hq
    unfold Resolved
    refine ⟨fun hk => absurd hk hk3, ?_, ih3 top q3⟩
    rw [if_neg hk2]
    exact ⟨ih0 top q0, ih1 top q1, ih2 top q2⟩

/-! ## Runs that return, and what every run keeps -/

theorem Exec.Total.bind {α β : Type} {m : Exec α} {f : α → Exec β} {st : Analyzer}
    {P : α → Analyzer → Prop} {Q : β → Analyzer → Prop} (h1 : Exec.Total m st P)
    (h2 : ∀ a st1, P a st1 → Exec.Total (f a) st1 Q) : Exec.Total (m >>= f) st Q := by
  obtain ⟨a, st1, e1, q1⟩ := h1
  obtain ⟨b, st2, e2, q2⟩ := h2 a st1 q1
  exact ⟨b, st2, by rw [Exec.bind_eq, e1]; exact e2, q2⟩

theorem Exec.Total.pure {α : Type} {a : α} {st : Analyzer} {Q : α → Analyzer → Prop}
    (h : Q a st) : Exec.Total (Pure.pure a) st Q := ⟨a, st, rfl, h⟩

theorem Exec.Total.mono {α : Type} {m : Exec α} {st : Analyzer}
    {Q1 Q : α → Analyzer → Prop} (h1 : Exec.Total m st Q1)
    (h2 : ∀ a st1, Q1 a st1 → Q a st1) : Exec.Total m st Q := by
  obtain ⟨a, st1, e1, q1⟩ := h1
  exact ⟨a, st1, e1, h2 a st1 q1⟩

theorem Exec.Total.cond {c : Prop} [Decidable c] {m : Exec Unit} {st : Analyzer}
    {Q : Unit → Analyzer → Prop} (h1 : c → Exec.Total m st Q) (h2 : ¬ c → Q () st) :
    Exec.Total (Exec.cond c m) st Q := by
  unfold Exec.cond
  by_cases hc : c
  · rw [if_pos hc]; exact h1 hc
  · rw [if_neg hc]; exact ⟨(), st, rfl, h2 hc⟩

theorem Exec.Partial.monoP {α : Type} {m : Exec α} {st : Analyzer} {R : Analyzer → Prop}
    {Q1 Q : α → Analyzer → Prop} (h1 : Exec.Partial m st R Q1)
    (h2 : ∀ a st1, Q1 a st1 → Q a st1) : Exec.Partial m st R Q := by
  unfold Exec.Partial at h1 ⊢
  cases e : m st with
  | ok a st1 => rw [e] at h1; exact ⟨h1.1, h2 a st1 h1.2⟩
  | crash st1 => rw [e] at h1; exact h1

theorem Exec.Partial.condP {c : Prop} [Decidable c] {m : Exec Unit} {st : Analyzer}
    {R : Analyzer → Prop} {Q : Unit → Analyzer → Prop} (h1 : c → Exec.Partial m st R Q)
    (h2 : ¬ c → R st ∧ Q () st) : Exec.Partial (Exec.cond c m) st R Q := by
  unfold Exec.cond
  by_cases hc : c
  · rw [if_pos hc]; exact h1 hc
  · rw [if_neg hc]; exact h2 hc

/-! ## The checker prints no undeclared-variable message for a resolved tree -/

theorem CheckerFrame.frame_refl (st : Analyzer) : CheckerFrame st st := ⟨rfl, rfl, rfl, rfl⟩

theorem CheckerFrame.frame_trans {st1 st2 st3 : Analyzer} (h12 : CheckerFrame st1 st2)
    (h23 : CheckerFrame st2 st3) : CheckerFrame st1 st3 :=
  ⟨h23.scopeList.trans h12.scopeList, h23.nodeScope.trans h12.nodeScope,
    h23.below.trans h12.below, h23.listing.trans h12.listing⟩

theorem CheckerStep.check_refl (st : Analyzer) : CheckerStep st st := ⟨CheckerFrame.frame_refl st, rfl⟩

theorem CheckerStep.check_trans {st1 st2 st3 : Analyzer} (h12 : CheckerStep st1 st2)
    (h23 : CheckerStep st2 st3) : CheckerStep st1 st3 :=
  ⟨h12.1.frame_trans h23.1, h23.2.trans h12.2⟩

theorem Exec.Frame.pureF {α : Type} (a : α) : Exec.Frame (Pure.pure a : Exec α) :=
  fun st => CheckerStep.check_refl st

theorem Exec.Frame.bindF {α β : Type} {m : Exec α} {f : α → Exec β} (h1 : Exec.Frame m)
    (h2 : ∀ a, Exec.Frame (f a)) : Exec.Frame (m >>= f) := by
  intro st
  have h := h1 st
  rw [Exec.bind_eq]
  cases e : m st with
  | ok a st1 =>
    rw [e] at h
    exact h.check_trans (h2 a st1)
  | crash st1 =>
    rw [e] at h
    exact h

theorem Exec.Frame.nodeInfo (t : TreeNode) : Exec.Frame (nodeInfo t) := by
  intro st; cases t <;> exact CheckerStep.check_refl st

theorem Exec.Frame.child0 (t : TreeNode) : Exec.Frame (child0 t) := by
  intro st; cases t <;> exact CheckerStep.check_refl st

theorem Exec.Frame.child1 (t : TreeNode) : Exec.Frame (child1 t) := by
  intro st; cases t <;> exact CheckerStep.check_refl st

theorem Exec.Frame.get : Exec.Frame Exec.get := fun st => CheckerStep.check_refl st

theorem Exec.Frame.deref {α : Type} (p : Option α) : Exec.Frame (Exec.deref p) := by
  intro st; cases p <;> exact CheckerStep.check_refl st

theorem Exec.Frame.typeOf (t : TreeNode) : Exec.Frame (typeOf t) :=
  Exec.Frame.bindF (Exec.Frame.nodeInfo t) fun _ =>
    Exec.Frame.bindF Exec.Frame.get fun _ => Exec.Frame.pureF _

theorem Exec.Frame.st_lookup_return_bucket (name : String) :
    Exec.Frame (st_lookup_return_bucket name) := by
  intro st
  unfold CMinus.st_lookup_return_bucket
  split <;> exact CheckerStep.check_refl st

theorem Exec.Frame.setType (t : TreeNode) (ty : NodeType) : Exec.Frame (setType t ty) :=
  Exec.Frame.bindF (Exec.Frame.nodeInfo t) fun _ _ => ⟨⟨rfl, rfl, rfl, rfl⟩, rfl⟩

theorem Exec.Frame.report {d : Diag} (hd : d.isUndeclaredVariable = false) :
    Exec.Frame (report d) := by
  intro st
  refine ⟨⟨rfl, rfl, rfl, ?_⟩, rfl⟩
  show (st.listing ++ [d]).filter Diag.isUndeclaredVariable = _
  rw [List.filter_append, List.filter_cons_of_neg (by simp [hd])]
  simp

theorem Exec.Frame.voidTypeError (t : TreeNode) : Exec.Frame (voidTypeError t) :=
  Exec.Frame.bindF (Exec.Frame.nodeInfo t) fun _ => Exec.Frame.report rfl

theorem Exec.Frame.invalidArrayIndexingIntError (t : TreeNode) :
    Exec.Frame (invalidArrayIndexingIntError t) :=
  Exec.Frame.bindF (Exec.Frame.nodeInfo t) fun _ => Exec.Frame.report rfl

theorem Exec.Frame.invalidArrayIndexingNotArrayError (t : TreeNode) :
    Exec.Frame (invalidArrayIndexingNotArrayError t) :=
  Exec.Frame.bindF (Exec.Frame.nodeInfo t) fun _ => Exec.Frame.report rfl

theorem Exec.Frame.invalidFunctionCallError (t : TreeNode) :
    Exec.Frame (invalidFunctionCallError t) :=
  Exec.Frame.bindF (Exec.Frame.nodeInfo t) fun _ => Exec.Frame.report rfl

theorem Exec.Frame.invalidReturnError (t : TreeNode) : Exec.Frame (invalidReturnError t) :=
  Exec.Frame.bindF (Exec.Frame.nodeInfo t) fun _ => Exec.Frame.report rfl

theorem Exec.Frame.invalidAssignmentError (t : TreeNode) :
    Exec.Frame (invalidAssignmentError t) :=
  Exec.Frame.bindF (Exec.Frame.nodeInfo t) fun _ => Exec.Frame.report rfl

theorem Exec.Frame.invalidOperationError (t : TreeNode) :
    Exec.Frame (invalidOperationError t) :=
  Exec.Frame.bindF (Exec.Frame.nodeInfo t) fun _ => Exec.Frame.report rfl

theorem Exec.Frame.invalidConditionError (t : TreeNode) :
    Exec.Frame (invalidConditionError t) :=
  Exec.Frame.bindF (Exec.Frame.nodeInfo t) fun _ => Exec.Frame.report rfl

theorem Exec.pure_bind {α β : Type} (a : α) (f : α → Exec β) :
    (Pure.pure a >>= f) = f a := rfl

theorem findBucket_updateBucket (x n : String) (f : BucketListRec → BucketListRec)
    (hf : ∀ b, (f b).name = b.name) (l : List BucketListRec) :
    findBucket x (updateBucket n f l)
      = (findBucket x l).map (fun b => if x = n then f b else b) := by
  induction l with
  | nil => rfl
  | cons b l ih =>
    unfold updateBucket
    by_cases hbn : b.name = n
    · rw [if_pos hbn]
      unfold findBucket
      rw [hf b]
      by_cases hbx : b.name = x
      · have hxn : x = n := hbx ▸ hbn
        simp [hbx, hxn]
      · have hxn : x ≠ n := fun e => hbx (e ▸ hbn)
        simp [hbx, hxn]
    · rw [if_neg hbn]
      unfold findBucket
      by_cases hbx : b.name = x
      · have hxn : x ≠ n := fun e => hbn (e ▸ hbx)
        simp [hbx, hxn]
      · rw [if_neg hbx, if_neg hbx, ih]

theorem MemOk.mem_set {sl : List ScopeListRec} {i : Nat} {sc2 : ScopeListRec} (hm : MemOk sl)
    (hb : ∀ (h : Nat) (x : String) (b : BucketListRec),
      findBucket x (sc2.hashTable h) = some b → b.memloc ≠ -1) :
    MemOk (sl.set i sc2) := by
  intro j sc hs
  by_cases hij : i = j
  · subst hij
    have hlt : i < sl.length := by
      have := (List.getElem?_eq_some_iff.1 hs).1
      simpa using this
    rw [List.getElem?_set_self hlt] at hs
    cases hs
    exact hb
  · rw [List.getElem?_set_ne hij] at hs
    exact hm j sc hs

theorem MemOk.mem_append {sl : List ScopeListRec} (hm : MemOk sl) (name : Option String)
    (parent : Option Nat) :
    MemOk (sl ++ [{ name := name, hashTable := fun _ => [], parent := parent }]) := by
  intro j sc hs h x b hb
  by_cases hj : j < sl.length
  · rw [List.getElem?_append_left hj] at hs
    exact hm j sc hs h x b hb
  · rw [List.getElem?_append_right (Nat.le_of_not_lt hj)] at hs
    have hsc : sc = { name := name, hashTable := fun _ => [], parent := parent } := by
      cases hd : j - sl.length with
      | zero => rw [hd] at hs; simpa using hs.symm
      | succ k => rw [hd] at hs; simp at hs
    subst hsc
    simp [findBucket] at hb

theorem Analyzer.fixed_below {st s : Analyzer} (h : s.fixed = st.fixed) :
    s.below = st.below := congrArg Prod.fst h

theorem Analyzer.fixed_globalScope {st s : Analyzer} (h : s.fixed = st.fixed) :
    s.globalScope = st.globalScope := congrArg Prod.snd h

theorem BinderStep.step_refl (st : Analyzer) : BinderStep st st :=
  ⟨Ext.refl _, rfl, rfl, rfl, rfl⟩

theorem BinderStep.step_trans {st1 st2 st3 : Analyzer} (h12 : BinderStep st1 st2)
    (h23 : BinderStep st2 st3) : BinderStep st1 st3 :=
  ⟨h12.ext.trans h23.ext, h23.stack.trans h12.stack, h23.fixed.trans h12.fixed,
    h23.flag.trans h12.flag, h23.nodeScope.trans h12.nodeScope⟩

theorem BinderStep.top_eq {st st2 : Analyzer} (h : BinderStep st st2) :
    get_top_scope st2 = get_top_scope st := by
  unfold get_top_scope
  rw [h.stack, Analyzer.fixed_below h.fixed]

/-- The invariant depends on the registry, the stack and the counters
only. -/
theorem BinderInv.of_eq {st st2 : Analyzer} (hinv : BinderInv st)
    (h1 : st2.scopeList = st.scopeList) (h2 : st2.scopeStack = st.scopeStack)
    (h3 : st2.location = st.location) : BinderInv st2 :=
  ⟨h2 ▸ hinv.nonempty, by rw [h1, h2]; exact hinv.chains, by rw [h2, h3]; exact hinv.loclen,
    by rw [h3]; exact hinv.locnn, by rw [h1]; exact hinv.mem⟩

/-- The invariant survives an extension of the registry. -/
theorem BinderInv.of_ext {st st2 : Analyzer} (hinv : BinderInv st)
    (h1 : Ext st.scopeList st2.scopeList) (hm : MemOk st2.scopeList)
    (h2 : st2.scopeStack = st.scopeStack) (h3 : st2.location = st.location) :
    BinderInv st2 := by
  refine ⟨h2 ▸ hinv.nonempty, ?_, by rw [h2, h3]; exact hinv.loclen,
    by rw [h3]; exact hinv.locnn, hm⟩
  intro p hp
  rw [h2] at hp
  obtain ⟨j, l, e, hc⟩ := hinv.chains p hp
  exact ⟨j, l, e, hc.ext h1⟩

theorem BinderInv.top {st : Analyzer} (hinv : BinderInv st) :
    ∃ (j : Nat) (sc : ScopeListRec) (rest : List (Option Nat)) (l : List Nat),
      st.scopeStack = some j :: rest ∧ st.scopeList[j]? = some sc ∧
      Chain st.scopeList (some j) l := by
  cases hs : st.scopeStack with
  | nil => exact absurd hs hinv.nonempty
  | cons p rest =>
    obtain ⟨j, l, e, hc⟩ := hinv.chains p (by rw [hs]; exact List.mem_cons_self _ _)
    subst e
    cases hc with
    | scope hsc _ => exact ⟨j, _, rest, _, rfl, hsc, Chain.scope hsc (by assumption)⟩

theorem BinderInv.loc {st : Analyzer} (hinv : BinderInv st) :
    ∃ (loc : Int) (locs : List Int), st.location = loc :: locs ∧ 0 ≤ loc := by
  cases hl : st.location with
  | nil =>
    have h1 := hinv.loclen
    have h2 := hinv.nonempty
    rw [hl] at h1
    exact absurd (List.length_eq_zero.1 h1.symm) h2
  | cons loc locs =>
    exact ⟨loc, locs, rfl, hinv.locnn loc (by rw [hl]; exact List.mem_cons_self _ _)⟩

theorem typeOf_total (info : NodeInfo) (c0 c1 c2 sib : TreeNode) (st : Analyzer) :
    Exec.Total (typeOf (.node info c0 c1 c2 sib)) st (fun _ st2 => st = st2) :=
  ⟨_, st, rfl, rfl⟩

theorem child0_total (info : NodeInfo) (c0 c1 c2 sib : TreeNode) (st : Analyzer) :
    Exec.Total (child0 (.node info c0 c1 c2 sib)) st (fun _ st2 => st = st2) :=
  ⟨_, st, rfl, rfl⟩

/-- A run that returns after changing none of registry, stack, counters,
flag and recorded scopes is a step that keeps the invariant. -/
theorem Exec.Total.of_frame {α : Type} {m : Exec α} {st st2 : Analyzer} {a : α}
    (hinv : BinderInv st) (e : m st = .ok a st2)
    (h1 : st2.scopeList = st.scopeList) (h2 : st2.scopeStack = st.scopeStack)
    (h3 : st2.location = st.location) (h4 : st2.fixed = st.fixed)
    (h5 : st2.isFuncScopeCreated = st.isFuncScopeCreated)
    (h6 : st2.nodeScope = st.nodeScope) :
    Exec.Total m st (fun _ s => BinderStep st s ∧ BinderInv s) :=
  ⟨a, st2, e, ⟨h1 ▸ Ext.refl _, h2, h4, h5, h6⟩, hinv.of_eq h1 h2 h3⟩

theorem report_total (d : Diag) {st : Analyzer} (hinv : BinderInv st) :
    Exec.Total (report d) st (fun _ s => BinderStep st s ∧ BinderInv s) :=
  Exec.Total.of_frame hinv rfl rfl rfl rfl rfl rfl rfl

theorem setType_total (info : NodeInfo) (c0 c1 c2 sib : TreeNode) (ty : NodeType)
    {st : Analyzer} (hinv : BinderInv st) :
    Exec.Total (setType (.node info c0 c1 c2 sib) ty) st
      (fun _ s => BinderStep st s ∧ BinderInv s) :=
  Exec.Total.of_frame hinv rfl rfl rfl rfl rfl rfl rfl

theorem voidTypeError_total (info : NodeInfo) (c0 c1 c2 sib : TreeNode)
    {st : Analyzer} (hinv : BinderInv st) :
    Exec.Total (voidTypeError (.node info c0 c1 c2 sib)) st
      (fun _ s => BinderStep st s ∧ BinderInv s) :=
  Exec.Total.of_frame hinv rfl rfl rfl rfl rfl rfl rfl

theorem undeclaredVariableError_total (info : NodeInfo) (c0 c1 c2 sib : TreeNode)
    {st : Analyzer} (hinv : BinderInv st) :
    Exec.Total (undeclaredVariableError (.node info c0 c1 c2 sib)) st
      (fun _ s => BinderStep st s ∧ BinderInv s) :=
  Exec.Total.of_frame hinv rfl rfl rfl rfl rfl rfl rfl

theorem undeclaredFunctionError_total (info : NodeInfo) (c0 c1 c2 sib : TreeNode)
    {st : Analyzer} (hinv : BinderInv st) :
    Exec.Total (undeclaredFunctionError (.node info c0 c1 c2 sib)) st
      (fun _ s => BinderStep st s ∧ BinderInv s) :=
  Exec.Total.of_frame hinv rfl rfl rfl rfl rfl rfl rfl

theorem redefinedSymbolError_total (info : NodeInfo) (c0 c1 c2 sib : TreeNode)
    (r : Nat × BucketListRec) {st : Analyzer} (hinv : BinderInv st) :
    Exec.Total (redefinedSymbolError (.node info c0 c1 c2 sib) (some r)) st
      (fun _ s => BinderStep st s ∧ BinderInv s) :=
  Exec.Total.of_frame hinv rfl rfl rfl rfl rfl rfl rfl

theorem newTreeNode_total (k : NodeKind) {st : Analyzer} (hinv : BinderInv st) :
    Exec.Total (newTreeNode k) st (fun _ s => BinderStep st s ∧ BinderInv s) :=
  Exec.Total.of_frame hinv rfl rfl rfl rfl rfl rfl rfl

theorem addLocation_total {st : Analyzer} (hinv : BinderInv st) :
    Exec.Total addLocation st (fun loc s => 0 ≤ loc ∧ BinderStep st s ∧ BinderInv s) := by
  obtain ⟨loc, locs, hl, hloc⟩ := hinv.loc
  refine ⟨loc, { st with location := (loc + 1) :: locs }, by simp [addLocation, hl], hloc,
    ⟨Ext.refl _, rfl, rfl, rfl, rfl⟩, hinv.nonempty, hinv.chains, ?_, ?_, hinv.mem⟩
  · have := hinv.loclen
    rw [hl] at this
    exact this
  · intro l hlm
    rcases List.mem_cons.1 hlm with rfl | hlm
    · omega
    · exact hinv.locnn l (by rw [hl]; exact List.mem_cons_of_mem _ hlm)

/-- In a state of the binder the lookup in the current scope returns; when
it finds the name, so does the lookup through the scopes. -/
theorem st_lookup_current_scope_total (name : String) {st : Analyzer} (hinv : BinderInv st) :
    Exec.Total (st_lookup_current_scope name) st (fun loc s => st = s ∧
      (loc ≠ -1 → ∃ r, st_lookup_return_bucket name st = .ok (some r) st)) := by
  obtain ⟨j, sc, rest, l, hstk, hsc, -⟩ := hinv.top
  cases hfb : findBucket name (sc.hashTable (hash name)) with
  | none =>
    exact ⟨-1, st, by simp [st_lookup_current_scope, Exec.bind_eq, Exec.get, derefScope,
      get_top_scope, hstk, hsc, hfb, Exec.pure_eq], rfl, fun h => absurd rfl h⟩
  | some b =>
    exact ⟨b.memloc, st, by simp [st_lookup_current_scope, Exec.bind_eq, Exec.get, derefScope,
      get_top_scope, hstk, hsc, hfb, Exec.pure_eq], rfl, fun _ => ⟨(j, b), by
        simp [st_lookup_return_bucket, get_top_scope, hstk, lookupLoop, hsc, hfb]⟩⟩

/-- In a state of the binder the lookup through the scopes returns, with a
location other than -1 only for a name that is found. -/
theorem st_lookup_total (name : String) {st : Analyzer} (hinv : BinderInv st) :
    Exec.Total (st_lookup name) st (fun loc s => st = s ∧
      (loc ≠ -1 → Found st.scopeList (get_top_scope st) name)) := by
  obtain ⟨j, sc, rest, l, hstk, hsc, hc⟩ := hinv.top
  have htop : get_top_scope st = some j := by simp [get_top_scope, hstk]
  obtain ⟨r, e⟩ := lookupLoop_total st.scopeList (hash name) name hc (st.scopeList.length + 1)
    (Nat.le_succ_of_le hc.length_le)
  cases r with
  | none =>
    exact ⟨-1, st, by simp [st_lookup, Exec.bind_eq, st_lookup_return_bucket, htop, e,
      Exec.pure_eq], rfl, fun h => absurd rfl h⟩
  | some r =>
    exact ⟨r.2.memloc, st, by simp [st_lookup, Exec.bind_eq, st_lookup_return_bucket, htop, e,
      Exec.pure_eq], rfl, fun h => ⟨r, by rw [htop]; exact e, h⟩⟩

/-- In a state of the binder `st_insert` with a location that is not
negative returns; afterwards the name is found from the current scope. -/
theorem st_insert_total (name : String) (lineno : Nat) (loc : Int) (node : TreeNode)
    {st : Analyzer} (hinv : BinderInv st) (hloc : 0 ≤ loc) :
    Exec.Total (st_insert name lineno loc node) st (fun _ s => BinderStep st s ∧
      BinderInv s ∧ Found s.scopeList (get_top_scope s) name) := by
  obtain ⟨j, sc, rest, l, hstk, hsc, -⟩ := hinv.top
  have htop : get_top_scope st = some j := by simp [get_top_scope, hstk]
  have hj : j < st.scopeList.length := (List.getElem?_eq_some_iff.1 hsc).1
  cases hfb : findBucket name (sc.hashTable (hash name)) with
  | some b =>
    refine ⟨(), st, by simp [st_insert, Exec.bind_eq, Exec.get, derefScope, htop, hsc, hfb,
      Exec.pure_eq], BinderStep.step_refl st, hinv, (j, b), ?_, hinv.mem j sc hsc _ _ _ hfb⟩
    simp [htop, lookupLoop, hsc, hfb]
  | none =>
    generalize hsc2 : (⟨sc.name, Function.update sc.hashTable (hash name)
      ({ name := name, lines := [lineno], memloc := loc, treeNode := node } ::
        sc.hashTable (hash name)), sc.parent⟩ : ScopeListRec) = sc2
    have hfind : ∀ (h : Nat) (x : String), findBucket x (sc2.hashTable h)
        = if h = hash name ∧ x = name then
            some { name := name, lines := [lineno], memloc := loc, treeNode := node }
          else findBucket x (sc.hashTable h) := by
      intro h x
      subst hsc2
      by_cases hh : h = hash name
      · subst hh
        by_cases hx : x = name
        · subst hx
          simp [findBucket]
        · have hx2 : ¬ name = x := fun e => hx e.symm
          simp [findBucket, hx, hx2]
      · simp [Function.update_noteq hh, hh]
    have hext : Ext st.scopeList (st.scopeList.set j sc2) := by
      refine Ext.set hsc (by subst hsc2; rfl) ?_
      intro h x b hb
      rw [hfind]
      by_cases hc : h = hash name ∧ x = name
      · obtain ⟨rfl, rfl⟩ := hc
        rw [hfb] at hb
        cases hb
      · rw [if_neg hc]
        exact ⟨b, hb, rfl⟩
    have hmem : MemOk (st.scopeList.set j sc2) := by
      refine hinv.mem.mem_set ?_
      intro h x b hb
      rw [hfind] at hb
      by_cases hc : h = hash name ∧ x = name
      · rw [if_pos hc] at hb
        cases hb
        show loc ≠ -1
        omega
      · rw [if_neg hc] at hb
        exact hinv.mem j sc hsc h x b hb
    refine ⟨(), { st with scopeList := st.scopeList.set j sc2 }, ?_,
      ⟨hext, rfl, rfl, rfl, rfl⟩, hinv.of_ext hext hmem rfl rfl, ?_⟩
    · subst hsc2
      simp [st_insert, Exec.bind_eq, Exec.get, derefScope, htop, hsc, hfb, setScope,
        Exec.modify]
    · refine ⟨(j, { name := name, lines := [lineno], memloc := loc, treeNode := node }),
        ?_, ?_⟩
      · show lookupLoop (st.scopeList.set j sc2) _ _ _ (get_top_scope st) = _
        rw [htop]
        simp [lookupLoop, List.getElem?_set_self hj, hfind]
      · show loc ≠ -1
        omega

/-- In a state of the binder `st_insert_lineno` returns, and extends the
registry. -/
theorem st_insert_lineno_total (name : String) (lineno : Nat) {st : Analyzer}
    (hinv : BinderInv st) :
    Exec.Total (st_insert_lineno name lineno) st
      (fun _ s => BinderStep st s ∧ BinderInv s) := by
  obtain ⟨j, sc, rest, l, hstk, hsc, -⟩ := hinv.top
  have htop : get_top_scope st = some j := by simp [get_top_scope, hstk]
  cases hfb : findBucket name (sc.hashTable (hash name)) with
  | none =>
    exact ⟨(), st, by simp [st_insert_lineno, Exec.bind_eq, Exec.get, derefScope, htop, hsc,
      hfb, Exec.pure_eq], BinderStep.step_refl st, hinv⟩
  | some b0 =>
    generalize hsc2 : (⟨sc.name, Function.update sc.hashTable (hash name)
      (updateBucket name (fun b => { b with lines := b.lines ++ [lineno] })
        (sc.hashTable (hash name))), sc.parent⟩ : ScopeListRec) = sc2
    have hfind : ∀ (h : Nat) (x : String), findBucket x (sc2.hashTable h)
        = (findBucket x (sc.hashTable h)).map (fun b =>
            if h = hash name ∧ x = name then { b with lines := b.lines ++ [lineno] }
            else b) := by
      intro h x
      subst hsc2
      by_cases hh : h = hash name
      · subst hh
        simp only [Function.update_same, true_and]
        exact findBucket_updateBucket x name
          (fun b => { b with lines := b.lines ++ [lineno] }) (fun _ => rfl) _
      · simp [Function.update_noteq hh, hh]
    have hext : Ext st.scopeList (st.scopeList.set j sc2) := by
      refine Ext.set hsc (by subst hsc2; rfl) ?_
      intro h x b hb
      rw [hfind, hb]
      refine ⟨_, rfl, ?_⟩
      simp only
      split <;> rfl
    have hmem : MemOk (st.scopeList.set j sc2) := by
      refine hinv.mem.mem_set ?_
      intro h x b hb
      rw [hfind] at hb
      cases hfx : findBucket x (sc.hashTable h) with
      | none => rw [hfx] at hb; cases hb
      | some b1 =>
        rw [hfx] at hb
        simp only [Option.map_some', Option.some.injEq] at hb
        subst hb
        have := hinv.mem j sc hsc h x b1 hfx
        split <;> exact this
    refine ⟨(), { st with scopeList := st.scopeList.set j sc2 }, ?_,
      ⟨hext, rfl, rfl, rfl, rfl⟩, hinv.of_ext hext hmem rfl rfl⟩
    subst hsc2
    simp [st_insert_lineno, Exec.bind_eq, Exec.get, derefScope, htop, hsc, hfb, setScope,
      Exec.modify]

/-! ## The binder: what a node does -/

theorem Exec.Total.step {α β : Type} {m : Exec α} {f : α → Exec β} {st0 st : Analyzer}
    {Q : β → Analyzer → Prop} (hs : BinderStep st0 st)
    (h1 : Exec.Total m st (fun _ s => BinderStep st s ∧ BinderInv s))
    (h2 : ∀ a s, BinderStep st0 s → BinderInv s → Exec.Total (f a) s Q) :
    Exec.Total (m >>= f) st Q :=
  Exec.Total.bind h1 fun a s h => h2 a s (hs.step_trans h.1) h.2

theorem Exec.Total.step_cond {β : Type} {c : Prop} [Decidable c] {m : Exec Unit}
    {f : Unit → Exec β} {st0 st : Analyzer} {Q : β → Analyzer → Prop}
    (hs : BinderStep st0 st) (hinv : BinderInv st)
    (h1 : Exec.Total m st (fun _ s => BinderStep st s ∧ BinderInv s))
    (h2 : ∀ s, BinderStep st0 s → BinderInv s → Exec.Total (f ()) s Q) :
    Exec.Total (Exec.cond c m >>= f) st Q :=
  Exec.Total.bind (Exec.Total.cond (fun _ => h1) (fun _ => ⟨BinderStep.step_refl st, hinv⟩))
    fun _ s h => h2 s (hs.step_trans h.1) h.2

theorem Exec.Total.last {α : Type} {m : Exec α} {st0 st : Analyzer}
    {Q : α → Analyzer → Prop} (hs : BinderStep st0 st)
    (h1 : Exec.Total m st (fun _ s => BinderStep st s ∧ BinderInv s))
    (h2 : ∀ a s, BinderStep st0 s → BinderInv s → Q a s) : Exec.Total m st Q :=
  Exec.Total.mono h1 fun a s h => h2 a s (hs.step_trans h.1) h.2

theorem Found.found_step {st s : Analyzer} {name : String}
    (hf : Found st.scopeList (get_top_scope st) name) (hs : BinderStep st s)
    (hinv : BinderInv s) : Found s.scopeList (get_top_scope s) name := by
  rw [hs.top_eq]
  exact hf.ext_found hs.ext hinv.mem

/-- The redefinition branch of a declaration: the lookup finds the symbol
that the current scope holds, and the message is printed. -/
theorem redefined_total (name : String) (info : NodeInfo) (c0 c1 c2 sib : TreeNode)
    {st : Analyzer} (hinv : BinderInv st) {r : Nat × BucketListRec}
    (e : st_lookup_return_bucket name st = .ok (some r) st) :
    Exec.Total (st_lookup_return_bucket name >>= fun l =>
        redefinedSymbolError (.node info c0 c1 c2 sib) l) st
      (fun _ s => BinderStep st s ∧ BinderInv s) :=
  Exec.Total.bind (P := fun a s => a = some r ∧ st = s) ⟨_, _, e, rfl, rfl⟩ (by
    rintro _ _ ⟨rfl, rfl⟩
    exact redefinedSymbolError_total info c0 c1 c2 sib r hinv)

/-- On a node that is neither a function declaration nor a compound
statement the binder returns; it extends the registry and leaves stack, flag
and recorded scopes; afterwards the name of a variable reference is
found. -/
theorem insertNode_plain (info : NodeInfo) (c0 c1 c2 sib : TreeNode) {st : Analyzer}
    (hinv : BinderInv st) (hk1 : info.nodekind ≠ .FunDeclK)
    (hk2 : info.nodekind ≠ .CompStmtK) :
    Exec.Total (insertNode (.node info c0 c1 c2 sib)) st (fun _ s =>
      BinderStep st s ∧ BinderInv s ∧
      (info.nodekind = .VarExpK → Found s.scopeList (get_top_scope s) info.name)) := by
  have hs := BinderStep.step_refl st
  unfold insertNode
  simp only [nodeInfo, Exec.pure_bind]
  cases hkind : info.nodekind
  case FunDeclK => exact absurd hkind hk1
  case CompStmtK => exact absurd hkind hk2
  case VarDeclK =>
    simp only []
    refine Exec.Total.bind (typeOf_total info c0 c1 c2 sib st) ?_
    rintro ty _ rfl
    refine Exec.Total.step_cond hs hinv (voidTypeError_total info c0 c1 c2 sib hinv) ?_
    intro s1 hs1 hinv1
    refine Exec.Total.bind (child0_total info c0 c1 c2 sib s1) ?_
    rintro c _ rfl
    refine Exec.Total.step_cond hs1 hinv1 (setType_total info c0 c1 c2 sib _ hinv1) ?_
    intro s2 hs2 hinv2
    refine Exec.Total.bind (st_lookup_current_scope_total info.name hinv2) ?_
    rintro loc _ ⟨rfl, hl⟩
    split
    · rename_i hne
      obtain ⟨r, e⟩ := hl hne
      refine Exec.Total.bind (P := fun a s => a = some r ∧ s2 = s) ⟨_, _, e, rfl, rfl⟩ ?_
      rintro _ _ ⟨rfl, rfl⟩
      refine Exec.Total.step hs2 (redefinedSymbolError_total info c0 c1 c2 sib r hinv2) ?_
      intro _ s3 hs3 hinv3
      exact Exec.Total.last hs3 (st_insert_lineno_total _ _ hinv3)
        fun _ s4 hs4 hinv4 => ⟨hs4, hinv4, fun h => nomatch h⟩
    · refine Exec.Total.bind (addLocation_total hinv2) ?_
      rintro loc2 s3 ⟨hloc, hs3, hinv3⟩
      exact Exec.Total.mono (st_insert_total _ _ _ _ hinv3 hloc)
        fun _ s4 h => ⟨(hs2.step_trans hs3).step_trans h.1, h.2.1, fun h => nomatch h⟩
  case ParamK =>
    simp only []
    refine Exec.Total.bind (typeOf_total info c0 c1 c2 sib st) ?_
    rintro ty _ rfl
    split
    · exact Exec.Total.pure ⟨hs, hinv, fun h => nomatch h⟩
    · refine Exec.Total.step_cond hs hinv (voidTypeError_total info c0 c1 c2 sib hinv) ?_
      intro s1 hs1 hinv1
      refine Exec.Total.bind (st_lookup_current_scope_total info.name hinv1) ?_
      rintro loc _ ⟨rfl, hl⟩
      split
      · rename_i hne
        obtain ⟨r, e⟩ := hl hne
        exact Exec.Total.last hs1 (redefined_total _ info c0 c1 c2 sib hinv1 e)
          fun _ s4 hs4 hinv4 => ⟨hs4, hinv4, fun h => nomatch h⟩
      · refine Exec.Total.bind (addLocation_total hinv1) ?_
        rintro loc2 s2 ⟨hloc, hs2, hinv2⟩
        refine Exec.Total.bind (st_insert_total _ _ _ _ hinv2 hloc) ?_
        rintro _ s3 ⟨hs3, hinv3, -⟩
        refine Exec.Total.bind (child0_total info c0 c1 c2 sib s3) ?_
        rintro c _ rfl
        exact Exec.Total.cond
          (fun _ => Exec.Total.last ((hs1.step_trans hs2).step_trans hs3)
            (setType_total info c0 c1 c2 sib _ hinv3)
            fun _ s4 hs4 hinv4 => ⟨hs4, hinv4, fun h => nomatch h⟩)
          (fun _ => ⟨(hs1.step_trans hs2).step_trans hs3, hinv3, fun h => nomatch h⟩)
  case CallK =>
    simp only []
    refine Exec.Total.bind (st_lookup_total info.name hinv) ?_
    rintro loc _ ⟨rfl, hl⟩
    split
    · refine Exec.Total.step hs (newTreeNode_total _ hinv) ?_
      intro n1 s1 hs1 hinv1
      refine Exec.Total.step hs1 (newTreeNode_total _ hinv1) ?_
      intro n2 s2 hs2 hinv2
      refine Exec.Total.bind (addLocation_total hinv2) ?_
      rintro loc2 s3 ⟨hloc, hs3, hinv3⟩
      refine Exec.Total.bind (st_insert_total _ _ _ _ hinv3 hloc) ?_
      rintro _ s4 ⟨hs4, hinv4, -⟩
      exact Exec.Total.last ((hs2.step_trans hs3).step_trans hs4)
        (undeclaredFunctionError_total info c0 c1 c2 sib hinv4)
        fun _ s5 hs5 hinv5 => ⟨hs5, hinv5, fun h => nomatch h⟩
    · exact Exec.Total.last hs (st_insert_lineno_total _ _ hinv)
        fun _ s4 hs4 hinv4 => ⟨hs4, hinv4, fun h => nomatch h⟩
  case VarExpK =>
    simp only []
    refine Exec.Total.bind (st_lookup_total info.name hinv) ?_
    rintro loc _ ⟨rfl, hl⟩
    split
    · refine Exec.Total.step hs (newTreeNode_total _ hinv) ?_
      intro n1 s1 hs1 hinv1
      refine Exec.Total.bind (addLocation_total hinv1) ?_
      rintro loc2 s2 ⟨hloc, hs2, hinv2⟩
      refine Exec.Total.bind (st_insert_total _ _ _ _ hinv2 hloc) ?_
      rintro _ s3 ⟨hs3, hinv3, hf3⟩
      refine Exec.Total.mono (undeclaredVariableError_total info c0 c1 c2 sib hinv3) ?_
      rintro _ s4 ⟨hs4, hinv4⟩
      exact ⟨((hs1.step_trans hs2).step_trans hs3).step_trans hs4, hinv4, fun _ => hf3.found_step hs4 hinv4⟩
    · rename_i hne
      refine Exec.Total.mono (st_insert_lineno_total _ _ hinv) ?_
      rintro _ s4 ⟨hs4, hinv4⟩
      exact ⟨hs4, hinv4, fun _ => (hl hne).found_step hs4 hinv4⟩
  all_goals exact Exec.Total.pure ⟨hs, hinv, fun h => nomatch h⟩

/-- Creating a scope and pushing it keeps the invariant. -/
theorem BinderInv.push {st s : Analyzer} (hinv : BinderInv st) (name : Option String)
    (h1 : s.scopeList = st.scopeList ++
      [{ name := name, hashTable := fun _ => [], parent := get_top_scope st }])
    (h2 : s.scopeStack = some st.scopeList.length :: st.scopeStack)
    (h3 : s.location = 0 :: st.location) :
    BinderInv s ∧ Ext st.scopeList s.scopeList := by
  have hext : Ext st.scopeList s.scopeList := h1 ▸ Ext.ext_append _ _
  refine ⟨⟨by rw [h2]; simp, ?_, by rw [h2, h3]; simp [hinv.loclen], ?_, ?_⟩, hext⟩
  · intro p hp
    rw [h2] at hp
    rcases List.mem_cons.1 hp with rfl | hp
    · obtain ⟨j, sc, rest, l, hstk, hsc, hc⟩ := hinv.top
      have htop : get_top_scope st = some j := by simp [get_top_scope, hstk]
      have hnew : s.scopeList[st.scopeList.length]?
          = some ⟨name, fun _ => [], get_top_scope st⟩ := by
        rw [h1]
        simp
      refine ⟨_, st.scopeList.length :: l, rfl, Chain.scope hnew ?_⟩
      show Chain s.scopeList (get_top_scope st) l
      rw [htop]
      exact hc.ext hext
    · obtain ⟨j, l, e, hc⟩ := hinv.chains p hp
      exact ⟨j, l, e, hc.ext hext⟩
  · intro l hl
    rw [h3] at hl
    rcases List.mem_cons.1 hl with rfl | hl
    · exact le_refl _
    · exact hinv.locnn l hl
  · rw [h1]
    exact hinv.mem.mem_append _ _

/-- Popping a stack of two scopes or more keeps the invariant. -/
theorem pop_scope_total {st : Analyzer} (hinv : BinderInv st)
    (h2 : 2 ≤ st.scopeStack.length) :
    Exec.Total pop_scope st (fun _ s => BinderInv s ∧ s.scopeList = st.scopeList ∧
      s.scopeStack = st.scopeStack.tail ∧ s.fixed = st.fixed ∧
      s.isFuncScopeCreated = st.isFuncScopeCreated ∧ s.nodeScope = st.nodeScope) := by
  cases hstk : st.scopeStack with
  | nil => rw [hstk] at h2; simp at h2
  | cons p stack =>
    cases hl : st.location with
    | nil =>
      have := hinv.loclen
      rw [hstk, hl] at this
      simp at this
    | cons l loc =>
      refine ⟨(), { st with scopeStack := stack, location := loc },
        by simp [pop_scope, hstk, hl], ⟨?_, ?_, ?_, ?_, hinv.mem⟩, rfl, rfl, rfl, rfl, rfl⟩
      · show stack ≠ []
        rw [hstk] at h2
        intro e
        rw [e] at h2
        simp at h2
      · intro q hq
        exact hinv.chains q (by rw [hstk]; exact List.mem_cons_of_mem _ hq)
      · have := hinv.loclen
        rw [hstk, hl] at this
        simpa using this
      · intro x hx
        exact hinv.locnn x (by rw [hl]; exact List.mem_cons_of_mem _ hx)

/-- On a function declaration the binder returns: either the name is a
redefinition and the node is treated like a plain one, or a scope is pushed
and the flag raised. -/
theorem insertNode_funDecl (info : NodeInfo) (c0 c1 c2 sib : TreeNode) {st : Analyzer}
    (hinv : BinderInv st) (hk : info.nodekind = .FunDeclK) :
    Exec.Total (insertNode (.node info c0 c1 c2 sib)) st (fun _ s =>
      (BinderStep st s ∧ BinderInv s) ∨
      (BinderInv s ∧ Ext st.scopeList s.scopeList ∧ s.isFuncScopeCreated = true ∧
        s.fixed = st.fixed ∧ s.nodeScope = st.nodeScope ∧
        s.scopeStack.tail = st.scopeStack ∧ 2 ≤ s.scopeStack.length)) := by
  unfold insertNode
  simp only [nodeInfo, Exec.pure_bind, hk]
  refine Exec.Total.step (BinderStep.step_refl st)
    (Exec.Total.of_frame hinv (m := Exec.modify _) rfl rfl rfl rfl rfl rfl rfl) ?_
  intro _ s1 hs1 hinv1
  refine Exec.Total.bind (st_lookup_current_scope_total info.name hinv1) ?_
  rintro loc _ ⟨rfl, hl⟩
  split
  · rename_i hne
    obtain ⟨r, e⟩ := hl hne
    exact Exec.Total.last hs1 (redefined_total _ info c0 c1 c2 sib hinv1 e)
      fun _ s4 hs4 hinv4 => Or.inl ⟨hs4, hinv4⟩
  · refine Exec.Total.bind (addLocation_total hinv1) ?_
    rintro loc2 s2 ⟨hloc, hs2, hinv2⟩
    refine Exec.Total.bind (st_insert_total _ _ _ _ hinv2 hloc) ?_
    rintro _ s3 ⟨hs3, hinv3, -⟩
    have hs := (hs1.step_trans hs2).step_trans hs3
    generalize hs4 : (Exec.modify (fun st => { st with isFuncScopeCreated := true })
      { s3 with
        scopeList := s3.scopeList ++ [⟨some info.name, fun _ => [], get_top_scope s3⟩]
        location := 0 :: s3.location
        scopeStack := some s3.scopeList.length :: s3.scopeStack }).state = s4
    obtain ⟨hinv4, hext4⟩ : BinderInv s4 ∧ Ext s3.scopeList s4.scopeList := by
      subst hs4
      exact hinv3.push (some info.name) rfl rfl rfl
    refine ⟨(), s4, by subst hs4; rfl, Or.inr ⟨hinv4, hs.ext.trans hext4, ?_, ?_, ?_, ?_, ?_⟩⟩
    all_goals subst hs4
    · rfl
    · exact hs.fixed
    · exact hs.nodeScope
    · exact hs.stack
    · show 2 ≤ (some s3.scopeList.length :: s3.scopeStack).length
      have := List.length_pos.2 hinv3.nonempty
      simp only [List.length_cons]
      omega

/-- On a compound statement the binder returns: it lowers the flag or
pushes a new scope, and records the top scope on the node. -/
theorem insertNode_compStmt (info : NodeInfo) (c0 c1 c2 sib : TreeNode) {st : Analyzer}
    (hinv : BinderInv st) (hk : info.nodekind = .CompStmtK)
    (hflag : st.isFuncScopeCreated = true → 2 ≤ st.scopeStack.length) :
    Exec.Total (insertNode (.node info c0 c1 c2 sib)) st (fun _ s =>
      BinderInv s ∧ Ext st.scopeList s.scopeList ∧ s.isFuncScopeCreated = false ∧
      s.fixed = st.fixed ∧
      s.nodeScope = Function.update st.nodeScope info.id (some (get_top_scope s)) ∧
      s.scopeStack.tail
        = (if st.isFuncScopeCreated = true then st.scopeStack.tail else st.scopeStack) ∧
      2 ≤ s.scopeStack.length) := by
  unfold insertNode
  simp only [nodeInfo, Exec.pure_bind, hk]
  by_cases hf : st.isFuncScopeCreated = true
  · generalize hs1 : ({ st with
      isFuncScopeCreated := false
      nodeScope := Function.update st.nodeScope info.id (some (get_top_scope st)) }
        : Analyzer) = s1
    refine ⟨(), s1, ?_, ?_⟩
    · subst hs1
      simp [Exec.bind_eq, Exec.get, hf, Exec.modify, get_top_scope]
    · subst hs1
      refine ⟨hinv.of_eq rfl rfl rfl, Ext.refl _, rfl, rfl, rfl, ?_, hflag hf⟩
      rw [if_pos hf]
  · generalize hs1 : ({ st with
      scopeList := st.scopeList ++ [⟨st.curFuncName, fun _ => [], get_top_scope st⟩]
      location := 0 :: st.location
      scopeStack := some st.scopeList.length :: st.scopeStack
      nodeScope := Function.update st.nodeScope info.id (some (some st.scopeList.length)) }
        : Analyzer) = s1
    have hf2 : st.isFuncScopeCreated = false := by simpa using hf
    refine ⟨(), s1, ?_, ?_⟩
    · subst hs1
      simp [Exec.bind_eq, Exec.get, hf, Exec.modify, get_top_scope, create_scope, push_scope]
    · subst hs1
      obtain ⟨hinv4, hext4⟩ := hinv.push
        (s := { st with
          scopeList := st.scopeList ++ [⟨st.curFuncName, fun _ => [], get_top_scope st⟩]
          location := 0 :: st.location
          scopeStack := some st.scopeList.length :: st.scopeStack
          nodeScope := Function.update st.nodeScope info.id
            (some (some st.scopeList.length)) })
        st.curFuncName rfl rfl rfl
      refine ⟨hinv4, hext4, hf2, rfl, rfl, ?_, ?_⟩
      · rw [if_neg hf]
        rfl
      · show 2 ≤ (some st.scopeList.length :: st.scopeStack).length
        have := List.length_pos.2 hinv.nonempty
        simp only [List.length_cons]
        omega

/-! ## The binder: the traversal -/

theorem postProcInsertNode_other (info : NodeInfo) (c0 c1 c2 sib : TreeNode)
    (hk : info.nodekind ≠ .CompStmtK) :
    postProcInsertNode (.node info c0 c1 c2 sib) = pure () := by
  unfold postProcInsertNode
  simp only [nodeInfo, Exec.pure_bind, Exec.cond, if_neg hk]

theorem postProcInsertNode_comp (info : NodeInfo) (c0 c1 c2 sib : TreeNode)
    (hk : info.nodekind = .CompStmtK) :
    postProcInsertNode (.node info c0 c1 c2 sib) = pop_scope := by
  unfold postProcInsertNode
  simp only [nodeInfo, Exec.pure_bind, Exec.cond, if_pos hk]

/-- On a tree without function declaration, compound statement and
variable reference the binder returns and leaves stack and flag. -/
theorem traverse_quiet :
    ∀ (t : TreeNode), t.Quiet → ∀ (st : Analyzer), BinderInv st →
      Exec.Total (traverse insertNode postProcInsertNode t) st
        (fun _ s => BinderStep st s ∧ BinderInv s) := by
  intro t
  induction t with
  | null => intro _ st hinv; exact Exec.Total.pure ⟨BinderStep.step_refl st, hinv⟩
  | node info c0 c1 c2 sib ih0 ih1 ih2 ih3 =>
    intro hq st hinv
    unfold TreeNode.Quiet at hq
    obtain ⟨hk1, hk2, -, q0, q1, q2, q3⟩ := hq
    rw [traverse, postProcInsertNode_other info c0 c1 c2 sib hk2]
    refine Exec.Total.bind (insertNode_plain info c0 c1 c2 sib hinv hk1 hk2) ?_
    rintro _ s1 ⟨hs1, hinv1, -⟩
    refine Exec.Total.step hs1 (ih0 q0 s1 hinv1) ?_
    intro _ s2 hs2 hinv2
    refine Exec.Total.step hs2 (ih1 q1 s2 hinv2) ?_
    intro _ s3 hs3 hinv3
    refine Exec.Total.step hs3 (ih2 q2 s3 hinv3) ?_
    intro _ s4 hs4 hinv4
    rw [Exec.pure_bind]
    exact Exec.Total.last hs4 (ih3 q3 s4 hinv4) fun _ s h1 h2 => ⟨h1, h2⟩

theorem BinderPost.post_top {ts : List TreeNode} {stack : List (Option Nat)} {st s : Analyzer}
    (h : BinderPost ts stack st s) (hst : st.scopeStack = stack) :
    get_top_scope s = get_top_scope st := by
  unfold get_top_scope
  rw [h.2.2.2.1, Analyzer.fixed_below h.2.2.1, hst]

/-- Two traversals in a row, of trees that share no node. -/
theorem BinderPost.snoc {ts : List TreeNode} {t : TreeNode} {stack : List (Option Nat)}
    {st s1 s2 : Analyzer} (h1 : BinderPost ts stack st s1) (h2 : BinderPost [t] stack s1 s2)
    (hd : ∀ t1 ∈ ts, ∀ i ∈ t1.ids, i ∉ t.ids) : BinderPost (ts ++ [t]) stack st s2 := by
  have htop := h2.post_top h1.2.2.2.1
  obtain ⟨-, -, b1, k1, e1, n1, r1⟩ := h1
  obtain ⟨inv2, f2, b2, k2, e2, n2, r2⟩ := h2
  refine ⟨inv2, f2, b2.trans b1, k2, e1.trans e2, ?_, ?_⟩
  · intro i hi
    rw [n2 i (fun t2 ht2 => hi t2 (by simp at ht2; simp [ht2])),
      n1 i (fun t1 ht1 => hi t1 (by simp [ht1]))]
  · intro t2 ht2
    rcases List.mem_append.1 ht2 with hm | hm
    · rw [htop]
      refine Resolved.ext_resolved e2 inv2.mem t2 _ (r1 t2 hm) ?_
      intro i hi
      refine n2 i ?_
      intro t3 ht3
      rw [List.mem_singleton.1 ht3]
      exact hd t2 hm i hi
    · exact r2 t2 hm

theorem TreeNode.ids_nodup {info : NodeInfo} {c0 c1 c2 sib : TreeNode}
    (h : (TreeNode.node info c0 c1 c2 sib).ids.Nodup) :
    c0.ids.Nodup ∧ c1.ids.Nodup ∧ c2.ids.Nodup ∧ sib.ids.Nodup ∧
    (info.id ∉ c0.ids ∧ info.id ∉ c1.ids ∧ info.id ∉ c2.ids ∧ info.id ∉ sib.ids) ∧
    (∀ i ∈ c0.ids, i ∉ c1.ids ∧ i ∉ c2.ids ∧ i ∉ sib.ids) ∧
    (∀ i ∈ c1.ids, i ∉ c2.ids ∧ i ∉ sib.ids) ∧ (∀ i ∈ c2.ids, i ∉ sib.ids) := by
  unfold TreeNode.ids at h
  rw [List.nodup_cons, List.nodup_append, List.nodup_append, List.nodup_append] at h
  obtain ⟨hid, ⟨⟨n0, n1, d01⟩, n2, d012⟩, n3, d0123⟩ := h
  simp only [List.mem_append, not_or] at hid
  refine ⟨n0, n1, n2, n3, ⟨hid.1.1.1, hid.1.1.2, hid.1.2, hid.2⟩, ?_, ?_, ?_⟩
  · intro i hi
    exact ⟨fun h => d01 hi h, fun h => d012 (List.mem_append_left _ hi) h,
      fun h => d0123 (List.mem_append_left _ (List.mem_append_left _ hi)) h⟩
  · intro i hi
    exact ⟨fun h => d012 (List.mem_append_right _ hi) h,
      fun h => d0123 (List.mem_append_left _ (List.mem_append_right _ hi)) h⟩
  · intro i hi
    exact fun h => d0123 (List.mem_append_right _ hi) h

theorem BinderTraverses.of {t : TreeNode}
    (h : ∀ (st : Analyzer), BinderInv st →
      (st.isFuncScopeCreated = true → t.IsCompStmt ∧ 2 ≤ st.scopeStack.length) →
      Exec.Total (traverse insertNode postProcInsertNode t) st (fun _ s => BinderPost [t]
        (if st.isFuncScopeCreated = true then st.scopeStack.tail else st.scopeStack) st s)) :
    BinderTraverses t := by
  intro st stack hinv hf hstk
  have := h st hinv (fun e => by rw [hf] at e; cases e)
  rw [hf, hstk] at this
  exact this

/-- The rest of the traversal of a node that opened no scope. -/
theorem traverse_rest_plain {info : NodeInfo} {c0 c1 c2 sib : TreeNode}
    (hnd : (TreeNode.node info c0 c1 c2 sib).ids.Nodup)
    (hk : info.nodekind ≠ .CompStmtK)
    (T0 : BinderTraverses c0) (T1 : BinderTraverses c1) (T2 : BinderTraverses c2)
    (T3 : BinderTraverses sib) {st s1 : Analyzer} (hf : st.isFuncScopeCreated = false)
    (hs1 : BinderStep st s1) (hinv1 : BinderInv s1)
    (hfound : info.nodekind = .VarExpK → Found s1.scopeList (get_top_scope s1) info.name) :
    Exec.Total (traverse insertNode postProcInsertNode c0 >>= fun _ =>
        traverse insertNode postProcInsertNode c1 >>= fun _ =>
        traverse insertNode postProcInsertNode c2 >>= fun _ =>
        (pure () : Exec Unit) >>= fun _ => traverse insertNode postProcInsertNode sib) s1
      (fun _ s => BinderPost [.node info c0 c1 c2 sib] st.scopeStack st s) := by
  obtain ⟨-, -, -, -, -, d0, d1, d2⟩ := TreeNode.ids_nodup hnd
  refine Exec.Total.bind (T0 s1 _ hinv1 (hs1.flag.trans hf) hs1.stack) ?_
  intro _ s2 P0
  refine Exec.Total.bind (T1 s2 _ P0.1 P0.2.1 P0.2.2.2.1) ?_
  intro _ s3 P1
  have P01 := P0.snoc P1 (by simpa using fun i hi => (d0 i hi).1)
  refine Exec.Total.bind (T2 s3 _ P1.1 P1.2.1 P1.2.2.2.1) ?_
  intro _ s4 P2
  have P012 := P01.snoc P2 (by simpa using ⟨fun i hi => (d0 i hi).2.1, fun i hi => (d1 i hi).1⟩)
  rw [Exec.pure_bind]
  refine Exec.Total.mono (T3 s4 _ P2.1 P2.2.1 P2.2.2.2.1) ?_
  intro _ s5 P3
  have P := P012.snoc P3 (by
    simpa using ⟨fun i hi => (d0 i hi).2.2, fun i hi => (d1 i hi).2, fun i hi => d2 i hi⟩)
  obtain ⟨inv5, f5, b5, k5, e5, n5, r5⟩ := P
  have htop : get_top_scope s5 = get_top_scope s1 := by
    unfold get_top_scope
    rw [k5, Analyzer.fixed_below b5, hs1.stack]
  refine ⟨inv5, f5, b5.trans hs1.fixed, k5, hs1.ext.trans e5, ?_, ?_⟩
  · intro i hi
    have hi2 := hi _ (List.mem_singleton_self _)
    simp only [TreeNode.ids, List.mem_cons, List.mem_append, not_or] at hi2
    rw [n5 i (by simpa using ⟨hi2.2.1.1.1, hi2.2.1.1.2, hi2.2.1.2, hi2.2.2⟩), hs1.nodeScope]
  · intro t ht
    rw [List.mem_singleton.1 ht]
    unfold Resolved
    refine ⟨fun h => htop ▸ (hfound h).ext_found e5 inv5.mem, ?_, r5 sib (by simp)⟩
    rw [if_neg hk]
    exact ⟨r5 c0 (by simp), r5 c1 (by simp), r5 c2 (by simp)⟩

/-- The binder returns from a tree of the parser's shape whose nodes are
distinct. On entry the flag is up only at the body of a function whose scope
was just pushed, which the body then pops. On return every variable
reference of the tree resolves from the scope the checker will have on top
when it comes to the reference. -/
theorem traverse_insertNode :
    ∀ (t : TreeNode), t.Shaped → t.ids.Nodup → ∀ (st : Analyzer), BinderInv st →
      (st.isFuncScopeCreated = true → t.IsCompStmt ∧ 2 ≤ st.scopeStack.length) →
      Exec.Total (traverse insertNode postProcInsertNode t) st (fun _ s => BinderPost [t]
        (if st.isFuncScopeCreated = true then st.scopeStack.tail else st.scopeStack) st s) := by
  intro t
  induction t with
  | null =>
    intro _ _ st hinv hflag
    have hf : st.isFuncScopeCreated = false := by
      cases h : st.isFuncScopeCreated with
      | false => rfl
      | true => exact (hflag h).1.elim
    rw [hf]
    refine Exec.Total.pure ⟨hinv, hf, rfl, rfl, Ext.refl _, fun _ _ => rfl, ?_⟩
    intro t ht
    rw [List.mem_singleton.1 ht]
    trivial
  | node info c0 c1 c2 sib ih0 ih1 ih2 ih3 =>
    intro hsh hnd st hinv hflag
    unfold TreeNode.Shaped at hsh
    obtain ⟨hfun, sh0, sh1, sh2, sh3⟩ := hsh
    obtain ⟨nd0, nd1, nd2, nd3, ⟨hid0, hid1, hid2, hid3⟩, d0, d1, d2⟩ :=
      TreeNode.ids_nodup hnd
    have T0 : BinderTraverses c0 := BinderTraverses.of (ih0 sh0 nd0)
    have T1 : BinderTraverses c1 := BinderTraverses.of (ih1 sh1 nd1)
    have T2 : BinderTraverses c2 := BinderTraverses.of (ih2 sh2 nd2)
    have T3 : BinderTraverses sib := BinderTraverses.of (ih3 sh3 nd3)
    by_cases hk : info.nodekind = .CompStmtK
    · rw [traverse, postProcInsertNode_comp info c0 c1 c2 sib hk]
      refine Exec.Total.bind
        (insertNode_compStmt info c0 c1 c2 sib hinv hk (fun h => (hflag h).2)) ?_
      rintro _ s1 ⟨hinv1, hext1, hf1, hb1, hns1, htail1, hlen1⟩
      refine Exec.Total.bind (T0 s1 _ hinv1 hf1 rfl) ?_
      intro _ s2 P0
      refine Exec.Total.bind (T1 s2 _ P0.1 P0.2.1 P0.2.2.2.1) ?_
      intro _ s3 P1
      have P01 := P0.snoc P1 (by simpa using fun i hi => (d0 i hi).1)
      refine Exec.Total.bind (T2 s3 _ P1.1 P1.2.1 P1.2.2.2.1) ?_
      intro _ s4 P2
      have P012 := P01.snoc P2
        (by simpa using ⟨fun i hi => (d0 i hi).2.1, fun i hi => (d1 i hi).1⟩)
      refine Exec.Total.bind (pop_scope_total P2.1 (by rw [P2.2.2.2.1]; exact hlen1)) ?_
      rintro _ s5 ⟨hinv5, hsl5, hstk5, hb5, hf5, hns5⟩
      refine Exec.Total.mono (T3 s5 _ hinv5 (hf5.trans P2.2.1)
        (by rw [hstk5, P2.2.2.2.1, htail1])) ?_
      intro _ s6 P3
      obtain ⟨-, -, b4, k4, e4, n4, r4⟩ := P012
      obtain ⟨inv6, f6, b6, k6, e6, n6, r6⟩ := P3
      have hext46 : Ext s4.scopeList s6.scopeList := by rw [← hsl5]; exact e6
      have htop4 : get_top_scope s4 = get_top_scope s1 := by
        unfold get_top_scope
        rw [k4, Analyzer.fixed_below b4]
      have hns64 : ∀ i, i ∉ sib.ids → s6.nodeScope i = s4.nodeScope i := by
        intro i hi
        rw [n6 i (by simpa using hi), hns5]
      have hns41 : ∀ i, i ∉ c0.ids → i ∉ c1.ids → i ∉ c2.ids →
          s4.nodeScope i = s1.nodeScope i := by
        intro i h0 h1 h2
        exact n4 i (by simpa using ⟨h0, h1, h2⟩)
      refine ⟨inv6, f6, b6.trans (hb5.trans (b4.trans hb1)), k6,
        hext1.trans (e4.trans hext46), ?_, ?_⟩
      · intro i hi
        have hi2 := hi _ (List.mem_singleton_self _)
        simp only [TreeNode.ids, List.mem_cons, List.mem_append, not_or] at hi2
        rw [hns64 i hi2.2.2, hns41 i hi2.2.1.1.1 hi2.2.1.1.2 hi2.2.1.2, hns1,
          Function.update_noteq hi2.1]
      · intro t ht
        rw [List.mem_singleton.1 ht]
        unfold Resolved
        refine ⟨fun h => absurd (hk.symm.trans h) (by decide), ?_, r6 sib (by simp)⟩
        rw [if_pos hk]
        intro v hv
        rw [hns64 _ hid3, hns41 _ hid0 hid1 hid2, hns1, Function.update_same] at hv
        cases hv
        rw [← htop4]
        exact ⟨Resolved.ext_resolved hext46 inv6.mem c0 _ (r4 c0 (by simp))
            (fun i hi => hns64 i (d0 i hi).2.2),
          Resolved.ext_resolved hext46 inv6.mem c1 _ (r4 c1 (by simp))
            (fun i hi => hns64 i (d1 i hi).2),
          Resolved.ext_resolved hext46 inv6.mem c2 _ (r4 c2 (by simp))
            (fun i hi => hns64 i (d2 i hi))⟩
    · have hf : st.isFuncScopeCreated = false := by
        cases h : st.isFuncScopeCreated with
        | false => rfl
        | true => exact absurd (hflag h).1 hk
      rw [hf, traverse, postProcInsertNode_other info c0 c1 c2 sib hk]
      by_cases hkf : info.nodekind = .FunDeclK
      · refine Exec.Total.bind (insertNode_funDecl info c0 c1 c2 sib hinv hkf) ?_
        rintro _ s1 (⟨hs1, hinv1⟩ | ⟨hinv1, hext1, hf1, hb1, hns1, htail1, hlen1⟩)
        · exact traverse_rest_plain hnd hk T0 T1 T2 T3 hf hs1 hinv1
            (fun h => by rw [hkf] at h; cases h)
        · obtain ⟨q0, cs1⟩ := hfun hkf
          refine Exec.Total.bind (traverse_quiet c0 q0 s1 hinv1) ?_
          rintro _ s2 ⟨hs2, hinv2⟩
          have hc1 := ih1 sh1 nd1 s2 hinv2 (fun _ => ⟨cs1, by rw [hs2.stack]; exact hlen1⟩)
          rw [if_pos (hs2.flag.trans hf1), hs2.stack, htail1] at hc1
          refine Exec.Total.bind hc1 ?_
          intro _ s3 P1
          refine Exec.Total.bind (T2 s3 _ P1.1 P1.2.1 P1.2.2.2.1) ?_
          intro _ s4 P2
          have P12 := P1.snoc P2 (by simpa using fun i hi => (d1 i hi).1)
          rw [Exec.pure_bind]
          refine Exec.Total.mono (T3 s4 _ P2.1 P2.2.1 P2.2.2.2.1) ?_
          intro _ s5 P3
          have P := P12.snoc P3
            (by simpa using ⟨fun i hi => (d1 i hi).2, fun i hi => d2 i hi⟩)
          obtain ⟨inv5, f5, b5, k5, e5, n5, r5⟩ := P
          refine ⟨inv5, f5, b5.trans (hs2.fixed.trans hb1), k5,
            hext1.trans (hs2.ext.trans e5), ?_, ?_⟩
          · intro i hi
            have hi2 := hi _ (List.mem_singleton_self _)
            simp only [TreeNode.ids, List.mem_cons, List.mem_append, not_or] at hi2
            rw [n5 i (by simpa using ⟨hi2.2.1.1.2, hi2.2.1.2, hi2.2.2⟩), hs2.nodeScope, hns1]
          · intro t ht
            rw [List.mem_singleton.1 ht]
            unfold Resolved
            refine ⟨fun h => absurd (hkf.symm.trans h) (by decide), ?_, r5 sib (by simp)⟩
            rw [if_neg hk]
            exact ⟨Resolved.of_quiet _ _ c0 _ q0, r5 c1 (by simp), r5 c2 (by simp)⟩
      · refine Exec.Total.bind (insertNode_plain info c0 c1 c2 sib hinv hkf hk) ?_
        rintro _ s1 ⟨hs1, hinv1, hfound⟩
        exact traverse_rest_plain hnd hk T0 T1 T2 T3 hf hs1 hinv1 hfound

/-! ## The binder: the whole pass -/

/-- Registering the built-in functions keeps the invariant, and leaves the
stack as it was. -/
theorem push_built_in_functions_total {st : Analyzer} (hinv : BinderInv st) :
    Exec.Total push_built_in_functions st (fun _ s => BinderStep st s ∧ BinderInv s) := by
  have hs := BinderStep.step_refl st
  unfold push_built_in_functions
  refine Exec.Total.step hs (newTreeNode_total _ hinv) ?_
  intro n1 s1 hs1 hinv1
  refine Exec.Total.step hs1 (newTreeNode_total _ hinv1) ?_
  intro n2 s2 hs2 hinv2
  refine Exec.Total.bind (addLocation_total hinv2) ?_
  rintro loc3 s3 ⟨hloc3, hs3, hinv3⟩
  refine Exec.Total.bind (st_insert_total _ _ _ _ hinv3 hloc3) ?_
  rintro _ s4 ⟨hs4, hinv4, -⟩
  refine Exec.Total.step ((hs2.step_trans hs3).step_trans hs4) (newTreeNode_total _ hinv4) ?_
  intro n5 s5 hs5 hinv5
  refine Exec.Total.step hs5 (newTreeNode_total _ hinv5) ?_
  intro n6 s6 hs6 hinv6
  simp only []
  refine Exec.Total.bind (addLocation_total hinv6) ?_
  rintro loc7 s7 ⟨hloc7, hs7, hinv7⟩
  refine Exec.Total.bind (st_insert_total _ _ _ _ hinv7 hloc7) ?_
  rintro _ s8 ⟨hs8, hinv8, -⟩
  have hs08 := (hs6.step_trans hs7).step_trans hs8
  generalize hs9 : ({ s8 with
    scopeList := s8.scopeList ++ [⟨some "output", fun _ => [], get_top_scope s8⟩]
    location := 0 :: s8.location
    scopeStack := some s8.scopeList.length :: s8.scopeStack } : Analyzer) = s9
  have h9 : BinderInv s9 ∧ Ext s8.scopeList s9.scopeList := by
    subst hs9
    exact hinv8.push (some "output") rfl rfl rfl
  have hk9 : s9.scopeStack.tail = s8.scopeStack ∧ s9.fixed = s8.fixed ∧
      s9.isFuncScopeCreated = s8.isFuncScopeCreated ∧ s9.nodeScope = s8.nodeScope ∧
      2 ≤ s9.scopeStack.length := by
    subst hs9
    refine ⟨rfl, rfl, rfl, rfl, ?_⟩
    have := List.length_pos.2 hinv8.nonempty
    simp only [List.length_cons]
    omega
  obtain ⟨hinv9, hext9⟩ := h9
  obtain ⟨hk9, hx9, hf9, hn9, hl9⟩ := hk9
  refine Exec.Total.bind (P := fun a s => a = some s8.scopeList.length ∧ s.scopeList
      = s8.scopeList ++ [⟨some "output", fun _ => [], get_top_scope s8⟩] ∧
      push_scope (some s8.scopeList.length) s = .ok () s9) ⟨_, _, rfl, rfl, rfl, ?_⟩ ?_
  · subst hs9
    rfl
  rintro _ sc ⟨rfl, -, e9⟩
  refine Exec.Total.bind (P := fun _ s => s9 = s) ⟨(), s9, e9, rfl⟩ ?_
  rintro _ _ rfl
  refine Exec.Total.bind (addLocation_total hinv9) ?_
  rintro loc10 s10 ⟨hloc10, hs10, hinv10⟩
  refine Exec.Total.bind (st_insert_total _ _ _ _ hinv10 hloc10) ?_
  rintro _ s11 ⟨hs11, hinv11, -⟩
  have hs911 := hs10.step_trans hs11
  refine Exec.Total.mono (pop_scope_total hinv11 (by rw [hs911.stack]; exact hl9)) ?_
  rintro _ s12 ⟨hinv12, hsl12, hstk12, hx12, hf12, hn12⟩
  refine ⟨⟨?_, ?_, ?_, ?_, ?_⟩, hinv12⟩
  · rw [hsl12]
    exact hs08.ext.trans (hext9.trans hs911.ext)
  · rw [hstk12, hs911.stack, hk9, hs08.stack]
  · rw [hx12, hs911.fixed, hx9, hs08.fixed]
  · rw [hf12, hs911.flag, hf9, hs08.flag]
  · rw [hn12, hs911.nodeScope, hn9, hs08.nodeScope]

/-- From the state before analysis, with NULL stored below the scope
stack, the binder returns from a tree of the parser's shape; it leaves the
stack empty, and every variable reference of the tree resolves from the
scope the checker will have on top, the global scope being scope 0. -/
theorem buildSymtab_total (t : TreeNode) (n ln : Nat) (hsh : t.Shaped) (hnd : t.ids.Nodup) :
    Exec.Total (buildSymtab t) (Analyzer.init none n ln) (fun _ s =>
      s.globalScope = some 0 ∧ s.scopeStack = [] ∧
      Resolved s.scopeList s.nodeScope (some 0) t) := by
  generalize hs0 : ({ Analyzer.init none n ln with
    scopeList := [⟨some "global", fun _ => [], none⟩]
    globalScope := some 0
    location := [0]
    scopeStack := [some 0] } : Analyzer) = s0
  have hinv0 : BinderInv s0 := by
    subst hs0
    refine ⟨by simp, ?_, rfl, ?_, ?_⟩
    · intro p hp
      rw [List.mem_singleton.1 hp]
      have h0 : ([⟨some "global", fun _ => [], none⟩] : List ScopeListRec)[0]?
          = some ⟨some "global", fun _ => [], none⟩ := rfl
      exact ⟨0, [0], rfl, Chain.scope h0 Chain.null⟩
    · intro l hl
      rw [List.mem_singleton.1 hl]
    · intro j sc hj h x b hb
      cases j with
      | zero =>
        simp only [List.getElem?_cons_zero, Option.some.injEq] at hj
        subst hj
        simp [findBucket] at hb
      | succ j => simp at hj
  have hk0 : s0.scopeStack = [some 0] ∧ s0.globalScope = some 0 ∧
      s0.isFuncScopeCreated = false := by
    subst hs0
    exact ⟨rfl, rfl, rfl⟩
  obtain ⟨hstk0, hg0, hf0⟩ := hk0
  have e0 : buildSymtab t (Analyzer.init none n ln)
      = (push_built_in_functions >>= fun _ =>
          traverse insertNode postProcInsertNode t >>= fun _ => pop_scope) s0 := by
    subst hs0
    rfl
  unfold Exec.Total
  rw [e0]
  show Exec.Total _ s0 _
  refine Exec.Total.bind (push_built_in_functions_total hinv0) ?_
  rintro _ s1 ⟨hs1, hinv1⟩
  have hf1 : s1.isFuncScopeCreated = false := hs1.flag.trans hf0
  have hpost := traverse_insertNode t hsh hnd s1 hinv1 (fun h => by rw [hf1] at h; cases h)
  rw [hf1] at hpost
  refine Exec.Total.bind hpost ?_
  rintro _ s2 ⟨inv2, f2, b2, k2, e2, n2, r2⟩
  have hstk2 : s2.scopeStack = [some 0] := by
    rw [k2]
    exact hs1.stack.trans hstk0
  have htop2 : get_top_scope s2 = some 0 := by
    unfold get_top_scope
    rw [hstk2]
  have hg2 : s2.globalScope = some 0 :=
    (Analyzer.fixed_globalScope (b2.trans hs1.fixed)).trans hg0
  obtain ⟨loc, locs, hl, -⟩ := inv2.loc
  refine ⟨(), { s2 with scopeStack := [], location := locs }, by simp [pop_scope, hstk2, hl],
    hg2, rfl, ?_⟩
  rw [← htop2]
  exact r2 t (List.mem_singleton_self _)

theorem Exec.Partial.state {α : Type} {m : Exec α} {st : Analyzer} {R : Analyzer → Prop}
    {Q : α → Analyzer → Prop} (h : Exec.Partial m st R Q) : R (m st).state := by
  unfold Exec.Partial at h
  cases e : m st with
  | ok a st1 => rw [e] at h; exact h.1
  | crash st1 => rw [e] at h; exact h

/-- C11: on the tree of `int f(int a) { return a + 1; }` followed by
`void main(void) { f(5); }` the binder and then the checker return and print
nothing, and the type of the call node is Int afterwards; on the tree of
`void g(void) { return 1; }` the binder prints nothing and the checker
prints exactly one message, the invalid-return message with the line of the
return statement. -/
theorem typeCheck_call_and_void_return :
    ((buildSymtab exampleCallProgram (Analyzer.init none 100 0)).returned = true ∧
      (buildSymtab exampleCallProgram (Analyzer.init none 100 0)).state.listing = [] ∧
      (typeCheck exampleCallProgram
        (buildSymtab exampleCallProgram (Analyzer.init none 100 0)).state).returned = true ∧
      (typeCheck exampleCallProgram
        (buildSymtab exampleCallProgram (Analyzer.init none 100 0)).state).state.listing = [] ∧
      (typeCheck exampleCallProgram
        (buildSymtab exampleCallProgram (Analyzer.init none 100 0)).state).state.nodeType 11
          = some .Int) ∧
    ((buildSymtab exampleVoidReturn (Analyzer.init none 100 0)).returned = true ∧
      (buildSymtab exampleVoidReturn (Analyzer.init none 100 0)).state.listing = [] ∧
      (typeCheck exampleVoidReturn
        (buildSymtab exampleVoidReturn (Analyzer.init none 100 0)).state).returned = true ∧
      (typeCheck exampleVoidReturn
        (buildSymtab exampleVoidReturn (Analyzer.init none 100 0)).state).state.listing
          = [.invalidReturn 2]) := by
  decide!

/-! ## The checker at a call -/

/-- C13: the checker at a return statement, when the name of the current
function resolves to a declaration of type `T`. It returns and assigns no
type; it prints exactly one message, an invalid-return message, when `T` is
Void and an expression is present, or `T` is not Void and no expression is
present, or `T` is not Void and the type of the expression is not `T`; in
every other case it prints nothing. -/
theorem checkNode_return (info : NodeInfo) (c0 c1 c2 sib : TreeNode) (st : Analyzer)
    (fname : String) (i : Nat) (b : BucketListRec) (finfo : NodeInfo)
    (f0 f1 f2 f3 : TreeNode)
    (hk : info.nodekind = .RetStmtK) (hcur : st.curFuncName = some fname)
    (hl : st_lookup_return_bucket fname st = .ok (some (i, b)) st)
    (hb : b.treeNode = .node finfo f0 f1 f2 f3) :
    ∃ s, checkNode (.node info c0 c1 c2 sib) st = .ok () s ∧ s.nodeType = st.nodeType ∧
      s.listing = st.listing ++
        (if (st.fieldType finfo = .Void ∧ st.exprType c0 ≠ none) ∨
            (st.fieldType finfo ≠ .Void ∧ st.exprType c0 = none) ∨
            (st.fieldType finfo ≠ .Void ∧ st.exprType c0 ≠ none ∧
              st.exprType c0 ≠ some (st.fieldType finfo))
          then [.invalidReturn info.lineno] else []) := by
  generalize hs1 : ({ st with
    listing := st.listing ++ [.invalidReturn info.lineno]
    Error := true } : Analyzer) = s1
  have k1 : s1.nodeType = st.nodeType ∧
      s1.listing = st.listing ++ [.invalidReturn info.lineno] := by
    subst hs1; exact ⟨rfl, rfl⟩
  have hT : (st.nodeType finfo.id).getD finfo.type = st.fieldType finfo := rfl
  unfold checkNode
  simp only [nodeInfo, Exec.pure_bind, hk]
  simp only [Exec.bind_eq, Exec.get, hcur, Exec.deref, hl, hb, typeOf, nodeInfo, Exec.pure_eq,
    child0, hT]
  by_cases hv : st.fieldType finfo = .Void
  · cases c0 with
    | null =>
      refine ⟨st, ?_, rfl, ?_⟩
      · simp [hv, Exec.pure_eq]
      · simp [hv, Analyzer.exprType]
    | node ci a0 a1 a2 a3 =>
      refine ⟨s1, ?_, k1.1, ?_⟩
      · subst hs1
        simp [hv, invalidReturnError, report, nodeInfo, Exec.bind_eq, Exec.pure_eq,
          Exec.modify]
      · rw [k1.2]
        simp [hv, Analyzer.exprType]
  · cases c0 with
    | null =>
      refine ⟨s1, ?_, k1.1, ?_⟩
      · subst hs1
        simp [hv, invalidReturnError, report, nodeInfo, Exec.bind_eq, Exec.pure_eq,
          Exec.modify]
      · rw [k1.2]
        simp [hv, Analyzer.exprType]
    | node ci a0 a1 a2 a3 =>
      have hC : (st.nodeType ci.id).getD ci.type = st.fieldType ci := rfl
      by_cases he : st.fieldType ci = st.fieldType finfo
      · refine ⟨st, ?_, rfl, ?_⟩
        · simp [hv, hC, he, Exec.cond, Exec.pure_eq, Exec.bind_eq, nodeInfo, Exec.get]
        · simp [hv, Analyzer.exprType, he]
      · refine ⟨s1, ?_, k1.1, ?_⟩
        · subst hs1
          simp [hv, hC, he, Exec.cond, invalidReturnError, report, nodeInfo, Exec.bind_eq,
            Exec.pure_eq, Exec.modify, Exec.get]
        · rw [k1.2]
          simp [hv, Analyzer.exprType, he]

theorem checkNode_return_witness :
    exampleFunTable.curFuncName = some "f" ∧
    st_lookup_return_bucket "f" exampleFunTable
      = .ok (some (0, { name := "f", lines := [1], memloc := 0, treeNode := exampleFun }))
          exampleFunTable ∧
    (∃ s, checkNode (inner 4 .RetStmtK "" 3 .Undetermined (leaf 5 .ConstK "" 3 .Int) .null .null)
        exampleFunTable = .ok () s ∧ s.listing = []) ∧
    ∃ s, checkNode (leaf 4 .RetStmtK "" 3 .Undetermined) exampleFunTable = .ok () s ∧
      s.listing = [.invalidReturn 3] := by
  have hl : st_lookup_return_bucket "f" exampleFunTable
      = .ok (some (0, { name := "f", lines := [1], memloc := 0, treeNode := exampleFun }))
          exampleFunTable := by
    simp [st_lookup_return_bucket, lookupLoop, exampleFunTable, get_top_scope, Analyzer.init,
      findBucket]
  obtain ⟨s, e, -, h⟩ := checkNode_return
    { id := 4, nodekind := .RetStmtK, name := "", lineno := 3, type := .Undetermined,
      flag := false }
    (leaf 5 .ConstK "" 3 .Int) .null .null .null exampleFunTable "f" 0
    { name := "f", lines := [1], memloc := 0, treeNode := exampleFun }
    { id := 1, nodekind := .FunDeclK, name := "f", lineno := 1, type := .Int, flag := false }
    (leaf 2 .ParamK "a" 1 .Int) .null .null .null rfl rfl hl rfl
  obtain ⟨s2, e2, -, h2⟩ := checkNode_return
    { id := 4, nodekind := .RetStmtK, name := "", lineno := 3, type := .Undetermined,
      flag := false }
    .null .null .null .null exampleFunTable "f" 0
    { name := "f", lines := [1], memloc := 0, treeNode := exampleFun }
    { id := 1, nodekind := .FunDeclK, name := "f", lineno := 1, type := .Int, flag := false }
    (leaf 2 .ParamK "a" 1 .Int) .null .null .null rfl rfl hl rfl
  refine ⟨rfl, hl, ⟨s, e, ?_⟩, s2, e2, ?_⟩
  · rw [h]
    simp [Analyzer.fieldType, Analyzer.exprType, leaf, exampleFunTable, Analyzer.init]
  · rw [h2]
    simp [Analyzer.fieldType, Analyzer.exprType, exampleFunTable, Analyzer.init]

/-! ## The checker at an indexed variable -/

/-- C14: the checker at a variable reference with an index, when the name
resolves to a declaration. It returns and sets the type of the reference to
Int; after the void-type message, if the declared type calls for one, it
prints the message that indices should be integer exactly when the type of
the index is not Int, and the message that only int[] variables can be
indexed exactly when the declared type is not IntArray. On the tree of
`int a[10]; void main(void) { a[0]; }` binder and checker print nothing and
the reference has type Int; with the index `a` the checker prints the first
message only; with the declaration `int a;` it prints the second only. -/
theorem checkNode_indexed_variable :
    (∀ (info cinfo vinfo : NodeInfo) (c1 c2 sib i0 i1 i2 i3 v0 v1 v2 v3 : TreeNode)
        (st : Analyzer) (i : Nat) (b : BucketListRec),
      info.nodekind = .VarExpK →
      st_lookup_return_bucket info.name st = .ok (some (i, b)) st → b.memloc ≠ -1 →
      b.treeNode = .node vinfo v0 v1 v2 v3 →
      ∃ s, checkNode (.node info (.node cinfo i0 i1 i2 i3) c1 c2 sib) st = .ok () s ∧
        s.nodeType = Function.update st.nodeType info.id (some .Int) ∧
        s.listing = st.listing ++
          (if st.fieldType vinfo = .Void ∨ st.fieldType vinfo = .VoidArray
            then [.voidType info.lineno info.name] else []) ++
          (if st.fieldType cinfo ≠ .Int
            then [.invalidArrayIndexingInt info.lineno info.name] else []) ++
          (if st.fieldType vinfo ≠ .IntArray
            then [.invalidArrayIndexingNotArray info.lineno info.name] else [])) ∧
    ((buildSymtab (exampleIndexProgram (leaf 2 .ConstK "" 1 .Undetermined)
        (leaf 7 .ConstK "" 3 .Undetermined)) (Analyzer.init none 100 0)).state.listing = [] ∧
      (typeCheck (exampleIndexProgram (leaf 2 .ConstK "" 1 .Undetermined)
          (leaf 7 .ConstK "" 3 .Undetermined))
        (buildSymtab (exampleIndexProgram (leaf 2 .ConstK "" 1 .Undetermined)
          (leaf 7 .ConstK "" 3 .Undetermined)) (Analyzer.init none 100 0)).state).returned
        = true ∧
      (typeCheck (exampleIndexProgram (leaf 2 .ConstK "" 1 .Undetermined)
          (leaf 7 .ConstK "" 3 .Undetermined))
        (buildSymtab (exampleIndexProgram (leaf 2 .ConstK "" 1 .Undetermined)
          (leaf 7 .ConstK "" 3 .Undetermined)) (Analyzer.init none 100 0)).state).state.listing
        = [] ∧
      (typeCheck (exampleIndexProgram (leaf 2 .ConstK "" 1 .Undetermined)
          (leaf 7 .ConstK "" 3 .Undetermined))
        (buildSymtab (exampleIndexProgram (leaf 2 .ConstK "" 1 .Undetermined)
          (leaf 7 .ConstK "" 3 .Undetermined)) (Analyzer.init none 100 0)).state).state.nodeType 6
        = some .Int) ∧
    ((buildSymtab (exampleIndexProgram (leaf 2 .ConstK "" 1 .Undetermined)
        (leaf 7 .VarExpK "a" 3 .Undetermined)) (Analyzer.init none 100 0)).state.listing = [] ∧
      (typeCheck (exampleIndexProgram (leaf 2 .ConstK "" 1 .Undetermined)
          (leaf 7 .VarExpK "a" 3 .Undetermined))
        (buildSymtab (exampleIndexProgram (leaf 2 .ConstK "" 1 .Undetermined)
          (leaf 7 .VarExpK "a" 3 .Undetermined)) (Analyzer.init none 100 0)).state).state.listing
        = [.invalidArrayIndexingInt 3 "a"]) ∧
    ((buildSymtab (exampleIndexProgram .null (leaf 7 .ConstK "" 3 .Undetermined))
        (Analyzer.init none 100 0)).state.listing = [] ∧
      (typeCheck (exampleIndexProgram .null (leaf 7 .ConstK "" 3 .Undetermined))
        (buildSymtab (exampleIndexProgram .null (leaf 7 .ConstK "" 3 .Undetermined))
          (Analyzer.init none 100 0)).state).state.listing
        = [.invalidArrayIndexingNotArray 3 "a"]) := by
  refine ⟨?_, by decide!, by decide!, by decide!⟩
  intro info cinfo vinfo c1 c2 sib i0 i1 i2 i3 v0 v1 v2 v3 st i b hk hl hm hb
  have hV : (st.nodeType vinfo.id).getD vinfo.type = st.fieldType vinfo := rfl
  have hC : (st.nodeType cinfo.id).getD cinfo.type = st.fieldType cinfo := rfl
  unfold checkNode
  simp only [nodeInfo, Exec.pure_bind, hk]
  simp only [Exec.bind_eq, st_lookup, hl, Exec.pure_eq, Exec.cond, if_neg hm, Exec.deref, hb,
    typeOf, nodeInfo, Exec.get, hV, child0]
  by_cases h1 : st.fieldType vinfo = .Void ∨ st.fieldType vinfo = .VoidArray <;>
  by_cases h2 : st.fieldType cinfo = .Int <;>
  by_cases h3 : st.fieldType vinfo = .IntArray <;>
  simp [h1, h2, h3, hC, voidTypeError, invalidArrayIndexingIntError,
    invalidArrayIndexingNotArrayError, report, setType, nodeInfo, Exec.bind_eq, Exec.pure_eq,
    Exec.modify, Exec.get, Exec.cond]

theorem checkNode_indexed_variable_witness :
    st_lookup_return_bucket "a" exampleArrayTable
      = .ok (some (0, { name := "a", lines := [1], memloc := 0,
                        treeNode := leaf 1 .VarDeclK "a" 1 .Int })) exampleArrayTable ∧
    ∃ s, checkNode (inner 6 .VarExpK "a" 3 .Undetermined (leaf 7 .ConstK "" 3 .Int) .null .null)
        exampleArrayTable = .ok () s ∧
      s.nodeType 6 = some .Int ∧ s.listing = [] := by
  have hl : st_lookup_return_bucket "a" exampleArrayTable
      = .ok (some (0, { name := "a", lines := [1], memloc := 0,
                        treeNode := leaf 1 .VarDeclK "a" 1 .Int })) exampleArrayTable := by
    simp [st_lookup_return_bucket, lookupLoop, exampleArrayTable, get_top_scope,
      Analyzer.init, findBucket]
  obtain ⟨s, e, hn, h⟩ := checkNode_indexed_variable.1
    { id := 6, nodekind := .VarExpK, name := "a", lineno := 3, type := .Undetermined,
      flag := false }
    { id := 7, nodekind := .ConstK, name := "", lineno := 3, type := .Int, flag := false }
    { id := 1, nodekind := .VarDeclK, name := "a", lineno := 1, type := .Int, flag := false }
    .null .null .null .null .null .null .null .null .null .null .null exampleArrayTable 0
    { name := "a", lines := [1], memloc := 0, treeNode := leaf 1 .VarDeclK "a" 1 .Int }
    rfl hl (by decide) rfl
  refine ⟨hl, s, e, by rw [hn]; simp, ?_⟩
  rw [h]
  simp [Analyzer.fieldType, exampleArrayTable, Analyzer.init]

/-! ## The checker at an assignment and at a binary operation -/

/-- C15: the checker at an assignment returns. It prints exactly one
message, an invalid-assignment message, and assigns no type when an operand
is missing, or the type of an operand is Undetermined or Void, or the types
of the operands differ; otherwise it prints nothing and sets the type of the
assignment to the type of its operands. -/
theorem checkNode_assign (info : NodeInfo) (c0 c1 c2 sib : TreeNode) (st : Analyzer)
    (hk : info.nodekind = .AssignK) :
    ∃ s, checkNode (.node info c0 c1 c2 sib) st = .ok () s ∧
      s.listing = st.listing ++
        (if st.exprType c0 = none ∨ st.exprType c1 = none ∨
            st.exprType c0 = some .Undetermined ∨ st.exprType c1 = some .Undetermined ∨
            st.exprType c0 = some .Void ∨ st.exprType c1 = some .Void ∨
            st.exprType c0 ≠ st.exprType c1
          then [.invalidAssignment info.lineno] else []) ∧
      s.nodeType =
        (if st.exprType c0 = none ∨ st.exprType c1 = none ∨
            st.exprType c0 = some .Undetermined ∨ st.exprType c1 = some .Undetermined ∨
            st.exprType c0 = some .Void ∨ st.exprType c1 = some .Void ∨
            st.exprType c0 ≠ st.exprType c1
          then st.nodeType else Function.update st.nodeType info.id (st.exprType c0)) := by
  unfold checkNode
  simp only [nodeInfo, Exec.pure_bind, hk]
  cases c0 with
  | null =>
    simp [child0, child1, Exec.bind_eq, Exec.pure_eq, invalidAssignmentError, report, nodeInfo,
      Exec.modify, Analyzer.exprType]
  | node i0 a0 a1 a2 a3 =>
    cases c1 with
    | null =>
      simp [child0, child1, Exec.bind_eq, Exec.pure_eq, invalidAssignmentError, report,
        nodeInfo, Exec.modify, Analyzer.exprType]
    | node i1 b0 b1 b2 b3 =>
      have h0 : (st.nodeType i0.id).getD i0.type = st.fieldType i0 := rfl
      have h1 : (st.nodeType i1.id).getD i1.type = st.fieldType i1 := rfl
      simp only [child0, child1, Exec.bind_eq, Exec.pure_eq, typeOf, nodeInfo, Exec.get, h0, h1,
        Analyzer.exprType]
      by_cases hu : st.fieldType i0 = .Undetermined ∨ st.fieldType i1 = .Undetermined
      · rcases hu with hu | hu <;>
        simp [hu, invalidAssignmentError, report, nodeInfo, Exec.modify, Exec.bind_eq,
          Exec.pure_eq, Exec.get, h0, h1]
      · by_cases hv : st.fieldType i0 = .Void ∨ st.fieldType i1 = .Void
        · rcases hv with hv | hv <;>
          simp [hu, hv, invalidAssignmentError, report, nodeInfo, Exec.modify, Exec.bind_eq,
            Exec.pure_eq, Exec.get, h0, h1]
        · by_cases he : st.fieldType i0 = st.fieldType i1
          · have hu0 : st.fieldType i1 ≠ .Undetermined := fun h => hu (Or.inr h)
            have hv0 : st.fieldType i1 ≠ .Void := fun h => hv (Or.inr h)
            simp [he, hu0, hv0, setType, nodeInfo, Exec.modify, Exec.bind_eq, Exec.pure_eq,
              Exec.get, h0, h1]
          · simp [hu, hv, he, invalidAssignmentError, report, nodeInfo, Exec.modify,
              Exec.bind_eq, Exec.pure_eq, Exec.get, h0, h1]

theorem checkNode_assign_witness :
    (∃ s, checkNode (inner 20 .AssignK "" 4 .Undetermined (leaf 21 .VarExpK "x" 4 .Int)
        (leaf 22 .ConstK "" 4 .Int) .null) (Analyzer.init none 100 0) = .ok () s ∧
      s.listing = [] ∧ s.nodeType 20 = some .Int) ∧
    ∃ s, checkNode (inner 20 .AssignK "" 4 .Undetermined (leaf 21 .VarExpK "x" 4 .Int)
        (leaf 22 .ConstK "" 4 .Void) .null) (Analyzer.init none 100 0) = .ok () s ∧
      s.listing = [.invalidAssignment 4] ∧ s.nodeType 20 = none := by
  obtain ⟨s, e, h1, h2⟩ := checkNode_assign
    { id := 20, nodekind := .AssignK, name := "", lineno := 4, type := .Undetermined,
      flag := false }
    (leaf 21 .VarExpK "x" 4 .Int) (leaf 22 .ConstK "" 4 .Int) .null .null
    (Analyzer.init none 100 0) rfl
  obtain ⟨s2, e2, h3, h4⟩ := checkNode_assign
    { id := 20, nodekind := .AssignK, name := "", lineno := 4, type := .Undetermined,
      flag := false }
    (leaf 21 .VarExpK "x" 4 .Int) (leaf 22 .ConstK "" 4 .Void) .null .null
    (Analyzer.init none 100 0) rfl
  refine ⟨⟨s, e, ?_, ?_⟩, s2, e2, ?_, ?_⟩
  · rw [h1]
    simp [Analyzer.exprType, Analyzer.fieldType, leaf, Analyzer.init]
  · rw [h2]
    simp [Analyzer.exprType, Analyzer.fieldType, leaf, Analyzer.init]
  · rw [h3]
    simp [Analyzer.exprType, Analyzer.fieldType, leaf, Analyzer.init]
  · rw [h4]
    simp [Analyzer.exprType, Analyzer.fieldType, leaf, Analyzer.init]

/-- C16: the checker at a binary operation returns. With both operands
present and of type Int it prints nothing and sets the type of the node to
Int; otherwise it prints exactly one message, an invalid-operation message.
With both operands present, not both of type Int, it sets the type of the
node to Undetermined; with an operand missing it assigns no type, so the
node keeps the type it had, which need not be Undetermined. -/
theorem checkNode_op (info : NodeInfo) (c0 c1 c2 sib : TreeNode) (st : Analyzer)
    (hk : info.nodekind = .OpK) :
    ∃ s, checkNode (.node info c0 c1 c2 sib) st = .ok () s ∧
      s.listing = st.listing ++
        (if st.exprType c0 = some .Int ∧ st.exprType c1 = some .Int then []
          else [.invalidOperation info.lineno]) ∧
      s.nodeType =
        (if st.exprType c0 = some .Int ∧ st.exprType c1 = some .Int then
          Function.update st.nodeType info.id (some .Int)
        else if st.exprType c0 ≠ none ∧ st.exprType c1 ≠ none then
          Function.update st.nodeType info.id (some .Undetermined)
        else st.nodeType) ∧
      (st.exprType c0 = none ∨ st.exprType c1 = none → s.fieldType info = st.fieldType info) := by
  unfold checkNode
  simp only [nodeInfo, Exec.pure_bind, hk]
  cases c0 with
  | null =>
    simp [child0, child1, Exec.bind_eq, Exec.pure_eq, invalidOperationError, report, nodeInfo,
      Exec.modify, Analyzer.exprType, Analyzer.fieldType]
  | node i0 a0 a1 a2 a3 =>
    cases c1 with
    | null =>
      simp [child0, child1, Exec.bind_eq, Exec.pure_eq, invalidOperationError, report,
        nodeInfo, Exec.modify, Analyzer.exprType, Analyzer.fieldType]
    | node i1 b0 b1 b2 b3 =>
      have h0 : (st.nodeType i0.id).getD i0.type = st.fieldType i0 := rfl
      have h1 : (st.nodeType i1.id).getD i1.type = st.fieldType i1 := rfl
      by_cases hi : st.fieldType i0 = .Int ∧ st.fieldType i1 = .Int
      · simp [child0, child1, Exec.bind_eq, Exec.pure_eq, typeOf, nodeInfo, Exec.get, h0, h1,
          Analyzer.exprType, hi, setType, Exec.modify]
      · have hi2 : ¬ st.fieldType i0 = .Int ∨ ¬ st.fieldType i1 = .Int := by
          by_cases h : st.fieldType i0 = .Int
          · exact Or.inr fun h2 => hi ⟨h, h2⟩
          · exact Or.inl h
        simp [child0, child1, Exec.bind_eq, Exec.pure_eq, typeOf, nodeInfo, Exec.get, h0, h1,
          Analyzer.exprType, hi, hi2, setType, Exec.modify, invalidOperationError, report]

theorem checkNode_op_witness :
    ∃ s, checkNode (inner 30 .OpK "" 5 .Int .null (leaf 32 .ConstK "" 5 .Int) .null)
        (Analyzer.init none 100 0) = .ok () s ∧
      s.listing = [.invalidOperation 5] ∧
      s.fieldType { id := 30, nodekind := .OpK, name := "", lineno := 5, type := .Int,
                    flag := false } = .Int := by
  obtain ⟨s, e, h1, -, h3⟩ := checkNode_op
    { id := 30, nodekind := .OpK, name := "", lineno := 5, type := .Int, flag := false }
    .null (leaf 32 .ConstK "" 5 .Int) .null .null (Analyzer.init none 100 0) rfl
  refine ⟨s, e, ?_, ?_⟩
  · rw [h1]
    simp [Analyzer.exprType, Analyzer.init]
  · rw [h3 (Or.inl rfl)]
    rfl

/-! ## Calls of the built-in functions -/

/-- C19 (defect of the code): at a call whose name resolves to a declaration
without first child, as the declaration `int x;` of a variable is, the
checker reads the field `type` through the NULL parameter pointer and does
not return. On the tree of `int x; void main(void) { x(1); }` the binder
returns and prints nothing, and the checker does not return and prints
nothing. -/
theorem typeCheck_call_of_variable :
    (∀ (info finfo : NodeInfo) (c0 c1 c2 sib f1 f2 f3 : TreeNode) (st : Analyzer) (i : Nat)
        (b : BucketListRec),
      info.nodekind = .CallK →
      st_lookup_return_bucket info.name st = .ok (some (i, b)) st →
      b.treeNode = .node finfo .null f1 f2 f3 →
      checkNode (.node info c0 c1 c2 sib) st = .crash st) ∧
    ((buildSymtab exampleCallVariable (Analyzer.init none 100 0)).returned = true ∧
      (buildSymtab exampleCallVariable (Analyzer.init none 100 0)).state.listing = [] ∧
      (typeCheck exampleCallVariable
        (buildSymtab exampleCallVariable (Analyzer.init none 100 0)).state).returned = false ∧
      (typeCheck exampleCallVariable
        (buildSymtab exampleCallVariable (Analyzer.init none 100 0)).state).state.listing
        = []) := by
  refine ⟨?_, by decide!⟩
  intro info finfo c0 c1 c2 sib f1 f2 f3 st i b hk hl hb
  unfold checkNode
  simp only [nodeInfo, Exec.pure_bind, hk]
  simp [Exec.bind_eq, hl, Exec.deref, hb, child0, Exec.pure_eq, typeOf, nodeInfo, Exec.crash]

theorem typeCheck_call_of_variable_witness :
    st_lookup_return_bucket "a" exampleArrayTable
      = .ok (some (0, { name := "a", lines := [1], memloc := 0,
                        treeNode := leaf 1 .VarDeclK "a" 1 .Int })) exampleArrayTable ∧
    checkNode (inner 5 .CallK "a" 3 .Undetermined (leaf 6 .ConstK "" 3 .Int) .null .null)
      exampleArrayTable = .crash exampleArrayTable := by
  have hl : st_lookup_return_bucket "a" exampleArrayTable
      = .ok (some (0, { name := "a", lines := [1], memloc := 0,
                        treeNode := leaf 1 .VarDeclK "a" 1 .Int })) exampleArrayTable := by
    simp [st_lookup_return_bucket, lookupLoop, exampleArrayTable, get_top_scope,
      Analyzer.init, findBucket]
  exact ⟨hl, typeCheck_call_of_variable.1
    { id := 5, nodekind := .CallK, name := "a", lineno := 3, type := .Undetermined,
      flag := false }
    { id := 1, nodekind := .VarDeclK, name := "a", lineno := 1, type := .Int, flag := false }
    (leaf 6 .ConstK "" 3 .Int) .null .null .null .null .null .null exampleArrayTable 0
    { name := "a", lines := [1], memloc := 0, treeNode := leaf 1 .VarDeclK "a" 1 .Int }
    rfl hl rfl⟩

/-! ## The scope stack is balanced -/

theorem Exec.guarded_eq {P : Analyzer → Prop} [DecidablePred P] (f : TreeNode → Exec Unit)
    (t : TreeNode) {st : Analyzer} (h : P st) : Exec.guarded P f t st = f t st := by
  unfold Exec.guarded
  rw [if_pos h]

theorem Exec.bind_congr_ok {α β : Type} {m1 m2 : Exec α} {f1 f2 : α → Exec β}
    {st s : Analyzer} {a : α} (h1 : m1 st = .ok a s) (h2 : m2 st = .ok a s)
    (h : f1 a s = f2 a s) : (m1 >>= f1) st = (m2 >>= f2) st := by
  rw [Exec.bind_eq, Exec.bind_eq, h1, h2]
  exact h

theorem getLast?_tail_eq {α : Type} (l : List α) (h : 2 ≤ l.length) :
    l.tail.getLast? = l.getLast? := by
  cases l with
  | nil => simp at h
  | cons a l =>
    cases l with
    | nil => simp at h
    | cons b l => simp [List.getLast?_cons_cons]

theorem BaseIs.of_stack {g : Option Nat} {st s : Analyzer} (hb : BaseIs g st)
    (h : s.scopeStack = st.scopeStack) : BaseIs g s := by
  unfold BaseIs at hb ⊢
  rw [h]
  exact hb

theorem BaseIs.of_push {g : Option Nat} {st s : Analyzer} (hb : BaseIs g st)
    (h : s.scopeStack.tail = st.scopeStack) (hl : 2 ≤ s.scopeStack.length) : BaseIs g s := by
  unfold BaseIs at hb ⊢
  rw [← getLast?_tail_eq _ hl, h]
  exact hb

theorem BaseIs.of_pop {g : Option Nat} {st s : Analyzer} (hb : BaseIs g st)
    (h : s.scopeStack = st.scopeStack.tail) (hl : 2 ≤ st.scopeStack.length) : BaseIs g s := by
  unfold BaseIs at hb ⊢
  rw [h, getLast?_tail_eq _ hl]
  exact hb

/-- On a tree without function declaration, compound statement and
variable reference, every call of `insertNode` and `postProcInsertNode`
finds the base of the stack in place. -/
theorem traverse_quiet_guarded (g : Option Nat) :
    ∀ (t : TreeNode), t.Quiet → ∀ (st : Analyzer), BinderInv st → BaseIs g st →
      traverse (Exec.guarded (BaseIs g) insertNode)
        (Exec.guarded (BaseIs g) postProcInsertNode) t st
      = traverse insertNode postProcInsertNode t st := by
  intro t
  induction t with
  | null => intro _ st _ _; rfl
  | node info c0 c1 c2 sib ih0 ih1 ih2 ih3 =>
    intro hq st hinv hb
    have hq2 := hq
    unfold TreeNode.Quiet at hq2
    obtain ⟨hk1, hk2, -, q0, q1, q2, q3⟩ := hq2
    rw [traverse, traverse]
    obtain ⟨_, s1, e1, hs1, hinv1, -⟩ := insertNode_plain info c0 c1 c2 sib hinv hk1 hk2
    have hb1 := hb.of_stack hs1.stack
    refine Exec.bind_congr_ok ((Exec.guarded_eq _ _ hb).trans e1) e1 ?_
    obtain ⟨_, s2, e2, hs2, hinv2⟩ := traverse_quiet c0 q0 s1 hinv1
    have hb2 := hb1.of_stack hs2.stack
    refine Exec.bind_congr_ok ((ih0 q0 s1 hinv1 hb1).trans e2) e2 ?_
    obtain ⟨_, s3, e3, hs3, hinv3⟩ := traverse_quiet c1 q1 s2 hinv2
    have hb3 := hb2.of_stack hs3.stack
    refine Exec.bind_congr_ok ((ih1 q1 s2 hinv2 hb2).trans e3) e3 ?_
    obtain ⟨_, s4, e4, hs4, hinv4⟩ := traverse_quiet c2 q2 s3 hinv3
    have hb4 := hb3.of_stack hs4.stack
    refine Exec.bind_congr_ok ((ih2 q2 s3 hinv3 hb3).trans e4) e4 ?_
    have e5 : postProcInsertNode (.node info c0 c1 c2 sib) s4 = .ok () s4 := by
      rw [postProcInsertNode_other info c0 c1 c2 sib hk2]
      rfl
    refine Exec.bind_congr_ok ((Exec.guarded_eq _ _ hb4).trans e5) e5 ?_
    exact ih3 q3 s4 hinv4 hb4

/-- On a tree of the parser's shape every call of `insertNode` and
`postProcInsertNode` finds the base of the stack in place. -/
theorem traverse_insertNode_guarded (g : Option Nat) :
    ∀ (t : TreeNode), t.Shaped → t.ids.Nodup → ∀ (st : Analyzer), BinderInv st →
      (st.isFuncScopeCreated = true → t.IsCompStmt ∧ 2 ≤ st.scopeStack.length) →
      BaseIs g st →
      traverse (Exec.guarded (BaseIs g) insertNode)
        (Exec.guarded (BaseIs g) postProcInsertNode) t st
      = traverse insertNode postProcInsertNode t st := by
  intro t
  induction t with
  | null => intro _ _ st _ _ _; rfl
  | node info c0 c1 c2 sib ih0 ih1 ih2 ih3 =>
    intro hsh hnd st hinv hflag hb
    have hsh2 := hsh
    unfold TreeNode.Shaped at hsh2
    obtain ⟨hfun, sh0, sh1, sh2, sh3⟩ := hsh2
    obtain ⟨nd0, nd1, nd2, nd3, -, -, -, -⟩ := TreeNode.ids_nodup hnd
    have T0 : BinderTraverses c0 := BinderTraverses.of (traverse_insertNode c0 sh0 nd0)
    have T1 : BinderTraverses c1 := BinderTraverses.of (traverse_insertNode c1 sh1 nd1)
    have T2 : BinderTraverses c2 := BinderTraverses.of (traverse_insertNode c2 sh2 nd2)
    have noflag : ∀ {s : Analyzer} {c : TreeNode}, s.isFuncScopeCreated = false →
        s.isFuncScopeCreated = true → c.IsCompStmt ∧ 2 ≤ s.scopeStack.length :=
      fun h1 h2 => by rw [h1] at h2; cases h2
    rw [traverse, traverse]
    by_cases hk : info.nodekind = .CompStmtK
    · obtain ⟨_, s1, e1, hinv1, -, hf1, -, -, htail1, hlen1⟩ :=
        insertNode_compStmt info c0 c1 c2 sib hinv hk (fun h => (hflag h).2)
      have hb1 : BaseIs g s1 := by
        by_cases hf : st.isFuncScopeCreated = true
        · rw [if_pos hf] at htail1
          unfold BaseIs at hb ⊢
          rw [← getLast?_tail_eq _ hlen1, htail1, getLast?_tail_eq _ (hflag hf).2]
          exact hb
        · rw [if_neg hf] at htail1
          exact hb.of_push htail1 hlen1
      refine Exec.bind_congr_ok ((Exec.guarded_eq _ _ hb).trans e1) e1 ?_
      obtain ⟨_, s2, e2, P0⟩ := T0 s1 _ hinv1 hf1 rfl
      have hb2 := hb1.of_stack P0.2.2.2.1
      refine Exec.bind_congr_ok
        ((ih0 sh0 nd0 s1 hinv1 (noflag hf1) hb1).trans e2) e2 ?_
      obtain ⟨_, s3, e3, P1⟩ := T1 s2 _ P0.1 P0.2.1 P0.2.2.2.1
      have hb3 := hb1.of_stack P1.2.2.2.1
      refine Exec.bind_congr_ok
        ((ih1 sh1 nd1 s2 P0.1 (noflag P0.2.1) hb2).trans e3) e3 ?_
      obtain ⟨_, s4, e4, P2⟩ := T2 s3 _ P1.1 P1.2.1 P1.2.2.2.1
      have hb4 := hb1.of_stack P2.2.2.2.1
      refine Exec.bind_congr_ok
        ((ih2 sh2 nd2 s3 P1.1 (noflag P1.2.1) hb3).trans e4) e4 ?_
      have hlen4 : 2 ≤ s4.scopeStack.length := by rw [P2.2.2.2.1]; exact hlen1
      obtain ⟨_, s5, e5, hinv5, -, hstk5, -, hf5, -⟩ := pop_scope_total P2.1 hlen4
      have e5b : postProcInsertNode (.node info c0 c1 c2 sib) s4 = .ok () s5 := by
        rw [postProcInsertNode_comp info c0 c1 c2 sib hk]
        exact e5
      have hb5 : BaseIs g s5 := hb4.of_pop hstk5 hlen4
      refine Exec.bind_congr_ok ((Exec.guarded_eq _ _ hb4).trans e5b) e5b ?_
      exact ih3 sh3 nd3 s5 hinv5 (noflag (hf5.trans P2.2.1)) hb5
    · have hf : st.isFuncScopeCreated = false := by
        cases h : st.isFuncScopeCreated with
        | false => rfl
        | true => exact absurd (hflag h).1 hk
      have rest : ∀ (s1 : Analyzer), BinderInv s1 → s1.isFuncScopeCreated = false →
          BaseIs g s1 →
          (traverse (Exec.guarded (BaseIs g) insertNode)
              (Exec.guarded (BaseIs g) postProcInsertNode) c0 >>= fun _ =>
            traverse (Exec.guarded (BaseIs g) insertNode)
              (Exec.guarded (BaseIs g) postProcInsertNode) c1 >>= fun _ =>
            traverse (Exec.guarded (BaseIs g) insertNode)
              (Exec.guarded (BaseIs g) postProcInsertNode) c2 >>= fun _ =>
            Exec.guarded (BaseIs g) postProcInsertNode (.node info c0 c1 c2 sib) >>= fun _ =>
            traverse (Exec.guarded (BaseIs g) insertNode)
              (Exec.guarded (BaseIs g) postProcInsertNode) sib) s1
          = (traverse insertNode postProcInsertNode c0 >>= fun _ =>
            traverse insertNode postProcInsertNode c1 >>= fun _ =>
            traverse insertNode postProcInsertNode c2 >>= fun _ =>
            postProcInsertNode (.node info c0 c1 c2 sib) >>= fun _ =>
            traverse insertNode postProcInsertNode sib) s1 := by
        intro s1 hinv1 hf1 hb1
        obtain ⟨_, s2, e2, P0⟩ := T0 s1 _ hinv1 hf1 rfl
        have hb2 := hb1.of_stack P0.2.2.2.1
        refine Exec.bind_congr_ok
          ((ih0 sh0 nd0 s1 hinv1 (noflag hf1) hb1).trans e2) e2 ?_
        obtain ⟨_, s3, e3, P1⟩ := T1 s2 _ P0.1 P0.2.1 P0.2.2.2.1
        have hb3 := hb1.of_stack P1.2.2.2.1
        refine Exec.bind_congr_ok
          ((ih1 sh1 nd1 s2 P0.1 (noflag P0.2.1) hb2).trans e3) e3 ?_
        obtain ⟨_, s4, e4, P2⟩ := T2 s3 _ P1.1 P1.2.1 P1.2.2.2.1
        have hb4 := hb1.of_stack P2.2.2.2.1
        refine Exec.bind_congr_ok
          ((ih2 sh2 nd2 s3 P1.1 (noflag P1.2.1) hb3).trans e4) e4 ?_
        have e5 : postProcInsertNode (.node info c0 c1 c2 sib) s4 = .ok () s4 := by
          rw [postProcInsertNode_other info c0 c1 c2 sib hk]
          rfl
        refine Exec.bind_congr_ok ((Exec.guarded_eq _ _ hb4).trans e5) e5 ?_
        exact ih3 sh3 nd3 s4 P2.1 (noflag P2.2.1) hb4
      by_cases hkf : info.nodekind = .FunDeclK
      · obtain ⟨_, s1, e1, h1⟩ := insertNode_funDecl info c0 c1 c2 sib hinv hkf
        refine Exec.bind_congr_ok ((Exec.guarded_eq _ _ hb).trans e1) e1 ?_
        rcases h1 with ⟨hs1, hinv1⟩ | ⟨hinv1, -, hf1, -, -, htail1, hlen1⟩
        · exact rest s1 hinv1 (hs1.flag.trans hf) (hb.of_stack hs1.stack)
        · obtain ⟨q0, cs1⟩ := hfun hkf
          have hb1 : BaseIs g s1 := hb.of_push htail1 hlen1
          obtain ⟨_, s2, e2, hs2, hinv2⟩ := traverse_quiet c0 q0 s1 hinv1
          have hb2 := hb1.of_stack hs2.stack
          refine Exec.bind_congr_ok
            ((traverse_quiet_guarded g c0 q0 s1 hinv1 hb1).trans e2) e2 ?_
          have hlen2 : 2 ≤ s2.scopeStack.length := by rw [hs2.stack]; exact hlen1
          have hpre2 : s2.isFuncScopeCreated = true → c1.IsCompStmt ∧
              2 ≤ s2.scopeStack.length := fun _ => ⟨cs1, hlen2⟩
          obtain ⟨_, s3, e3, P1⟩ := traverse_insertNode c1 sh1 nd1 s2 hinv2 hpre2
          rw [if_pos (hs2.flag.trans hf1)] at P1
          have hb3 : BaseIs g s3 := hb2.of_pop P1.2.2.2.1 hlen2
          refine Exec.bind_congr_ok ((ih1 sh1 nd1 s2 hinv2 hpre2 hb2).trans e3) e3 ?_
          obtain ⟨_, s4, e4, P2⟩ := T2 s3 _ P1.1 P1.2.1 rfl
          have hb4 := hb3.of_stack P2.2.2.2.1
          refine Exec.bind_congr_ok
            ((ih2 sh2 nd2 s3 P1.1 (noflag P1.2.1) hb3).trans e4) e4 ?_
          have e5 : postProcInsertNode (.node info c0 c1 c2 sib) s4 = .ok () s4 := by
            rw [postProcInsertNode_other info c0 c1 c2 sib hk]
            rfl
          refine Exec.bind_congr_ok ((Exec.guarded_eq _ _ hb4).trans e5) e5 ?_
          exact ih3 sh3 nd3 s4 P2.1 (noflag P2.2.1) hb4
      · obtain ⟨_, s1, e1, hs1, hinv1, -⟩ := insertNode_plain info c0 c1 c2 sib hinv hkf hk
        refine Exec.bind_congr_ok ((Exec.guarded_eq _ _ hb).trans e1) e1 ?_
        exact rest s1 hinv1 (hs1.flag.trans hf) (hb.of_stack hs1.stack)

theorem BaseIs.nonempty {g : Option Nat} {st : Analyzer} (hb : BaseIs g st) :
    st.scopeStack ≠ [] := by
  intro h
  unfold BaseIs at hb
  rw [h] at hb
  cases hb

theorem Exec.Triple.bindT {α β : Type} {P : Analyzer → Prop} {m : Exec α}
    {Q : α → Analyzer → Prop} {f : α → Exec β} {R : β → Analyzer → Prop}
    (h1 : Exec.Triple P m Q) (h2 : ∀ a, Exec.Triple (Q a) (f a) R) :
    Exec.Triple P (m >>= f) R := by
  intro st hP b s e
  rw [Exec.bind_eq] at e
  cases e1 : m st with
  | crash s1 => rw [e1] at e; cases e
  | ok a s1 =>
    rw [e1] at e
    exact h2 a s1 (h1 st hP a s1 e1) b s e

theorem Exec.Triple.pureT {α : Type} {P : Analyzer → Prop} {Q : α → Analyzer → Prop}
    {a : α} (h : ∀ st, P st → Q a st) : Exec.Triple P (pure a) Q := by
  intro st hP b s e
  cases e
  exact h st hP

theorem Exec.Triple.weaken {α : Type} {P P2 : Analyzer → Prop} {m : Exec α}
    {Q Q2 : α → Analyzer → Prop} (h : Exec.Triple P2 m Q2) (hp : ∀ st, P st → P2 st)
    (hq : ∀ a s, Q2 a s → Q a s) : Exec.Triple P m Q :=
  fun st hP a s e => hq a s (h st (hp st hP) a s e)

theorem Exec.Triple.condT {c : Prop} [Decidable c] {P : Analyzer → Prop} {m : Exec Unit}
    (h : Exec.Triple P m (fun _ => P)) : Exec.Triple P (Exec.cond c m) (fun _ => P) := by
  unfold Exec.cond
  split
  · exact h
  · exact Exec.Triple.pureT fun _ hP => hP

theorem Exec.Same.pureS {α : Type} (a : α) : Exec.Same (pure a : Exec α) := by
  intro st b s e
  cases e
  exact ⟨rfl, rfl, rfl⟩

theorem Exec.Same.bindS {α β : Type} {m : Exec α} {f : α → Exec β}
    (h1 : Exec.Same m) (h2 : ∀ a, Exec.Same (f a)) : Exec.Same (m >>= f) := by
  intro st b s e
  rw [Exec.bind_eq] at e
  cases e1 : m st with
  | crash s1 => rw [e1] at e; cases e
  | ok a s1 =>
    rw [e1] at e
    obtain ⟨a1, a2, a3⟩ := h1 st a s1 e1
    obtain ⟨b1, b2, b3⟩ := h2 a s1 b s e
    exact ⟨b1.trans a1, b2.trans a2, b3.trans a3⟩

theorem Exec.Same.condS {c : Prop} [Decidable c] {m : Exec Unit} (h : Exec.Same m) :
    Exec.Same (Exec.cond c m) := by
  unfold Exec.cond
  split
  · exact h
  · exact Exec.Same.pureS ()

theorem Exec.Same.nodeInfoS (t : TreeNode) : Exec.Same (nodeInfo t) := by
  intro st a s e
  cases t with
  | null => cases e
  | node info c0 c1 c2 sib => cases e; exact ⟨rfl, rfl, rfl⟩

theorem Exec.Same.child0S (t : TreeNode) : Exec.Same (child0 t) := by
  intro st a s e
  cases t with
  | null => cases e
  | node info c0 c1 c2 sib => cases e; exact ⟨rfl, rfl, rfl⟩

theorem Exec.Same.getS : Exec.Same Exec.get := by
  intro st a s e
  cases e
  exact ⟨rfl, rfl, rfl⟩

theorem Exec.Same.derefS {α : Type} (p : Option α) : Exec.Same (Exec.deref p) := by
  intro st a s e
  cases p with
  | none => cases e
  | some x => cases e; exact ⟨rfl, rfl, rfl⟩

theorem Exec.Same.modifyS {f : Analyzer → Analyzer}
    (h : ∀ st, (f st).scopeList = st.scopeList ∧ (f st).scopeStack = st.scopeStack ∧
      (f st).location = st.location) : Exec.Same (Exec.modify f) := by
  intro st a s e
  cases e
  exact h st

theorem Exec.Same.reportS (d : Diag) : Exec.Same (report d) :=
  Exec.Same.modifyS fun _ => ⟨rfl, rfl, rfl⟩

theorem Exec.Same.typeOfS (t : TreeNode) : Exec.Same (typeOf t) :=
  Exec.Same.bindS (Exec.Same.nodeInfoS t) fun _ =>
    Exec.Same.bindS Exec.Same.getS fun _ => Exec.Same.pureS _

theorem Exec.Same.setTypeS (t : TreeNode) (ty : NodeType) : Exec.Same (setType t ty) :=
  Exec.Same.bindS (Exec.Same.nodeInfoS t) fun _ => Exec.Same.modifyS fun _ => ⟨rfl, rfl, rfl⟩

theorem Exec.Same.voidTypeErrorS (t : TreeNode) : Exec.Same (voidTypeError t) :=
  Exec.Same.bindS (Exec.Same.nodeInfoS t) fun _ => Exec.Same.reportS _

theorem Exec.Same.undeclaredFunctionErrorS (t : TreeNode) :
    Exec.Same (undeclaredFunctionError t) :=
  Exec.Same.bindS (Exec.Same.nodeInfoS t) fun _ => Exec.Same.reportS _

theorem Exec.Same.undeclaredVariableErrorS (t : TreeNode) :
    Exec.Same (undeclaredVariableError t) :=
  Exec.Same.bindS (Exec.Same.nodeInfoS t) fun _ => Exec.Same.reportS _

theorem Exec.Same.redefinedSymbolErrorS (t : TreeNode) (l : Option (Nat × BucketListRec)) :
    Exec.Same (redefinedSymbolError t l) :=
  Exec.Same.bindS (Exec.Same.nodeInfoS t) fun _ =>
    Exec.Same.bindS (Exec.Same.derefS l) fun _ => Exec.Same.reportS _

theorem Exec.Same.newTreeNodeS (k : NodeKind) : Exec.Same (newTreeNode k) := by
  intro st a s e
  cases e
  exact ⟨rfl, rfl, rfl⟩

theorem Exec.Same.st_lookup_return_bucketS (name : String) :
    Exec.Same (st_lookup_return_bucket name) := by
  intro st a s e
  unfold st_lookup_return_bucket at e
  split at e
  · cases e
  · cases e; exact ⟨rfl, rfl, rfl⟩

/-- A run that leaves registry, stack and counters keeps whatever depends
on them only. -/
theorem Exec.Triple.of_same {α : Type} {P : Analyzer → Prop} {m : Exec α}
    (hP : ∀ st s, s.scopeList = st.scopeList → s.scopeStack = st.scopeStack →
      s.location = st.location → P st → P s)
    (h : Exec.Same m) : Exec.Triple P m (fun _ => P) := by
  intro st hp a s e
  obtain ⟨h1, h2, h3⟩ := h st a s e
  exact hP st s h1 h2 h3 hp

/-- The scope on top of a stack that satisfies the slot discipline. -/
theorem SlotInv.top_slots {st : Analyzer} (h : SlotInv st) {j : Nat} {rest : List (Option Nat)}
    (hstk : st.scopeStack = some j :: rest) :
    ∃ sc k ls, st.scopeList[j]? = some sc ∧ st.location = Int.ofNat k :: ls ∧
      SlotsOk sc k ∧ some j ∉ rest ∧ Live st.scopeList rest ls := by
  have hl := h.1
  rw [hstk] at hl
  cases hloc : st.location with
  | nil => rw [hloc] at hl; exact hl.elim
  | cons l ls =>
    rw [hloc] at hl
    obtain ⟨⟨i, sc, k, hp, hsc, hlk, hk, hn⟩, ht⟩ := hl
    cases hp
    exact ⟨sc, k, ls, hsc, by rw [hlk], hk, hn, ht⟩

/-- A triple holds from a stronger precondition. -/
theorem Exec.Triple.pre {α : Type} {P : Analyzer → Prop} (P2 : Analyzer → Prop) {m : Exec α}
    {Q : α → Analyzer → Prop} (hp : ∀ st, P st → P2 st) (h : Exec.Triple P2 m Q) :
    Exec.Triple P m Q :=
  fun st hP a s e => h st (hp st hP) a s e

/-- A traversal keeps what its two procedures keep. -/
theorem traverse_triple {P : Analyzer → Prop} {preProc postProc : TreeNode → Exec Unit}
    (h1 : ∀ t, Exec.Triple P (preProc t) (fun _ => P))
    (h2 : ∀ t, Exec.Triple P (postProc t) (fun _ => P)) :
    ∀ t, Exec.Triple P (traverse preProc postProc t) (fun _ => P) := by
  intro t
  induction t with
  | null => exact Exec.Triple.pureT fun _ h => h
  | node info c0 c1 c2 sib ih0 ih1 ih2 ih3 =>
    unfold traverse
    exact Exec.Triple.bindT (h1 _) fun _ => Exec.Triple.bindT ih0 fun _ =>
      Exec.Triple.bindT ih1 fun _ => Exec.Triple.bindT ih2 fun _ =>
      Exec.Triple.bindT (h2 _) fun _ => ih3

theorem SlotInv.init (below : Option Nat) (n ln : Nat) : SlotInv (Analyzer.init below n ln) :=
  ⟨trivial, fun j sc h => by simp [Analyzer.init] at h⟩

/-- First character /, in state START. -/
theorem getToken_slash_start (M : Nat) {s : Scanner} {r : List Char}
    (h : s.Ready ('/' :: r)) :
    getToken M s = getTokenLoop M (r.length + 1) .INOVER [] .ERROR (getNextChar s).2 := by
  have hsw : ∀ t : Scanner, switchState .START (some '/') .ERROR t
      = (.INOVER, .ERROR, false, t) := fun t => by simp [switchState, isdigit, isalpha]
  rw [getToken_start_step M hsw (by decide) h]
  rfl

/-- On the source text `/`, where the / is followed by the end of the file
and so not by *, the call returns ENDFILE, not OVER; the tokens of the
source text `1/` are NUM and ENDFILE. -/
theorem getToken_slash_eof_counterexample :
    (∃ s1, getToken 40 (Scanner.init "/".toList) = some (.ENDFILE, [], s1)) ∧
    (¬ ∃ lexeme s1, getToken 40 (Scanner.init "/".toList) = some (.OVER, lexeme, s1)) ∧
    getTokens 40 2 (Scanner.init "1/".toList) = some [(.NUM, ['1']), (.ENDFILE, [])] := by
  have h : (Scanner.init "/".toList).Ready ['/'] := Scanner.init_ready (by decide)
  obtain ⟨-, h2, -⟩ := getNextChar_cons h
  obtain ⟨h3, -, -⟩ := getNextChar_nil h2
  have e : getToken 40 (Scanner.init "/".toList)
      = some (.ENDFILE, [], (getNextChar (getNextChar (Scanner.init "/".toList)).2).2) := by
    rw [getToken_slash_start 40 h, List.length_nil, getTokenLoop_succ 40 _ (by decide), h3]
    simp [switchState, getTokenLoop_done]
  refine ⟨⟨_, e⟩, ?_, ?_⟩
  · rintro ⟨lexeme, s1, h1⟩
    rw [e] at h1
    cases h1
  · simp [getTokens, getToken, getTokenLoop, Scanner.fuel, Scanner.init, getNextChar, fgets,
      fgetsAux, BUFLEN, switchState, isdigit, isalpha, strlen, NUL, ungetNextChar, toChar,
      reservedLookup, reservedLookupFrom, reservedWords, cstr, startToken]

/-- C28: with the scanner about to deliver /, followed by a character c
other than * the call returns OVER and leaves c unconsumed, the next
character delivered being c; when / is the last character of the source,
the call returns ENDFILE, as does every later call. -/
theorem getToken_slash (M : Nat) (s : Scanner) (rest : List Char) :
    (∀ c, c ≠ '*' → s.Ready ('/' :: c :: rest) →
      ∃ s1, getToken M s = some (.OVER, [], s1) ∧ s1.Ready (c :: rest) ∧
        (getNextChar s1).1 = some c) ∧
    (s.Ready ['/'] →
      ∃ s1 s2, getToken M s = some (.ENDFILE, [], s1) ∧
        getToken M s1 = some (.ENDFILE, [], s2)) := by
  constructor
  · intro c hc h
    obtain ⟨-, h2, -⟩ := getNextChar_cons h
    obtain ⟨h3, -, h4⟩ := getNextChar_cons h2
    refine ⟨_, ?_, h4, (getNextChar_cons h4).1⟩
    rw [getToken_slash_start M h, List.length_cons, getTokenLoop_succ M _ (by decide), h3]
    simp [switchState, getTokenLoop_done, hc]
  · intro h
    obtain ⟨-, h2, -⟩ := getNextChar_cons h
    obtain ⟨h3, h4, -⟩ := getNextChar_nil h2
    refine ⟨_, _, ?_, getToken_eof M h4⟩
    rw [getToken_slash_start M h, List.length_nil, getTokenLoop_succ M _ (by decide), h3]
    simp [switchState, getTokenLoop_done]

theorem getToken_slash_witness :
    (Scanner.init "/2".toList).Ready ('/' :: '2' :: []) ∧
    (Scanner.init "/".toList).Ready ['/'] ∧
    (∃ s1, getToken 40 (Scanner.init "/2".toList) = some (.OVER, [], s1) ∧ s1.Ready ['2'] ∧
      (getNextChar s1).1 = some '2') ∧
    (∃ s1 s2, getToken 40 (Scanner.init "/".toList) = some (.ENDFILE, [], s1) ∧
      getToken 40 s1 = some (.ENDFILE, [], s2)) ∧
    getTokens 40 3 (Scanner.init "1/".toList)
      = some [(.NUM, ['1']), (.ENDFILE, []), (.ENDFILE, [])] :=
  ⟨Scanner.init_ready (by decide), Scanner.init_ready (by decide),
    (getToken_slash 40 (Scanner.init "/2".toList) []).1 '2' (by decide)
      (Scanner.init_ready (by decide)),
    (getToken_slash 40 (Scanner.init "/".toList) []).2 (Scanner.init_ready (by decide)),
    by simp [getTokens, getToken, getTokenLoop, Scanner.fuel, Scanner.init, getNextChar, fgets,
      fgetsAux, BUFLEN, switchState, isdigit, isalpha, strlen, NUL, ungetNextChar, toChar,
      reservedLookup, reservedLookupFrom, reservedWords, cstr, startToken]⟩

/-- The loop of getToken stores at most MAXTOKENLEN + 1 characters. -/
theorem getTokenLoop_length (M : Nat) :
    ∀ (fuel : Nat) (state : StateType) (ts : List Char) (tok : TokenType) (s : Scanner)
      (r : TokenType × List Char × Scanner), ts.length ≤ M + 1 →
      getTokenLoop M fuel state ts tok s = some r → r.2.1.length ≤ M + 1 := by
  intro fuel
  induction fuel with
  | zero =>
    intro state ts tok s r hts e
    unfold getTokenLoop at e
    split at e
    · cases e; exact hts
    · cases e
  | succ fuel ih =>
    intro state ts tok s r hts e
    by_cases hst : state = .DONE
    · subst hst
      rw [getTokenLoop_done] at e
      cases e
      exact hts
    · rw [getTokenLoop_succ M fuel hst] at e
      refine ih _ _ _ _ r ?_ e
      split
      · rename_i hc
        rw [List.length_append, List.length_singleton]
        omega
      · exact hts

/-- C27: getToken never stores more than MAXTOKENLEN + 1 characters; but on
a run of MAXTOKENLEN + 1 letters and digits that starts with a letter it
stores them all, one more than MAXTOKENLEN, so that the terminator is
written at index MAXTOKENLEN + 1 of `tokenString`, whose last index is
MAXTOKENLEN. -/
theorem getToken_stored_length (M : Nat) :
    (∀ (s : Scanner) (r : TokenType × List Char × Scanner),
      getToken M s = some r → r.2.1.length ≤ M + 1) ∧
    (∀ (s : Scanner) (a : Char) (w rest : List Char), a.isAlpha = true →
      (∀ c ∈ w, c.isAlpha = true ∨ c.isDigit = true) → (a :: w).length = M + 1 →
      (∀ c ∈ rest.head?, c.isAlpha = false ∧ c.isDigit = false) →
      s.Ready (a :: w ++ rest) →
      ∃ s1, getToken M s = some (reservedLookup (a :: w), a :: w, s1) ∧
        ¬ (a :: w).length ≤ M) := by
  refine ⟨fun s r e => getTokenLoop_length M _ _ _ _ _ r (Nat.zero_le _) e, ?_⟩
  intro s a w rest ha hw hlen hmax h
  rw [List.cons_append] at h
  obtain ⟨h1, h2, -⟩ := getNextChar_cons h
  have htxt : IsText (a :: w) := fun hn =>
    h.isText (by rw [← List.cons_append]; exact List.mem_append_left _ hn)
  obtain ⟨s1, e1, r1⟩ := getTokenLoop_inid M rest hmax w [a] .ERROR _ h2 hw
    (by simp only [List.length_cons, List.length_nil] at hlen ⊢; omega)
  refine ⟨s1, ?_, by omega⟩
  unfold getToken
  rw [h.fuel_eq, List.length_cons, getTokenLoop_succ M _ (by decide), h1]
  have hsw : switchState .START (some a) .ERROR (getNextChar s).2
      = (.INID, .ERROR, true, (getNextChar s).2) := by
    simp [switchState, isdigit, isalpha, ha, not_isDigit_of_isAlpha ha]
  rw [hsw]
  simp only [List.length_nil, Nat.zero_le, and_self, if_true, toChar, reduceCtorEq,
    false_and, if_false, List.nil_append]
  rw [e1, List.singleton_append, cstr_text htxt]

theorem getToken_stored_length_witness :
    (∀ r, getToken 40 (Scanner.init ('a' :: List.replicate 40 'b' ++ [';'])) = some r →
      r.2.1.length ≤ 40 + 1) ∧
    'a'.isAlpha = true ∧
    (∀ c ∈ List.replicate 40 'b', c.isAlpha = true ∨ c.isDigit = true) ∧
    ('a' :: List.replicate 40 'b').length = 40 + 1 ∧
    (∀ c ∈ [';'].head?, c.isAlpha = false ∧ c.isDigit = false) ∧
    (Scanner.init ('a' :: List.replicate 40 'b' ++ [';'])).Ready
      ('a' :: List.replicate 40 'b' ++ [';']) ∧
    ∃ s1, getToken 40 (Scanner.init ('a' :: List.replicate 40 'b' ++ [';']))
        = some (reservedLookup ('a' :: List.replicate 40 'b'), 'a' :: List.replicate 40 'b',
            s1) ∧
      ¬ ('a' :: List.replicate 40 'b').length ≤ 40 :=
  ⟨(getToken_stored_length 40).1 _, by decide, by decide, by decide, by decide,
    Scanner.init_ready (by decide),
    (getToken_stored_length 40).2 (Scanner.init ('a' :: List.replicate 40 'b' ++ [';'])) 'a'
      (List.replicate 40 'b') [';']
      (by decide) (by decide) (by decide) (by decide) (Scanner.init_ready (by decide))⟩

/-! ## The binder at a reference: line numbers -/

/-- C22: the binder at a variable reference or call whose name resolves to
a symbol. When the scope on top of the stack holds a symbol of that name,
the line of the reference is appended to the line list of that symbol. When
it does not, so that the symbol lives in an enclosing scope, `insertNode`
returns without any change: the line is appended to no line list. On the
tree of `int x; void main(void) { x; }`, with the reference on line 3, the
line list of `x` is still [1] after `buildSymtab`. -/
theorem insertNode_reference_lineno :
    (∀ (info : NodeInfo) (c0 c1 c2 sib : TreeNode) (st : Analyzer) (j : Nat)
        (sc : ScopeListRec) (r : Nat × BucketListRec),
      info.nodekind = .VarExpK ∨ info.nodekind = .CallK →
      get_top_scope st = some j → st.scopeList[j]? = some sc →
      st_lookup_return_bucket info.name st = .ok (some r) st → r.2.memloc ≠ -1 →
      (∀ b, findBucket info.name (sc.hashTable (hash info.name)) = some b →
        ∃ sc2, insertNode (.node info c0 c1 c2 sib) st
            = .ok () { st with scopeList := st.scopeList.set j sc2 } ∧
          findBucket info.name (sc2.hashTable (hash info.name))
            = some { b with lines := b.lines ++ [info.lineno] }) ∧
      (findBucket info.name (sc.hashTable (hash info.name)) = none →
        insertNode (.node info c0 c1 c2 sib) st = .ok () st)) ∧
    ((buildSymtab exampleGlobalRef (Analyzer.init none 100 0)).returned = true ∧
      (buildSymtab exampleGlobalRef (Analyzer.init none 100 0)).state.listing = [] ∧
      symbolAt (buildSymtab exampleGlobalRef (Analyzer.init none 100 0)).state 0 "x"
        = some ([1], 2, some 1)) := by
  refine ⟨?_, by decide!⟩
  intro info c0 c1 c2 sib st j sc r hk htop hsc hl hm
  have e : insertNode (.node info c0 c1 c2 sib) st
      = st_insert_lineno info.name info.lineno st := by
    unfold insertNode
    rcases hk with hk | hk <;>
    · simp only [nodeInfo, Exec.pure_bind, hk]
      simp only [Exec.bind_eq, st_lookup, hl, Exec.pure_eq, if_neg hm]
  rw [e]
  constructor
  · intro b hfb
    refine ⟨⟨sc.name, Function.update sc.hashTable (hash info.name)
      (updateBucket info.name (fun b => { b with lines := b.lines ++ [info.lineno] })
        (sc.hashTable (hash info.name))), sc.parent⟩, ?_, ?_⟩
    · simp [st_insert_lineno, Exec.bind_eq, Exec.get, derefScope, htop, hsc, hfb, setScope,
        Exec.modify]
    · simp only [Function.update_same]
      rw [findBucket_updateBucket info.name info.name
        (fun b => { b with lines := b.lines ++ [info.lineno] }) (fun _ => rfl), hfb]
      simp
  · intro hfb
    simp [st_insert_lineno, Exec.bind_eq, Exec.get, derefScope, htop, hsc, hfb, Exec.pure_eq]

theorem insertNode_reference_lineno_witness :
    (exampleRef.nodekind = .VarExpK ∨ exampleRef.nodekind = .CallK) ∧
    get_top_scope exampleTable = some 1 ∧
    exampleTable.scopeList[1]? = some ⟨some "f", fun _ => [], some 0⟩ ∧
    st_lookup_return_bucket "x" exampleTable
      = .ok (some (0, { name := "x", lines := [1], memloc := 0, treeNode := .null }))
          exampleTable ∧
    ((0 : Int) ≠ -1) ∧
    findBucket "x" ((⟨some "f", fun _ => [], some 0⟩ : ScopeListRec).hashTable (hash "x"))
      = none ∧
    insertNode (leaf 7 .VarExpK "x" 2 .Undetermined) exampleTable = .ok () exampleTable :=
  have hl : st_lookup_return_bucket "x" exampleTable
      = .ok (some (0, { name := "x", lines := [1], memloc := 0, treeNode := .null }))
          exampleTable := by
    simp [st_lookup_return_bucket, lookupLoop, exampleTable, get_top_scope, Analyzer.init,
      findBucket]
  ⟨Or.inl rfl, rfl, rfl, hl, by decide, rfl,
    (insertNode_reference_lineno.1
      { id := 7, nodekind := .VarExpK, name := "x", lineno := 2, type := .Undetermined,
        flag := false } .null .null .null .null exampleTable 1 _ _ (Or.inl rfl) rfl rfl hl
      (by decide)).2 rfl⟩
/-! ## The checker at a return: which declaration -/

/-- C23: `checkNode` finds the declaration to check a return statement
against by looking up the name in `curFuncName` from the scope on top of
the stack, and that lookup returns the symbol of that name in the top scope
when there is one, whatever the enclosing scopes hold. On the tree of
`void g(void) { return 1; }` the declaration found at the return is the
declaration of `g`, node 1. On the tree of `void f(int f) { return f; }`
it is the parameter `f`, node 2, of type Int, and not the declaration of
the enclosing function, node 1, of type Void: binder and checker return and
print nothing, although a function of type Void returns a value. -/
theorem return_declaration_by_name :
    (∀ (st : Analyzer) (fname : String) (j : Nat) (sc : ScopeListRec) (b : BucketListRec),
      get_top_scope st = some j → st.scopeList[j]? = some sc →
      findBucket fname (sc.hashTable (hash fname)) = some b →
      st_lookup_return_bucket fname st = .ok (some (j, b)) st) ∧
    ((traverse preProcCheckNode (Exec.checked (returnsAgainst 1) checkNode) exampleVoidReturn
        (buildSymtab exampleVoidReturn (Analyzer.init none 100 0)).state.pushGlobal).returned
        = true ∧
      (typeCheck exampleVoidReturn
        (buildSymtab exampleVoidReturn (Analyzer.init none 100 0)).state).state.listing
        = [.invalidReturn 2]) ∧
    ((buildSymtab exampleShadowReturn (Analyzer.init none 100 0)).returned = true ∧
      (buildSymtab exampleShadowReturn (Analyzer.init none 100 0)).state.listing = [] ∧
      symbolAt (buildSymtab exampleShadowReturn (Analyzer.init none 100 0)).state 0 "f"
        = some ([1], 2, some 1) ∧
      symbolAt (buildSymtab exampleShadowReturn (Analyzer.init none 100 0)).state 2 "f"
        = some ([1, 2], 0, some 2) ∧
      (traverse preProcCheckNode (Exec.checked (returnsAgainst 2) checkNode)
        exampleShadowReturn
        (buildSymtab exampleShadowReturn (Analyzer.init none 100 0)).state.pushGlobal).returned
        = true ∧
      (traverse preProcCheckNode (Exec.checked (returnsAgainst 1) checkNode)
        exampleShadowReturn
        (buildSymtab exampleShadowReturn (Analyzer.init none 100 0)).state.pushGlobal).returned
        = false ∧
      (typeCheck exampleShadowReturn
        (buildSymtab exampleShadowReturn (Analyzer.init none 100 0)).state).returned = true ∧
      (typeCheck exampleShadowReturn
        (buildSymtab exampleShadowReturn (Analyzer.init none 100 0)).state).state.listing
        = []) := by
  refine ⟨?_, by decide!, by decide!⟩
  intro st fname j sc b htop hsc hfb
  simp [st_lookup_return_bucket, htop, lookupLoop, hsc, hfb]

theorem return_declaration_by_name_witness :
    get_top_scope exampleFunTable = some 0 ∧
    (∃ sc, exampleFunTable.scopeList[0]? = some sc ∧
      findBucket "f" (sc.hashTable (hash "f"))
        = some { name := "f", lines := [1], memloc := 0, treeNode := exampleFun } ∧
      st_lookup_return_bucket "f" exampleFunTable
        = .ok (some (0, { name := "f", lines := [1], memloc := 0, treeNode := exampleFun }))
            exampleFunTable) :=
  have hfb : findBucket "f"
      ((⟨some "global", Function.update (fun _ => []) (hash "f")
          [{ name := "f", lines := [1], memloc := 0, treeNode := exampleFun }], none⟩
        : ScopeListRec).hashTable (hash "f"))
      = some { name := "f", lines := [1], memloc := 0, treeNode := exampleFun } := by
    simp [findBucket]
  ⟨rfl, _, rfl, hfb, return_declaration_by_name.1 exampleFunTable "f" 0 _ _ rfl rfl hfb⟩
/-! ## The binder at a function declaration: the scope of the parameters -/

/-- C24: the binder at a function declaration. When the name is new to the
scope `j` on top of the stack, `insertNode` stores the function in scope
`j`, creates a scope named after the function with parent `j`, pushes it
and raises the flag; a parameter that is not the void sentinel and whose
name is new to the top scope is stored in the top scope; the compound
statement that finds the flag raised lowers it and records the top scope.
When scope `j` already holds the name, `insertNode` prints the redefinition
message and creates and pushes no scope, so that the top scope, where the
parameters go, is still the scope that encloses the declaration. On the
tree of `int f(int a) { return a + 1; } void main(void) { f(5); }` the
parameter `a` is in the scope of `f`, scope 2, which the body records, and
not in the global scope. On the tree of `int f(int a) { return a; }
int f(int b) { return b; }` the parameter `b` is in the global scope, and
the body of the second `f` records scope 3, which does not hold `b`. -/
theorem insertNode_function_scope :
    (∀ (info : NodeInfo) (c0 c1 c2 sib : TreeNode) (st : Analyzer) (j : Nat)
        (rest : List (Option Nat)) (sc : ScopeListRec) (l : Int) (ls : List Int),
      info.nodekind = .FunDeclK → st.scopeStack = some j :: rest → st.location = l :: ls →
      st.scopeList[j]? = some sc →
      (findBucket info.name (sc.hashTable (hash info.name)) = none →
        insertNode (.node info c0 c1 c2 sib) st = .ok ()
          { st with
            curFuncName := some info.name
            location := 0 :: (l + 1) :: ls
            scopeList := st.scopeList.set j
              ⟨sc.name, Function.update sc.hashTable (hash info.name)
                (⟨info.name, [info.lineno], l, .node info c0 c1 c2 sib⟩ ::
                  sc.hashTable (hash info.name)), sc.parent⟩
              ++ [⟨some info.name, fun _ => [], some j⟩]
            scopeStack := some st.scopeList.length :: st.scopeStack
            isFuncScopeCreated := true }) ∧
      (∀ b, findBucket info.name (sc.hashTable (hash info.name)) = some b → b.memloc ≠ -1 →
        insertNode (.node info c0 c1 c2 sib) st = .ok ()
          { st with
            curFuncName := some info.name
            listing := st.listing ++ [.redefinedSymbol info.name info.lineno b.lines]
            Error := true })) ∧
    (∀ (info : NodeInfo) (c0 c1 c2 sib : TreeNode) (st : Analyzer) (j : Nat)
        (rest : List (Option Nat)) (sc : ScopeListRec) (l : Int) (ls : List Int),
      info.nodekind = .ParamK → st.fieldType info ≠ .Void →
      st.scopeStack = some j :: rest → st.location = l :: ls →
      st.scopeList[j]? = some sc →
      findBucket info.name (sc.hashTable (hash info.name)) = none →
      ∃ s, insertNode (.node info c0 c1 c2 sib) st = .ok () s ∧
        s.scopeStack = st.scopeStack ∧
        s.scopeList = st.scopeList.set j
          ⟨sc.name, Function.update sc.hashTable (hash info.name)
            (⟨info.name, [info.lineno], l, .node info c0 c1 c2 sib⟩ ::
              sc.hashTable (hash info.name)), sc.parent⟩) ∧
    (∀ (info : NodeInfo) (c0 c1 c2 sib : TreeNode) (st : Analyzer),
      info.nodekind = .CompStmtK → st.isFuncScopeCreated = true →
      insertNode (.node info c0 c1 c2 sib) st = .ok ()
        { st with
          isFuncScopeCreated := false
          nodeScope := Function.update st.nodeScope info.id (some (get_top_scope st)) }) ∧
    ((buildSymtab exampleCallProgram (Analyzer.init none 100 0)).returned = true ∧
      (buildSymtab exampleCallProgram (Analyzer.init none 100 0)).state.listing = [] ∧
      symbolAt (buildSymtab exampleCallProgram (Analyzer.init none 100 0)).state 2 "a"
        = some ([1, 1], 0, some 2) ∧
      symbolAt (buildSymtab exampleCallProgram (Analyzer.init none 100 0)).state 0 "a"
        = none ∧
      (buildSymtab exampleCallProgram (Analyzer.init none 100 0)).state.nodeScope 3
        = some (some 2)) ∧
    ((buildSymtab exampleRedefinedFun (Analyzer.init none 100 0)).returned = true ∧
      (buildSymtab exampleRedefinedFun (Analyzer.init none 100 0)).state.listing
        = [.redefinedSymbol "f" 2 [1]] ∧
      symbolAt (buildSymtab exampleRedefinedFun (Analyzer.init none 100 0)).state 0 "b"
        = some ([2], 3, some 7) ∧
      (buildSymtab exampleRedefinedFun (Analyzer.init none 100 0)).state.nodeScope 8
        = some (some 3) ∧
      symbolAt (buildSymtab exampleRedefinedFun (Analyzer.init none 100 0)).state 3 "b"
        = none) := by
  refine ⟨?_, ?_, ?_, by decide!, by decide!⟩
  · intro info c0 c1 c2 sib st j rest sc l ls hk hstk hloc hsc
    constructor
    · intro hfb
      unfold insertNode
      simp only [nodeInfo, Exec.pure_bind, hk]
      simp [Exec.bind_eq, Exec.modify, st_lookup_current_scope, Exec.get, derefScope,
        get_top_scope, hstk, hsc, hfb, Exec.pure_eq, addLocation, hloc, st_insert, setScope,
        create_scope, push_scope]
    · intro b hfb hm
      unfold insertNode
      simp only [nodeInfo, Exec.pure_bind, hk]
      simp [Exec.bind_eq, Exec.modify, st_lookup_current_scope, Exec.get, derefScope,
        get_top_scope, hstk, hsc, hfb, Exec.pure_eq, hm, st_lookup_return_bucket, lookupLoop,
        redefinedSymbolError, nodeInfo, Exec.deref, report]
  · intro info c0 c1 c2 sib st j rest sc l ls hk hty hstk hloc hsc hfb
    have hT : (st.nodeType info.id).getD info.type = st.fieldType info := rfl
    unfold insertNode
    simp only [nodeInfo, Exec.pure_bind, hk]
    simp only [Exec.bind_eq, typeOf, nodeInfo, Exec.pure_eq, Exec.get, hT, if_neg hty]
    by_cases hva : st.fieldType info = .VoidArray <;> by_cases hc : c0 = .null <;>
    · simp [Exec.cond, hva, hc, voidTypeError, report, nodeInfo, Exec.bind_eq, Exec.modify,
        st_lookup_current_scope, Exec.get, derefScope, get_top_scope, hstk, hsc, hfb,
        Exec.pure_eq, addLocation, hloc, st_insert, setScope, child0, setType]
  · intro info c0 c1 c2 sib st hk hf
    unfold insertNode
    simp only [nodeInfo, Exec.pure_bind, hk]
    simp [Exec.bind_eq, Exec.get, hf, Exec.modify]
    rfl

theorem insertNode_function_scope_witness :
    (∃ s, insertNode (leaf 9 .FunDeclK "g" 4 .Void) exampleFunTable = .ok () s ∧
      s.scopeStack = [some 1, some 0] ∧ s.isFuncScopeCreated = true ∧
      (s.scopeList[1]?).map (fun sc => (sc.name, sc.parent)) = some (some "g", some 0)) ∧
    (∃ s, insertNode (leaf 9 .FunDeclK "f" 4 .Void) exampleFunTable = .ok () s ∧
      s.scopeStack = [some 0] ∧ s.isFuncScopeCreated = false ∧ s.scopeList.length = 1 ∧
      s.listing = [.redefinedSymbol "f" 4 [1]]) ∧
    (∃ s, insertNode (leaf 7 .ParamK "b" 2 .Int) exampleFunTable = .ok () s ∧
      s.scopeStack = [some 0] ∧ symbolAt s 0 "b" = some ([2], 1, some 7)) ∧
    (∃ s, insertNode (leaf 8 .CompStmtK "" 2 .Undetermined)
        { exampleFunTable with isFuncScopeCreated := true } = .ok () s ∧
      s.nodeScope 8 = some (some 0) ∧ s.scopeStack = [some 0]) := by
  have hsc : exampleFunTable.scopeList[0]? = some ⟨some "global",
      Function.update (fun _ => []) (hash "f")
        [{ name := "f", lines := [1], memloc := 0, treeNode := exampleFun }], none⟩ := rfl
  have hg : findBucket "g" ((⟨some "global", Function.update (fun _ => []) (hash "f")
      [{ name := "f", lines := [1], memloc := 0, treeNode := exampleFun }], none⟩
        : ScopeListRec).hashTable (hash "g")) = none := by
    have : hash "g" ≠ hash "f" := by decide
    simp [Function.update_noteq this, findBucket]
  have hb : findBucket "b" ((⟨some "global", Function.update (fun _ => []) (hash "f")
      [{ name := "f", lines := [1], memloc := 0, treeNode := exampleFun }], none⟩
        : ScopeListRec).hashTable (hash "b")) = none := by
    have : hash "b" ≠ hash "f" := by decide
    simp [Function.update_noteq this, findBucket]
  have hf : findBucket "f" ((⟨some "global", Function.update (fun _ => []) (hash "f")
      [{ name := "f", lines := [1], memloc := 0, treeNode := exampleFun }], none⟩
        : ScopeListRec).hashTable (hash "f"))
      = some { name := "f", lines := [1], memloc := 0, treeNode := exampleFun } := by
    simp [findBucket]
  refine ⟨?_, ?_, ?_, ?_⟩
  · exact ⟨_, (insertNode_function_scope.1
      { id := 9, nodekind := .FunDeclK, name := "g", lineno := 4, type := .Void, flag := false }
      .null .null .null .null exampleFunTable 0 [] _ 1 [] rfl rfl rfl hsc).1 hg,
      rfl, rfl, by simp [exampleFunTable, Analyzer.init]⟩
  · exact ⟨_, (insertNode_function_scope.1
      { id := 9, nodekind := .FunDeclK, name := "f", lineno := 4, type := .Void, flag := false }
      .null .null .null .null exampleFunTable 0 [] _ 1 [] rfl rfl rfl hsc).2 _ hf (by decide),
      rfl, rfl, rfl, rfl⟩
  · obtain ⟨s, e, h1, h2⟩ := insertNode_function_scope.2.1
      { id := 7, nodekind := .ParamK, name := "b", lineno := 2, type := .Int, flag := false }
      .null .null .null .null exampleFunTable 0 [] _ 1 [] rfl (by decide) rfl rfl hsc hb
    refine ⟨s, e, h1, ?_⟩
    unfold symbolAt
    rw [h2]
    simp [exampleFunTable, Analyzer.init, findBucket, leaf]
  · exact ⟨_, insertNode_function_scope.2.2.1
      { id := 8, nodekind := .CompStmtK, name := "", lineno := 2, type := .Undetermined,
        flag := false }
      .null .null .null .null { exampleFunTable with isFuncScopeCreated := true } rfl rfl,
      by simp [get_top_scope, exampleFunTable], rfl⟩
/-! ## The checker at a variable reference: its type -/

/-- On the tree of `int a[2]; void main(void) { a[a]; }` the check of the
index fails, the checker printing that indices should be integer; after
checking the reference, node 6, has the type Int, which is not the declared
type of `a`, IntArray (the type of its declaration, node 1). -/
theorem indexed_reference_type_counterexample :
    (typeCheck (exampleIndexProgram (leaf 2 .ConstK "" 1 .Undetermined)
        (leaf 7 .VarExpK "a" 3 .Undetermined))
      (buildSymtab (exampleIndexProgram (leaf 2 .ConstK "" 1 .Undetermined)
        (leaf 7 .VarExpK "a" 3 .Undetermined)) (Analyzer.init none 100 0)).state).returned
      = true ∧
    (typeCheck (exampleIndexProgram (leaf 2 .ConstK "" 1 .Undetermined)
        (leaf 7 .VarExpK "a" 3 .Undetermined))
      (buildSymtab (exampleIndexProgram (leaf 2 .ConstK "" 1 .Undetermined)
        (leaf 7 .VarExpK "a" 3 .Undetermined)) (Analyzer.init none 100 0)).state).state.listing
      = [.invalidArrayIndexingInt 3 "a"] ∧
    (typeCheck (exampleIndexProgram (leaf 2 .ConstK "" 1 .Undetermined)
        (leaf 7 .VarExpK "a" 3 .Undetermined))
      (buildSymtab (exampleIndexProgram (leaf 2 .ConstK "" 1 .Undetermined)
        (leaf 7 .VarExpK "a" 3 .Undetermined)) (Analyzer.init none 100 0)).state).state.nodeType 1
      = some .IntArray ∧
    ¬ ((typeCheck (exampleIndexProgram (leaf 2 .ConstK "" 1 .Undetermined)
        (leaf 7 .VarExpK "a" 3 .Undetermined))
      (buildSymtab (exampleIndexProgram (leaf 2 .ConstK "" 1 .Undetermined)
        (leaf 7 .VarExpK "a" 3 .Undetermined)) (Analyzer.init none 100 0)).state).state.nodeType 6
      = some .IntArray) := by
  decide!

/-- C25, amended: the checker at a variable reference whose name resolves
to a declaration (a symbol whose memory location is not -1, as the binder
leaves every symbol) returns; afterwards the type of the reference is Int
when it has an index child, whether the checks of the indexing succeed or
not, and the declared type of the variable (the type of the declaration
node) when it has no index child. -/
theorem checkNode_variable_type (info vinfo : NodeInfo) (c0 c1 c2 sib v0 v1 v2 v3 : TreeNode)
    (st : Analyzer) (i : Nat) (b : BucketListRec)
    (hk : info.nodekind = .VarExpK)
    (hl : st_lookup_return_bucket info.name st = .ok (some (i, b)) st) (hm : b.memloc ≠ -1)
    (hb : b.treeNode = .node vinfo v0 v1 v2 v3) :
    ∃ s, checkNode (.node info c0 c1 c2 sib) st = .ok () s ∧
      s.nodeType = Function.update st.nodeType info.id
        (some (if c0 = .null then st.fieldType vinfo else .Int)) ∧
      s.fieldType info = (if c0 = .null then st.fieldType vinfo else .Int) := by
  have hV : (st.nodeType vinfo.id).getD vinfo.type = st.fieldType vinfo := rfl
  have key : ∃ s, checkNode (.node info c0 c1 c2 sib) st = .ok () s ∧
      s.nodeType = Function.update st.nodeType info.id
        (some (if c0 = .null then st.fieldType vinfo else .Int)) := by
    unfold checkNode
    simp only [nodeInfo, Exec.pure_bind, hk]
    simp only [Exec.bind_eq, st_lookup, hl, Exec.pure_eq, Exec.cond, if_neg hm, Exec.deref, hb,
      typeOf, nodeInfo, Exec.get, child0]
    cases c0 with
    | null =>
      by_cases h1 : st.fieldType vinfo = .Void ∨ st.fieldType vinfo = .VoidArray <;>
      simp [h1, hV, voidTypeError, report, setType, nodeInfo,
        Exec.bind_eq, Exec.pure_eq, Exec.modify, Exec.get, Exec.cond]
    | node cinfo i0 i1 i2 i3 =>
      have hC : (st.nodeType cinfo.id).getD cinfo.type = st.fieldType cinfo := rfl
      by_cases h1 : st.fieldType vinfo = .Void ∨ st.fieldType vinfo = .VoidArray <;>
      by_cases h2 : st.fieldType cinfo = .Int <;>
      by_cases h3 : st.fieldType vinfo = .IntArray <;>
      simp [h1, h2, h3, hV, hC, voidTypeError,
        invalidArrayIndexingIntError, invalidArrayIndexingNotArrayError, report, setType,
        nodeInfo, Exec.bind_eq, Exec.pure_eq, Exec.modify, Exec.get, Exec.cond]
  obtain ⟨s, e, hn⟩ := key
  refine ⟨s, e, hn, ?_⟩
  show (s.nodeType info.id).getD info.type = _
  rw [hn]
  simp

theorem checkNode_variable_type_witness :
    st_lookup_return_bucket "a" exampleArrayTable
      = .ok (some (0, { name := "a", lines := [1], memloc := 0,
                        treeNode := leaf 1 .VarDeclK "a" 1 .Int })) exampleArrayTable ∧
    (∃ s, checkNode (inner 6 .VarExpK "a" 3 .Undetermined (leaf 7 .VarExpK "a" 3 .IntArray)
        .null .null) exampleArrayTable = .ok () s ∧
      s.fieldType { id := 6, nodekind := .VarExpK, name := "a", lineno := 3,
                    type := .Undetermined, flag := false } = .Int) ∧
    ∃ s, checkNode (leaf 7 .VarExpK "a" 3 .Undetermined) exampleArrayTable = .ok () s ∧
      s.fieldType { id := 7, nodekind := .VarExpK, name := "a", lineno := 3,
                    type := .Undetermined, flag := false } = .IntArray := by
  have hl : st_lookup_return_bucket "a" exampleArrayTable
      = .ok (some (0, { name := "a", lines := [1], memloc := 0,
                        treeNode := leaf 1 .VarDeclK "a" 1 .Int })) exampleArrayTable := by
    simp [st_lookup_return_bucket, lookupLoop, exampleArrayTable, get_top_scope,
      Analyzer.init, findBucket]
  obtain ⟨s, e, -, h⟩ := checkNode_variable_type
    { id := 6, nodekind := .VarExpK, name := "a", lineno := 3, type := .Undetermined,
      flag := false }
    { id := 1, nodekind := .VarDeclK, name := "a", lineno := 1, type := .Int, flag := false }
    (leaf 7 .VarExpK "a" 3 .IntArray) .null .null .null .null .null .null .null
    exampleArrayTable 0
    { name := "a", lines := [1], memloc := 0, treeNode := leaf 1 .VarDeclK "a" 1 .Int }
    rfl hl (by decide) rfl
  obtain ⟨s2, e2, -, h2⟩ := checkNode_variable_type
    { id := 7, nodekind := .VarExpK, name := "a", lineno := 3, type := .Undetermined,
      flag := false }
    { id := 1, nodekind := .VarDeclK, name := "a", lineno := 1, type := .Int, flag := false }
    .null .null .null .null .null .null .null .null
    exampleArrayTable 0
    { name := "a", lines := [1], memloc := 0, treeNode := leaf 1 .VarDeclK "a" 1 .Int }
    rfl hl (by decide) rfl
  refine ⟨hl, ⟨s, e, ?_⟩, s2, e2, ?_⟩
  · rw [h]
    simp [leaf]
  · rw [h2]
    simp [Analyzer.fieldType, exampleArrayTable, Analyzer.init]

/-! ## Parent links -/

theorem ParentInv.of_registry {st s : Analyzer} (h : ParentInv st)
    (h1 : s.scopeList = st.scopeList) (h2 : s.scopeStack = st.scopeStack) : ParentInv s := by
  unfold ParentInv
  rw [h1, h2]
  exact h

theorem ParentPre.same_pre {α : Type} {m : Exec α} (h : Exec.Same m) :
    Exec.Triple ParentPre m (fun _ => ParentPre) :=
  Exec.Triple.of_same
    (fun _ _ h1 h2 _ hp => ⟨hp.1.of_registry h1 h2, by rw [h2]; exact hp.2⟩) h

theorem Created.same_created {α : Type} {m : Exec α} (scope : Option Nat) (h : Exec.Same m) :
    Exec.Triple (Created scope) m (fun _ => Created scope) :=
  Exec.Triple.of_same
    (fun _ _ h1 h2 _ hp => ⟨hp.1.of_registry h1 h2, by rw [h1]; exact hp.2⟩) h

/-- Replacing a registered scope by one with the same parent keeps the
parent links. -/
theorem ParentInv.set_scope {st s : Analyzer} (h : ParentInv st) {j : Nat}
    {sc sc2 : ScopeListRec} (hsc : st.scopeList[j]? = some sc)
    (h1 : s.scopeList = st.scopeList.set j sc2) (h2 : s.scopeStack = st.scopeStack)
    (hp : sc2.parent = sc.parent) : ParentInv s := by
  have hj : j < st.scopeList.length := (List.getElem?_eq_some_iff.1 hsc).1
  refine ⟨?_, ?_⟩
  · intro i sci hsci
    rw [h1] at hsci
    by_cases hij : j = i
    · subst hij
      rw [List.getElem?_set_self hj] at hsci
      cases hsci
      rw [hp]
      exact h.1 j sc hsc
    · rw [List.getElem?_set_ne hij] at hsci
      exact h.1 i sci hsci
  · intro p hp2
    rw [h2] at hp2
    rw [h1, List.length_set]
    exact h.2 p hp2

theorem Exec.Same.derefScopeS (scope : Option Nat) : Exec.Same (derefScope scope) := by
  intro st a s e
  unfold derefScope at e
  split at e
  · cases e
  · split at e
    · cases e
    · cases e; exact ⟨rfl, rfl, rfl⟩

theorem Exec.Same.st_lookup_current_scopeS (name : String) :
    Exec.Same (st_lookup_current_scope name) := by
  intro st a s e
  simp only [st_lookup_current_scope, Exec.bind_eq, Exec.get, derefScope] at e
  cases htop : get_top_scope st with
  | none => rw [htop] at e; cases e
  | some j =>
    rw [htop] at e
    simp only [] at e
    cases hsc : st.scopeList[j]? with
    | none => rw [hsc] at e; cases e
    | some sc =>
      rw [hsc] at e
      simp only [] at e
      cases hfb : findBucket name (sc.hashTable (hash name)) with
      | none => rw [hfb] at e; cases e; exact ⟨rfl, rfl, rfl⟩
      | some b => rw [hfb] at e; cases e; exact ⟨rfl, rfl, rfl⟩

theorem Exec.Same.st_lookupS (name : String) : Exec.Same (st_lookup name) := by
  unfold st_lookup
  refine Exec.Same.bindS (Exec.Same.st_lookup_return_bucketS name) fun r => ?_
  split
  · exact Exec.Same.pureS _
  · exact Exec.Same.pureS _

theorem addLocation_parents : Exec.Triple ParentPre addLocation (fun _ => ParentPre) := by
  intro st hP loc s e
  unfold addLocation at e
  split at e
  · cases e
  · cases e
    exact ⟨hP.1.of_registry rfl rfl, hP.2⟩

theorem st_insert_parents (name : String) (lineno : Nat) (loc : Int) (node : TreeNode) :
    Exec.Triple ParentPre (st_insert name lineno loc node) (fun _ => ParentPre) := by
  intro st hP a s e
  simp only [st_insert, Exec.bind_eq, Exec.get, derefScope] at e
  cases htop : get_top_scope st with
  | none => rw [htop] at e; cases e
  | some j =>
    rw [htop] at e
    simp only [] at e
    cases hsc : st.scopeList[j]? with
    | none => rw [hsc] at e; cases e
    | some sc =>
      rw [hsc] at e
      simp only [] at e
      cases hfb : findBucket name (sc.hashTable (hash name)) with
      | some b =>
        rw [hfb] at e
        cases e
        exact hP
      | none =>
        rw [hfb] at e
        cases e
        exact ⟨hP.1.set_scope hsc rfl rfl rfl, hP.2⟩

theorem st_insert_lineno_parents (name : String) (lineno : Nat) :
    Exec.Triple ParentPre (st_insert_lineno name lineno) (fun _ => ParentPre) := by
  intro st hP a s e
  simp only [st_insert_lineno, Exec.bind_eq, Exec.get, derefScope] at e
  cases htop : get_top_scope st with
  | none => rw [htop] at e; cases e
  | some j =>
    rw [htop] at e
    simp only [] at e
    cases hsc : st.scopeList[j]? with
    | none => rw [hsc] at e; cases e
    | some sc =>
      rw [hsc] at e
      simp only [] at e
      cases hfb : findBucket name (sc.hashTable (hash name)) with
      | none =>
        rw [hfb] at e
        cases e
        exact hP
      | some b =>
        rw [hfb] at e
        cases e
        exact ⟨hP.1.set_scope hsc rfl rfl rfl, hP.2⟩

theorem create_scope_parents (name : Option String) :
    Exec.Triple ParentPre (create_scope name) Created := by
  intro st hP scope s e
  cases e
  obtain ⟨⟨hreg, hstk⟩, hne⟩ := hP
  obtain ⟨p, rest, hs⟩ := List.exists_cons_of_ne_nil hne
  obtain ⟨jt, hpj, hjt⟩ := hstk p (by rw [hs]; exact List.mem_cons_self _ _)
  have htop : get_top_scope st = some jt := by simp [get_top_scope, hs, hpj]
  refine ⟨⟨?_, ?_⟩, st.scopeList.length, rfl, by simp⟩
  · intro i sci hsci
    have hsci2 : (st.scopeList ++ [(⟨name, fun _ => [], get_top_scope st⟩ : ScopeListRec)])[i]?
        = some sci := hsci
    by_cases hi : i < st.scopeList.length
    · rw [List.getElem?_append_left hi] at hsci2
      exact hreg i sci hsci2
    · have hi2 : i < st.scopeList.length + 1 := by
        have := (List.getElem?_eq_some_iff.1 hsci2).1
        simpa using this
      have hil : i = st.scopeList.length := by omega
      subst hil
      have hnew : (st.scopeList ++ [(⟨name, fun _ => [], get_top_scope st⟩ : ScopeListRec)])[
          st.scopeList.length]? = some ⟨name, fun _ => [], get_top_scope st⟩ := by
        simp
      rw [hnew] at hsci2
      cases hsci2
      exact ⟨fun h0 => by omega, fun _ => ⟨jt, htop, hjt⟩⟩
  · intro q hq
    obtain ⟨i, hqi, hi⟩ := hstk q hq
    exact ⟨i, hqi, by
      show i < (st.scopeList ++ [_]).length
      rw [List.length_append]
      omega⟩

theorem push_scope_parents (scope : Option Nat) :
    Exec.Triple (Created scope) (push_scope scope) (fun _ => ParentPre) := by
  rintro st ⟨⟨hreg, hstk⟩, j, rfl, hj⟩ a s e
  cases e
  refine ⟨⟨hreg, ?_⟩, by simp⟩
  intro q hq
  rcases List.mem_cons.1 hq with rfl | hq
  · exact ⟨j, rfl, hj⟩
  · exact hstk q hq

theorem pop_scope_parents : Exec.Triple ParentInv pop_scope (fun _ => ParentInv) := by
  intro st hI a s e
  unfold pop_scope at e
  cases hstk : st.scopeStack with
  | nil => rw [hstk] at e; cases e
  | cons p stack =>
    cases hloc : st.location with
    | nil => rw [hstk, hloc] at e; cases e
    | cons l loc =>
      rw [hstk, hloc] at e
      cases e
      refine ⟨hI.1, fun q hq => hI.2 q ?_⟩
      rw [hstk]
      exact List.mem_cons_of_mem _ hq

/-- Taking a slot and storing a symbol keeps the parent links. -/
theorem insert_parents (name : String) (lineno : Nat) (node : TreeNode) :
    Exec.Triple ParentPre (addLocation >>= fun loc => st_insert name lineno loc node)
      (fun _ => ParentPre) :=
  Exec.Triple.bindT addLocation_parents fun loc => st_insert_parents name lineno loc node

theorem insert_then_parents {β : Type} (name : String) (lineno : Nat) (node : TreeNode)
    {f : Unit → Exec β} {R : β → Analyzer → Prop}
    (h : ∀ u, Exec.Triple ParentPre (f u) R) :
    Exec.Triple ParentPre (addLocation >>= fun loc => st_insert name lineno loc node >>= f) R :=
  Exec.Triple.bindT addLocation_parents fun loc =>
    Exec.Triple.bindT (st_insert_parents name lineno loc node) h

/-- Whatever the node, `insertNode` called with a scope on the stack keeps
the parent links. -/
theorem insertNode_parents (t : TreeNode) :
    Exec.Triple ParentPre (insertNode t) (fun _ => ParentPre) := by
  cases t with
  | null => intro st _ a s e; cases e
  | node info c0 c1 c2 sib =>
    unfold insertNode
    simp only [nodeInfo, Exec.pure_bind]
    cases hkind : info.nodekind
    case VarDeclK =>
      simp only []
      refine Exec.Triple.bindT (ParentPre.same_pre (Exec.Same.typeOfS _)) fun ty => ?_
      refine Exec.Triple.bindT
        (Exec.Triple.condT (ParentPre.same_pre (Exec.Same.voidTypeErrorS _))) fun _ => ?_
      refine Exec.Triple.bindT (ParentPre.same_pre (Exec.Same.child0S _)) fun c => ?_
      refine Exec.Triple.bindT
        (Exec.Triple.condT (ParentPre.same_pre (Exec.Same.setTypeS _ _))) fun _ => ?_
      refine Exec.Triple.bindT
        (ParentPre.same_pre (Exec.Same.st_lookup_current_scopeS _)) fun loc => ?_
      split
      · refine Exec.Triple.bindT
          (ParentPre.same_pre (Exec.Same.st_lookup_return_bucketS _)) fun l => ?_
        refine Exec.Triple.bindT
          (ParentPre.same_pre (Exec.Same.redefinedSymbolErrorS _ _)) fun _ => ?_
        exact st_insert_lineno_parents _ _
      · exact insert_parents _ _ _
    case FunDeclK =>
      simp only []
      refine Exec.Triple.bindT
        (ParentPre.same_pre (Exec.Same.modifyS fun _ => ⟨rfl, rfl, rfl⟩)) fun _ => ?_
      refine Exec.Triple.bindT
        (ParentPre.same_pre (Exec.Same.st_lookup_current_scopeS _)) fun loc => ?_
      split
      · refine Exec.Triple.bindT
          (ParentPre.same_pre (Exec.Same.st_lookup_return_bucketS _)) fun l => ?_
        exact ParentPre.same_pre (Exec.Same.redefinedSymbolErrorS _ _)
      · refine insert_then_parents _ _ _ fun _ => ?_
        refine Exec.Triple.bindT (create_scope_parents _) fun scope => ?_
        refine Exec.Triple.bindT (push_scope_parents scope) fun _ => ?_
        exact ParentPre.same_pre (Exec.Same.modifyS fun _ => ⟨rfl, rfl, rfl⟩)
    case ParamK =>
      simp only []
      refine Exec.Triple.bindT (ParentPre.same_pre (Exec.Same.typeOfS _)) fun ty => ?_
      split
      · exact Exec.Triple.pureT fun _ h => h
      · refine Exec.Triple.bindT
          (Exec.Triple.condT (ParentPre.same_pre (Exec.Same.voidTypeErrorS _))) fun _ => ?_
        refine Exec.Triple.bindT
          (ParentPre.same_pre (Exec.Same.st_lookup_current_scopeS _)) fun loc => ?_
        split
        · refine Exec.Triple.bindT
            (ParentPre.same_pre (Exec.Same.st_lookup_return_bucketS _)) fun l => ?_
          exact ParentPre.same_pre (Exec.Same.redefinedSymbolErrorS _ _)
        · refine insert_then_parents _ _ _ fun _ => ?_
          refine Exec.Triple.bindT (ParentPre.same_pre (Exec.Same.child0S _)) fun c => ?_
          exact Exec.Triple.condT (ParentPre.same_pre (Exec.Same.setTypeS _ _))
    case CompStmtK =>
      simp only []
      refine Exec.Triple.bindT (ParentPre.same_pre Exec.Same.getS) fun st0 => ?_
      refine Exec.Triple.bindT (Q := fun _ => ParentPre) ?_ fun _ =>
        ParentPre.same_pre (Exec.Same.modifyS fun _ => ⟨rfl, rfl, rfl⟩)
      split
      · exact ParentPre.same_pre (Exec.Same.modifyS fun _ => ⟨rfl, rfl, rfl⟩)
      · refine Exec.Triple.bindT (create_scope_parents _) fun scope => ?_
        exact push_scope_parents scope
    case CallK =>
      simp only []
      refine Exec.Triple.bindT (ParentPre.same_pre (Exec.Same.st_lookupS _)) fun loc => ?_
      split
      · refine Exec.Triple.bindT (ParentPre.same_pre (Exec.Same.newTreeNodeS _)) fun n1 => ?_
        refine Exec.Triple.bindT (ParentPre.same_pre (Exec.Same.newTreeNodeS _)) fun n2 => ?_
        exact insert_then_parents _ _ _ fun _ =>
          ParentPre.same_pre (Exec.Same.undeclaredFunctionErrorS _)
      · exact st_insert_lineno_parents _ _
    case VarExpK =>
      simp only []
      refine Exec.Triple.bindT (ParentPre.same_pre (Exec.Same.st_lookupS _)) fun loc => ?_
      split
      · refine Exec.Triple.bindT (ParentPre.same_pre (Exec.Same.newTreeNodeS _)) fun n1 => ?_
        exact insert_then_parents _ _ _ fun _ =>
          ParentPre.same_pre (Exec.Same.undeclaredVariableErrorS _)
      · exact st_insert_lineno_parents _ _
    all_goals exact Exec.Triple.pureT fun _ h => h

theorem push_built_in_functions_parents :
    Exec.Triple ParentPre push_built_in_functions (fun _ => ParentInv) := by
  unfold push_built_in_functions
  refine Exec.Triple.bindT (ParentPre.same_pre (Exec.Same.newTreeNodeS _)) fun n1 => ?_
  refine Exec.Triple.bindT (ParentPre.same_pre (Exec.Same.newTreeNodeS _)) fun n2 => ?_
  refine Exec.Triple.bindT addLocation_parents fun loc => ?_
  refine Exec.Triple.bindT (st_insert_parents _ _ _ _) fun _ => ?_
  refine Exec.Triple.bindT (ParentPre.same_pre (Exec.Same.newTreeNodeS _)) fun n3 => ?_
  refine Exec.Triple.bindT (ParentPre.same_pre (Exec.Same.newTreeNodeS _)) fun n4 => ?_
  dsimp only
  refine Exec.Triple.bindT addLocation_parents fun loc2 => ?_
  refine Exec.Triple.bindT (st_insert_parents _ _ _ _) fun _ => ?_
  refine Exec.Triple.bindT (create_scope_parents _) fun scope => ?_
  refine Exec.Triple.bindT (push_scope_parents scope) fun _ => ?_
  refine insert_then_parents "value" 0 _ fun _ => ?_
  exact Exec.Triple.pre ParentInv (fun _ h => h.1) pop_scope_parents
theorem ParentInv.same_inv {α : Type} {m : Exec α} (h : Exec.Same m) :
    Exec.Triple ParentInv m (fun _ => ParentInv) :=
  Exec.Triple.of_same (fun _ _ h1 h2 _ hp => hp.of_registry h1 h2) h

theorem postProcInsertNode_parents (t : TreeNode) :
    Exec.Triple ParentInv (postProcInsertNode t) (fun _ => ParentInv) :=
  Exec.Triple.bindT (ParentInv.same_inv (Exec.Same.nodeInfoS t)) fun _ =>
    Exec.Triple.condT pop_scope_parents

/-- A procedure that keeps `I` when called in a state with `P` keeps `I`
when guarded by `P`. -/
theorem Exec.Triple.guardedT {P I : Analyzer → Prop} [DecidablePred P]
    {f : TreeNode → Exec Unit} {t : TreeNode}
    (h : Exec.Triple (fun st => I st ∧ P st) (f t) (fun _ => I)) :
    Exec.Triple I (Exec.guarded P f t) (fun _ => I) := by
  intro st hI a s e
  unfold Exec.guarded at e
  split at e
  · rename_i hp
    exact h st ⟨hI, hp⟩ a s e
  · cases e

/-- The state in which the binder starts its traversal satisfies the
invariant of the binder and has parent links that lead downwards. -/
theorem buildSymtab_start (n ln : Nat) :
    ∃ s1, BinderInv s1 ∧ s1.isFuncScopeCreated = false ∧ s1.scopeStack = [some 0] ∧
      ParentInv s1 ∧
      ∀ t, buildSymtab t (Analyzer.init none n ln)
        = (traverse insertNode postProcInsertNode t >>= fun _ => pop_scope) s1 := by
  generalize hs0 : ({ Analyzer.init none n ln with
    scopeList := [⟨some "global", fun _ => [], none⟩]
    globalScope := some 0
    location := [0]
    scopeStack := [some 0] } : Analyzer) = s0
  have hinv0 : BinderInv s0 := by
    subst hs0
    refine ⟨by simp, ?_, rfl, ?_, ?_⟩
    · intro p hp
      rw [List.mem_singleton.1 hp]
      have h0 : ([⟨some "global", fun _ => [], none⟩] : List ScopeListRec)[0]?
          = some ⟨some "global", fun _ => [], none⟩ := rfl
      exact ⟨0, [0], rfl, Chain.scope h0 Chain.null⟩
    · intro l hl
      rw [List.mem_singleton.1 hl]
    · intro j sc hj h x b hb
      cases j with
      | zero =>
        simp only [List.getElem?_cons_zero, Option.some.injEq] at hj
        subst hj
        simp [findBucket] at hb
      | succ j => simp at hj
  have hp0 : ParentPre s0 := by
    subst hs0
    refine ⟨⟨?_, ?_⟩, by simp⟩
    · intro j sc hj
      cases j with
      | zero =>
        simp only [List.getElem?_cons_zero, Option.some.injEq] at hj
        subst hj
        exact ⟨fun _ => rfl, fun h => absurd rfl h⟩
      | succ j => simp at hj
    · intro p hp
      rw [List.mem_singleton.1 hp]
      exact ⟨0, rfl, by simp⟩
  have hk0 : s0.scopeStack = [some 0] ∧ s0.isFuncScopeCreated = false := by
    subst hs0
    exact ⟨rfl, rfl⟩
  have e0 : ∀ t, buildSymtab t (Analyzer.init none n ln)
      = (push_built_in_functions >>= fun _ =>
          traverse insertNode postProcInsertNode t >>= fun _ => pop_scope) s0 := by
    intro t
    subst hs0
    rfl
  obtain ⟨_, s1, e1, hs1, hinv1⟩ := push_built_in_functions_total hinv0
  refine ⟨s1, hinv1, hs1.flag.trans hk0.2, hs1.stack.trans hk0.1,
    push_built_in_functions_parents s0 hp0 () s1 e1, fun t => ?_⟩
  rw [e0 t, Exec.bind_eq, e1]

/-- After the binder, on a tree of the parser's shape, parent links lead
downwards. -/
theorem buildSymtab_parents (t : TreeNode) (n ln : Nat) (hsh : t.Shaped) (hnd : t.ids.Nodup) :
    ∃ s, buildSymtab t (Analyzer.init none n ln) = .ok () s ∧ ParentInv s := by
  obtain ⟨s1, hinv1, hf1, hstk1, hp1, e1⟩ := buildSymtab_start n ln
  obtain ⟨_, s, e, -⟩ := buildSymtab_total t n ln hsh hnd
  refine ⟨s, e, ?_⟩
  rw [e1 t, Exec.bind_eq] at e
  have hb : BaseIs (some 0) s1 := by
    unfold BaseIs
    rw [hstk1]
    rfl
  have hg := traverse_insertNode_guarded (some 0) t hsh hnd s1 hinv1
    (fun h => by rw [hf1] at h; cases h) hb
  cases e2 : traverse insertNode postProcInsertNode t s1 with
  | crash s2 => rw [e2] at e; cases e
  | ok a s2 =>
    rw [e2] at e
    rw [e2] at hg
    have h2 : ParentInv s2 :=
      traverse_triple
        (fun t => Exec.Triple.guardedT
          (Exec.Triple.weaken (insertNode_parents t)
            (fun _ h => ⟨h.1, h.2.nonempty⟩) (fun _ _ h => h.1)))
        (fun t => Exec.Triple.guardedT
          (Exec.Triple.pre ParentInv (fun _ h => h.1) (postProcInsertNode_parents t)))
        t s1 hp1 a s2 hg
    exact pop_scope_parents s2 h2 () s e

/-- Where parent links lead downwards, the links from a registered scope
reach scope 0 and end there. -/
theorem ParentInv.chain {st : Analyzer} (h : ParentInv st) :
    ∀ (j : Nat) (sc : ScopeListRec), st.scopeList[j]? = some sc →
      ∃ l, Chain st.scopeList (some j) l ∧ l.getLast? = some 0 := by
  intro j
  induction j using Nat.strong_induction_on with
  | _ j ih =>
    intro sc hsc
    by_cases hj : j = 0
    · subst hj
      have hp := (h.1 0 sc hsc).1 rfl
      exact ⟨[0], Chain.scope hsc (hp ▸ Chain.null), rfl⟩
    · obtain ⟨p, hp, hlt⟩ := (h.1 j sc hsc).2 hj
      have hpl : p < st.scopeList.length :=
        lt_trans hlt (List.getElem?_eq_some_iff.1 hsc).1
      obtain ⟨l, hc, hl⟩ := ih p hlt (st.scopeList[p]) (List.getElem?_eq_getElem hpl)
      refine ⟨j :: l, Chain.scope hsc (hp ▸ hc), ?_⟩
      cases l with
      | nil => cases hl
      | cons a l => rw [List.getLast?_cons_cons]; exact hl

/-- Along a parent chain a lookup of a name that no registered scope holds
ends, and finds nothing. -/
theorem lookupLoop_nowhere {sl : List ScopeListRec} {p : Option Nat} {l : List Nat}
    (hc : Chain sl p l) (name : String)
    (hno : ∀ (i : Nat) (sc : ScopeListRec), sl[i]? = some sc →
      findBucket name (sc.hashTable (hash name)) = none) :
    lookupLoop sl (hash name) name (sl.length + 1) p = some none := by
  obtain ⟨r, e⟩ := lookupLoop_total sl (hash name) name hc (sl.length + 1)
    (Nat.le_succ_of_le hc.length_le)
  cases r with
  | none => exact e
  | some r =>
    obtain ⟨sc, hsc, hfb⟩ := lookupLoop_some_bucket _ _ r e
    rw [hno r.1 sc hsc] at hfb
    cases hfb
/-- C26: `create_scope` makes the scope on top of the stack the parent of
the new scope, and with an empty stack, as at the start of `buildSymtab`,
what it reads as the top is the word stored below the stack. When that word
is NULL: after `buildSymtab` on a tree of the parser's shape the global
scope, scope 0, has no parent, every other scope has a parent registered
before it, the parent links from any scope reach scope 0 and end there, and
a lookup from any scope of a name that no scope holds ends and finds
nothing. When that word points to the global scope itself, as far as the
code goes an equally possible content: the global scope is its own parent,
the lookup of a name that no scope holds does not end, and the binder does
not return from a tree with an undeclared variable. -/
theorem parent_links :
    (∀ (st : Analyzer) (name : Option String),
      create_scope name st = .ok (some st.scopeList.length)
        { st with
          scopeList := st.scopeList ++ [⟨name, fun _ => [], get_top_scope st⟩] }) ∧
    (∀ (b : Option Nat) (n ln : Nat), get_top_scope (Analyzer.init b n ln) = b) ∧
    (∀ (t : TreeNode) (n ln : Nat), t.Shaped → t.ids.Nodup →
      ∃ s, buildSymtab t (Analyzer.init none n ln) = .ok () s ∧ s.globalScope = some 0 ∧
        ∀ (j : Nat) (sc : ScopeListRec), s.scopeList[j]? = some sc →
          (j = 0 → sc.parent = none) ∧ (j ≠ 0 → ∃ p, sc.parent = some p ∧ p < j) ∧
          (∃ l, Chain s.scopeList (some j) l ∧ l.getLast? = some 0) ∧
          ∀ (name : String),
            (∀ (i : Nat) (sci : ScopeListRec), s.scopeList[i]? = some sci →
              findBucket name (sci.hashTable (hash name)) = none) →
            lookupLoop s.scopeList (hash name) name (s.scopeList.length + 1) (some j)
              = some none) ∧
    ((buildSymtab .null (Analyzer.init (some 0) 100 0)).returned = true ∧
      (buildSymtab .null (Analyzer.init (some 0) 100 0)).state.scopeList.map
          ScopeListRec.parent = [some 0, some 0] ∧
      (st_lookup_return_bucket "zz"
        { (buildSymtab .null (Analyzer.init (some 0) 100 0)).state with
          scopeStack := [some 0] }).returned = false ∧
      (buildSymtab exampleProgram (Analyzer.init (some 0) 100 0)).returned = false) := by
  refine ⟨fun _ _ => rfl, fun _ _ _ => rfl, ?_, by decide!⟩
  intro t n ln hsh hnd
  obtain ⟨s, e, hp⟩ := buildSymtab_parents t n ln hsh hnd
  obtain ⟨_, s2, e2, hg, -⟩ := buildSymtab_total t n ln hsh hnd
  rw [e] at e2
  cases e2
  refine ⟨s, e, hg, fun j sc hsc => ⟨(hp.1 j sc hsc).1, (hp.1 j sc hsc).2, hp.chain j sc hsc,
    fun name hno => ?_⟩⟩
  obtain ⟨l, hc, -⟩ := hp.chain j sc hsc
  exact lookupLoop_nowhere hc name hno

theorem parent_links_witness :
    exampleProgram.Shaped ∧ exampleProgram.ids.Nodup ∧
    ∃ s, buildSymtab exampleProgram (Analyzer.init none 10 0) = .ok () s ∧
      s.globalScope = some 0 ∧
      ∀ (j : Nat) (sc : ScopeListRec), s.scopeList[j]? = some sc →
        (j = 0 → sc.parent = none) ∧ (j ≠ 0 → ∃ p, sc.parent = some p ∧ p < j) ∧
        (∃ l, Chain s.scopeList (some j) l ∧ l.getLast? = some 0) ∧
        ∀ (name : String),
          (∀ (i : Nat) (sci : ScopeListRec), s.scopeList[i]? = some sci →
            findBucket name (sci.hashTable (hash name)) = none) →
          lookupLoop s.scopeList (hash name) name (s.scopeList.length + 1) (some j)
            = some none :=
  have hsh : exampleProgram.Shaped := by
    simp [exampleProgram, TreeNode.Shaped, TreeNode.Quiet, TreeNode.IsCompStmt]
  have hnd : exampleProgram.ids.Nodup := by
    simp [exampleProgram, TreeNode.ids]
  ⟨hsh, hnd, parent_links.2.2.1 exampleProgram 10 0 hsh hnd⟩

/-! ## The checker re-enters the scopes of the binder -/

end CMinus
